import Mathlib

/-!
# fastcache: a shallow embedding of the storage core

The definitions below transcribe `internal/core` of the repository
(`hash.go`, `entry.go`, `arena.go`, `clock.go`, `cache.go`, `logicCache.go`,
`logicCacheShard.go`, `config.go`).

Conventions of the embedding

* Machine integers are natural numbers (or integers) with the wrap-around of
  the Go type written out: `u32 x` is `uint32(x)`, `i64 z` is the two's
  complement `int64` value of `z`.  `int` is taken to be 64 bits wide.
* A byte slice is a `List UInt8`; `nil` is `none` where the source returns it.
* A `*Cache` is a value of `Cache`; a method that mutates the receiver returns
  the new value next to its result.  The mutex is not modelled: every method is
  one atomic step.
* `time.Now().UnixNano()` is an explicit argument `now`.
* The three unbounded `for` loops (`Set`/`Get`/`Delete` probing, `evict`, the
  size loop of `New`) take a fuel argument: `Res.hang` means that the loop did
  not leave within that many iterations.  A run-time panic (index or slice
  bounds out of range) is `Res.panic`.
-/

namespace Fastcache

/-- A byte slice. -/
abbrev Bytes := List UInt8

/-- Outcome of a call: a normal return, a run-time panic, or a loop that has not
returned within the fuel it was given. -/
inductive Res (α : Type) where
  | ok (a : α)
  | panic
  | hang
deriving DecidableEq, Repr

/-- Conversion to `uint16`. -/
def u16 (n : Nat) : Nat := n % 2 ^ 16

/-- Conversion to `uint32`. -/
def u32 (n : Nat) : Nat := n % 2 ^ 32

/-- Conversion to `uint64`. -/
def u64 (n : Nat) : Nat := n % 2 ^ 64

/-- Two-complement wrap of an integer to `int64`. -/
def i64 (z : Int) : Int := (z + 2 ^ 63) % 2 ^ 64 - 2 ^ 63

/-- Conversion of a Go `int` to `uint32`. -/
def u32OfInt (z : Int) : Nat := (z % 2 ^ 32).toNat

/-! ## hash.go -/

/-- `hash`: the loop `h ^= uint64(b[i]); h *= 1099511628211` over the bytes, from the
initial value written in the source. -/
def hash (b : Bytes) : Nat :=
  b.foldl (fun h x => u64 ((h ^^^ x.toNat) * 1099511628211)) 1469598103934665603

/-! ## entry.go -/

/-- `entry`: one slot record. -/
structure entry where
  keyHash : Nat
  keyLen : Nat
  valLen : Nat
  keyOff : Nat
  valOff : Nat
  expire : Int
  used : Nat
deriving DecidableEq, Repr

/-- The zero value `entry{}`. -/
def entry.zero : entry :=
  { keyHash := 0, keyLen := 0, valLen := 0, keyOff := 0, valOff := 0, expire := 0, used := 0 }

/-! ## arena.go -/

/-- `defaultChunkSize`. -/
def defaultChunkSize : Nat := 2 ^ 20

/-- `arena`. -/
structure arena where
  buf : Bytes
  pos : Nat
  chunkSize : Nat
  curChunk : Nat
deriving DecidableEq, Repr

/-- `newArena(size)`: `make([]byte, size)`. -/
def newArena (size : Nat) : arena :=
  { buf := List.replicate size 0, pos := 0, chunkSize := 0, curChunk := 0 }

/-- `newArenaLazy(chunkSize)`: no buffer at all. -/
def newArenaLazy (chunkSize : Int) : arena :=
  { buf := [], pos := 0,
    chunkSize := if chunkSize ≤ 0 then u32 defaultChunkSize else u32OfInt chunkSize,
    curChunk := 0 }

/-- `arena.alloc(n)`: the test is `int(a.pos+n) > len(a.buf)` with the sum taken in
`uint32`; the result is the arena afterwards, the offset and the `ok` flag. -/
def arena.alloc (a : arena) (n : Nat) : arena × Nat × Bool :=
  if a.buf.length < u32 (a.pos + n) then (a, 0, false)
  else ({ a with pos := u32 (a.pos + n) }, a.pos, true)

/-- `arena.reset()`. -/
def arena.reset (a : arena) : arena := { a with pos := 0 }

/-- The slice expression `buf[lo:hi]` is in bounds. -/
def sliceOk (buf : Bytes) (lo hi : Nat) : Prop := lo ≤ hi ∧ hi ≤ buf.length

instance (buf : Bytes) (lo hi : Nat) : Decidable (sliceOk buf lo hi) := by
  unfold sliceOk; infer_instance

/-- The bytes of `buf[lo:hi]`. -/
def slice (buf : Bytes) (lo hi : Nat) : Bytes := (buf.drop lo).take (hi - lo)

/-- `copy(buf[lo:hi], src)`: writes `min (hi - lo) (len src)` bytes of `src` at `lo`. -/
def copyInto (buf : Bytes) (lo hi : Nat) (src : Bytes) : Bytes :=
  buf.take lo ++ src.take (hi - lo) ++ buf.drop (lo + min (hi - lo) src.length)

/-! ## cache.go -/

/-- `Cache`: one shard (the mutex is left out). -/
structure Cache where
  size : Nat
  mask : Nat
  clock : Nat
  entries : List entry
  arena : arena
  stopped : Bool
deriving DecidableEq, Repr

/-- The loop `for size < uint32(capacity) { size <<= 1 }` of `New`. -/
def newSize (capacity : Int) : Nat → Nat → Res Nat
  | 0, _ => Res.hang
  | fuel + 1, size =>
    if size < u32OfInt capacity then newSize capacity fuel (u32 (size * 2)) else Res.ok size

/-- `New(capacity, arenaSize)`. -/
def New (fuel : Nat) (capacity arenaSize : Int) : Res Cache :=
  match newSize capacity fuel 1 with
  | Res.ok size =>
    Res.ok
      { size := size
        mask := u32 (size + 2 ^ 32 - 1)
        clock := 0
        entries := List.replicate size entry.zero
        arena := if arenaSize > 0 then newArena arenaSize.toNat else newArenaLazy 0
        stopped := false }
  | Res.panic => Res.panic
  | Res.hang => Res.hang

/-! ## clock.go -/

/-- `Cache.evict`: the second-chance scan from the clock hand. -/
def Cache.evict : Nat → Cache → Res Cache
  | 0, _ => Res.hang
  | fuel + 1, c =>
    match c.entries[c.clock]? with
    | none => Res.panic
    | some e =>
      if e.used = 0 then
        Res.ok { c with entries := c.entries.set c.clock { e with keyHash := 0 } }
      else
        Cache.evict fuel
          { c with
            entries := c.entries.set c.clock { e with used := 0 }
            clock := u32 (c.clock + 1) &&& c.mask }

/-! ## logicCache.go -/

/-- The two statements `c.evict(); c.arena.reset(); return false` of `Set`. -/
def Cache.setFail (fuel : Nat) (c : Cache) : Res (Bool × Cache) :=
  match Cache.evict fuel c with
  | Res.ok c1 => Res.ok (false, { c1 with arena := c1.arena.reset })
  | Res.panic => Res.panic
  | Res.hang => Res.hang

/-- The body of `Set` once the probe has stopped at slot `i`: two allocations, two
copies, the slot record. -/
def Cache.setAt (fuel : Nat) (c : Cache) (i h : Nat) (key val : Bytes) (exp : Int) :
    Res (Bool × Cache) :=
  match c.arena.alloc (u32 key.length) with
  | (_, _, false) => Cache.setFail fuel c
  | (a1, koff, true) =>
    match a1.alloc (u32 val.length) with
    | (_, _, false) => Cache.setFail fuel { c with arena := a1 }
    | (a2, voff, true) =>
      if sliceOk a2.buf koff (u32 (koff + u32 key.length)) then
        let buf1 := copyInto a2.buf koff (u32 (koff + u32 key.length)) key
        if sliceOk buf1 voff (u32 (voff + u32 val.length)) then
          let buf2 := copyInto buf1 voff (u32 (voff + u32 val.length)) val
          Res.ok (true,
            { c with
              arena := { a2 with buf := buf2 }
              entries := c.entries.set i
                { keyHash := h
                  keyLen := u16 key.length
                  valLen := u32 val.length
                  keyOff := koff
                  valOff := voff
                  expire := exp
                  used := 1 } })
        else Res.panic
      else Res.panic

/-- The probe loop of `Set`, started at slot `i`. -/
def Cache.setLoop (efuel : Nat) (c : Cache) (h : Nat) (key val : Bytes) (exp : Int) :
    Nat → Nat → Res (Bool × Cache)
  | 0, _ => Res.hang
  | fuel + 1, i =>
    match c.entries[i]? with
    | none => Res.panic
    | some e =>
      if e.keyHash = 0 ∨ e.keyHash = h then Cache.setAt efuel c i h key val exp
      else Cache.setLoop efuel c h key val exp fuel (u32 (i + 1) &&& c.mask)

/-- `Cache.Set(key, val, ttl)` at clock reading `now`; the budget `fuel` bounds the probe
loop and, separately, the eviction scan. -/
def Cache.Set (fuel : Nat) (now : Int) (c : Cache) (key val : Bytes) (ttl : Int) :
    Res (Bool × Cache) :=
  if c.stopped then Res.ok (false, c)
  else
    Cache.setLoop fuel c (hash key) key val (if ttl > 0 then i64 (now + ttl) else 0)
      fuel (u32 (hash key) &&& c.mask)

/-- The probe loop of `Get`, started at slot `i`. -/
def Cache.getLoop (now : Int) (c : Cache) (h : Nat) :
    Nat → Nat → Res ((Option Bytes × Bool) × Cache)
  | 0, _ => Res.hang
  | fuel + 1, i =>
    match c.entries[i]? with
    | none => Res.panic
    | some e =>
      if e.keyHash = 0 then Res.ok ((none, false), c)
      else if e.keyHash = h then
        if e.expire > 0 ∧ now > e.expire then
          Res.ok ((none, false), { c with entries := c.entries.set i { e with keyHash := 0 } })
        else if sliceOk c.arena.buf e.valOff (u32 (e.valOff + e.valLen)) then
          Res.ok ((some (slice c.arena.buf e.valOff (u32 (e.valOff + e.valLen))), true),
            { c with entries := c.entries.set i { e with used := 1 } })
        else Res.panic
      else Cache.getLoop now c h fuel (u32 (i + 1) &&& c.mask)

/-- `Cache.Get(key)` at clock reading `now`. -/
def Cache.Get (fuel : Nat) (now : Int) (c : Cache) (key : Bytes) :
    Res ((Option Bytes × Bool) × Cache) :=
  if c.stopped then Res.ok ((none, false), c)
  else Cache.getLoop now c (hash key) fuel (u32 (hash key) &&& c.mask)

/-- The probe loop of `Delete`, started at slot `i`. -/
def Cache.deleteLoop (c : Cache) (h : Nat) : Nat → Nat → Res Cache
  | 0, _ => Res.hang
  | fuel + 1, i =>
    match c.entries[i]? with
    | none => Res.panic
    | some e =>
      if e.keyHash = 0 then Res.ok c
      else if e.keyHash = h then
        Res.ok { c with entries := c.entries.set i { e with keyHash := 0 } }
      else Cache.deleteLoop c h fuel (u32 (i + 1) &&& c.mask)

/-- `Cache.Delete(key)`. -/
def Cache.Delete (fuel : Nat) (c : Cache) (key : Bytes) : Res Cache :=
  Cache.deleteLoop c (hash key) fuel (u32 (hash key) &&& c.mask)

/-- `Cache.Reset()`. -/
def Cache.Reset (c : Cache) : Cache :=
  { c with
    entries := c.entries.map (fun _ => entry.zero)
    arena := c.arena.reset
    clock := 0 }

/-- `Cache.Stop()`. -/
def Cache.Stop (c : Cache) : Cache := { c with stopped := true }

/-- The loop `for i := 0; i < limit; i++` of `Cache.LoadBulk`; `rem` is `limit - i`,
`n` the running count, `now i` the clock reading of the call made for index `i`. -/
def Cache.loadBulkLoop (fuel : Nat) (now : Nat → Int) (keys values : List Bytes) (ttl : Int) :
    Nat → Nat → Nat → Cache → Res (Nat × Cache)
  | 0, _, n, c => Res.ok (n, c)
  | rem + 1, i, n, c =>
    match keys[i]?, values[i]? with
    | some k, some v =>
      match Cache.Set fuel (now i) c k v ttl with
      | Res.ok (true, c1) => Cache.loadBulkLoop fuel now keys values ttl rem (i + 1) (n + 1) c1
      | Res.ok (false, c1) => Cache.loadBulkLoop fuel now keys values ttl rem (i + 1) n c1
      | Res.panic => Res.panic
      | Res.hang => Res.hang
    | _, _ => Res.panic

/-- `Cache.LoadBulk(keys, values, ttl)`. -/
def Cache.LoadBulk (fuel : Nat) (now : Nat → Int) (c : Cache) (keys values : List Bytes)
    (ttl : Int) : Res (Nat × Cache) :=
  let limit := if values.length < keys.length then values.length else keys.length
  Cache.loadBulkLoop fuel now keys values ttl limit 0 0 c

/-! ## logicCacheShard.go -/

/-- `ShardedCache`. -/
structure ShardedCache where
  shards : List Cache
  mask : Nat
deriving DecidableEq, Repr

/-- The index `h & s.mask` used by `ShardedCache.shard`. -/
def ShardedCache.shardIndex (s : ShardedCache) (key : Bytes) : Nat := hash key &&& s.mask

/-- `ShardedCache.shard(key)`: `s.shards[h&s.mask]`. -/
def ShardedCache.shard (s : ShardedCache) (key : Bytes) : Res Cache :=
  match s.shards[s.shardIndex key]? with
  | some c => Res.ok c
  | none => Res.panic

/-- `ShardedCache.Set`. -/
def ShardedCache.Set (fuel : Nat) (now : Int) (s : ShardedCache) (key val : Bytes) (ttl : Int) :
    Res (Bool × ShardedCache) :=
  match s.shard key with
  | Res.ok c =>
    match Cache.Set fuel now c key val ttl with
    | Res.ok (b, c1) => Res.ok (b, { s with shards := s.shards.set (s.shardIndex key) c1 })
    | Res.panic => Res.panic
    | Res.hang => Res.hang
  | Res.panic => Res.panic
  | Res.hang => Res.hang

/-- `ShardedCache.Get`. -/
def ShardedCache.Get (fuel : Nat) (now : Int) (s : ShardedCache) (key : Bytes) :
    Res ((Option Bytes × Bool) × ShardedCache) :=
  match s.shard key with
  | Res.ok c =>
    match Cache.Get fuel now c key with
    | Res.ok (r, c1) => Res.ok (r, { s with shards := s.shards.set (s.shardIndex key) c1 })
    | Res.panic => Res.panic
    | Res.hang => Res.hang
  | Res.panic => Res.panic
  | Res.hang => Res.hang

/-- `ShardedCache.Delete`. -/
def ShardedCache.Delete (fuel : Nat) (s : ShardedCache) (key : Bytes) : Res ShardedCache :=
  match s.shard key with
  | Res.ok c =>
    match Cache.Delete fuel c key with
    | Res.ok c1 => Res.ok { s with shards := s.shards.set (s.shardIndex key) c1 }
    | Res.panic => Res.panic
    | Res.hang => Res.hang
  | Res.panic => Res.panic
  | Res.hang => Res.hang

/-- The loop `for i := 0; i < len(keys); i++` of `ShardedCache.LoadBulk`; `rem` is
`len(keys) - i`.  `values[i]` is indexed without a length check. -/
def ShardedCache.loadBulkLoop (fuel : Nat) (now : Nat → Int) (keys values : List Bytes)
    (ttl : Int) : Nat → Nat → Nat → ShardedCache → Res (Nat × ShardedCache)
  | 0, _, n, s => Res.ok (n, s)
  | rem + 1, i, n, s =>
    match keys[i]?, values[i]? with
    | some k, some v =>
      match ShardedCache.Set fuel (now i) s k v ttl with
      | Res.ok (true, s1) =>
        ShardedCache.loadBulkLoop fuel now keys values ttl rem (i + 1) (n + 1) s1
      | Res.ok (false, s1) =>
        ShardedCache.loadBulkLoop fuel now keys values ttl rem (i + 1) n s1
      | Res.panic => Res.panic
      | Res.hang => Res.hang
    | _, _ => Res.panic

/-- `ShardedCache.LoadBulk(keys, values, ttl)`. -/
def ShardedCache.LoadBulk (fuel : Nat) (now : Nat → Int) (s : ShardedCache)
    (keys values : List Bytes) (ttl : Int) : Res (Nat × ShardedCache) :=
  ShardedCache.loadBulkLoop fuel now keys values ttl keys.length 0 0 s

/-- `ShardedCache.Reset`. -/
def ShardedCache.Reset (s : ShardedCache) : ShardedCache :=
  { s with shards := s.shards.map Cache.Reset }

/-- `ShardedCache.Stop`. -/
def ShardedCache.Stop (s : ShardedCache) : ShardedCache :=
  { s with shards := s.shards.map Cache.Stop }

/-- `ShardedCache.Shards`. -/
def ShardedCache.Shards (s : ShardedCache) : Nat := s.shards.length

/-! ## config.go -/

/-- `Config`; durations are nanosecond counts. -/
structure Config where
  Capacity : Int
  ArenaSize : Int
  Shards : Int
  DefaultTTL : Int
  EnableTTL : Bool
  EnableEviction : Bool
  ResetOnFull : Bool
  PreallocArena : Bool
  ReadOnly : Bool
  EnableStats : Bool
  Debug : Bool
  NodeID : String
  EnableSync : Bool
  EnablePersistence : Bool
  DataDir : String
  SnapshotInterval : Int
deriving DecidableEq, Repr

/-- `Config.ApplyDefaults`. -/
def Config.ApplyDefaults (c : Config) : Config :=
  let c := if c.Capacity = 0 then { c with Capacity := 65536 } else c
  let c := if c.ArenaSize = 0 then { c with ArenaSize := 32 * 2 ^ 20 } else c
  let c := if c.Shards = 0 then { c with Shards := 1 } else c
  let c := if c.DefaultTTL < 0 then { c with DefaultTTL := 0 } else c
  let c := if !c.EnableTTL then { c with EnableTTL := true } else c
  let c := if !c.EnableEviction && !c.ResetOnFull then { c with EnableEviction := true } else c
  let c := if c.SnapshotInterval = 0 then { c with SnapshotInterval := 30 * 1000000000 } else c
  c

/-- `Config.Validate`: `none` is the `nil` error.  The bit test `Shards&(Shards-1)` is only
reached with `Shards > 1`, where both operands are non-negative. -/
def Config.Validate (c : Config) : Option String :=
  if c.Capacity ≤ 0 then some "capacity must be > 0"
  else if c.ArenaSize < 0 then some "arenaSize must be >= 0"
  else if c.Shards < 0 then some "shards must be >= 0"
  else if c.Shards > 1 ∧ c.Shards.toNat &&& (c.Shards - 1).toNat ≠ 0 then
    some "shards must be a power of two"
  else if c.EnablePersistence ∧ c.DataDir = "" then
    some "dataDir must be set when persistence is enabled"
  else none

/-- `NewFromConfig`. -/
def NewFromConfig (fuel : Nat) (cfg : Config) : Res Cache :=
  New fuel cfg.Capacity cfg.ArenaSize

/-- The loop `for i := 0; i < shards; i++ { s.shards[i] = New(...) }`. -/
def newShards (fuel : Nat) (perShardCap perShardArena : Int) : Nat → Res (List Cache)
  | 0 => Res.ok []
  | n + 1 =>
    match New fuel perShardCap perShardArena with
    | Res.ok c =>
      match newShards fuel perShardCap perShardArena n with
      | Res.ok cs => Res.ok (c :: cs)
      | Res.panic => Res.panic
      | Res.hang => Res.hang
    | Res.panic => Res.panic
    | Res.hang => Res.hang

/-- `NewShardedFromConfig`. -/
def NewShardedFromConfig (fuel : Nat) (cfg : Config) : Res ShardedCache :=
  if cfg.Shards ≤ 1 then Res.panic
  else
    match newShards fuel (Int.tdiv cfg.Capacity cfg.Shards)
        (if cfg.ArenaSize > 0 then Int.tdiv cfg.ArenaSize cfg.Shards else 0) cfg.Shards.toNat with
    | Res.ok shards => Res.ok { shards := shards, mask := u64 (cfg.Shards - 1).toNat }
    | Res.panic => Res.panic
    | Res.hang => Res.hang

/-! ## Auxiliary definitions used to state the properties -/

/-- Mapping over the value of a normal return. -/
def Res.map {α β : Type} (f : α → β) : Res α → Res β
  | Res.ok a => Res.ok (f a)
  | Res.panic => Res.panic
  | Res.hang => Res.hang

/-- One call on a single-shard store. -/
inductive Op where
  | set (key val : Bytes) (ttl : Int)
  | get (key : Bytes)
  | delete (key : Bytes)
  | reset
  | stop
deriving DecidableEq, Repr

/-- What a call hands back: the boolean of `Set`, the pair of `Get`, or nothing. -/
inductive Ret where
  | set (ok : Bool)
  | get (val : Option Bytes) (found : Bool)
  | unit
deriving DecidableEq, Repr

/-- Performs one call at clock reading `now`. -/
def Cache.apply (fuel : Nat) (now : Int) (c : Cache) : Op → Res (Ret × Cache)
  | Op.set k v ttl => (Cache.Set fuel now c k v ttl).map (fun r => (Ret.set r.1, r.2))
  | Op.get k => (Cache.Get fuel now c k).map (fun r => (Ret.get r.1.1 r.1.2, r.2))
  | Op.delete k => (Cache.Delete fuel c k).map (fun c1 => (Ret.unit, c1))
  | Op.reset => Res.ok (Ret.unit, c.Reset)
  | Op.stop => Res.ok (Ret.unit, c.Stop)

/-- Performs a finite sequence of calls one after the other; the call at position `i` of the
whole sequence reads the clock as `now i`.  The result lists what each call returned. -/
def Cache.run (fuel : Nat) (now : Nat → Int) :
    Nat → List Op → Cache → Res (List Ret × Cache)
  | _, [], c => Res.ok ([], c)
  | i, op :: ops, c =>
    match Cache.apply fuel (now i) c op with
    | Res.ok (r, c1) => (Cache.run fuel now (i + 1) ops c1).map (fun p => (r :: p.1, p.2))
    | Res.panic => Res.panic
    | Res.hang => Res.hang

/-- The slot at which the probe loops of `Set`, `Get` and `Delete` stop for digest `h`. -/
def Cache.find (c : Cache) (h : Nat) : Nat → Nat → Res Nat
  | 0, _ => Res.hang
  | fuel + 1, i =>
    match c.entries[i]? with
    | none => Res.panic
    | some e =>
      if e.keyHash = 0 ∨ e.keyHash = h then Res.ok i
      else Cache.find c h fuel (u32 (i + 1) &&& c.mask)

/-- The record written by a successful `Set`. -/
def setEntry (c : Cache) (h : Nat) (key val : Bytes) (exp : Int) : entry :=
  { keyHash := h, keyLen := u16 key.length, valLen := val.length, keyOff := c.arena.pos,
    valOff := c.arena.pos + key.length, expire := exp, used := 1 }

/-- The arena buffer after a successful `Set`. -/
def setBuf (c : Cache) (key val : Bytes) : Bytes :=
  copyInto (copyInto c.arena.buf c.arena.pos (c.arena.pos + key.length) key)
    (c.arena.pos + key.length) (c.arena.pos + key.length + val.length) val

/-- The state after a successful `Set` whose probe stopped at slot `j`. -/
def setState (c : Cache) (j h : Nat) (key val : Bytes) (exp : Int) : Cache :=
  { c with
    arena := { c.arena with
      pos := c.arena.pos + key.length + val.length
      buf := setBuf c key val }
    entries := c.entries.set j (setEntry c h key val exp) }

/-- The expiry stamp computed by `Set`. -/
def expiry (now ttl : Int) : Int := if ttl > 0 then i64 (now + ttl) else 0

/-- A two-slot store with a four-byte arena, as `New(2, 4)` builds it. -/
def store24 : Cache :=
  { size := 2, mask := 1, clock := 0, entries := [entry.zero, entry.zero],
    arena := newArena 4, stopped := false }

/-- The store `store24` after a `Set` of key `"a"` with a value of `2 ^ 32` bytes. -/
def store24big (exp : Int) : Cache :=
  { size := 2, mask := 1, clock := 0,
    entries := [{ keyHash := 4953267810257967366, keyLen := 1, valLen := 0, keyOff := 0,
                  valOff := 1, expire := exp, used := 1 }, entry.zero],
    arena := { buf := [97, 0, 0, 0], pos := 1, chunkSize := 0, curChunk := 0 },
    stopped := false }

/-- A value of `2 ^ 32` bytes. -/
def bigValue : Bytes := List.replicate (2 ^ 32) 0

/-- The store `store24` after `Set("a", "11", 0)`. -/
def store24a : Cache :=
  { size := 2, mask := 1, clock := 0,
    entries := [{ keyHash := 4953267810257967366, keyLen := 1, valLen := 2, keyOff := 0,
                  valOff := 1, expire := 0, used := 1 }, entry.zero],
    arena := { buf := [97, 49, 49, 0], pos := 3, chunkSize := 0, curChunk := 0 },
    stopped := false }

/-- The store `store24` after `Set("a", "11", ttl)` with expiry stamp `exp`. -/
def store24ttl (exp : Int) : Cache :=
  { size := 2, mask := 1, clock := 0,
    entries := [{ keyHash := 4953267810257967366, keyLen := 1, valLen := 2, keyOff := 0,
                  valOff := 1, expire := exp, used := 1 }, entry.zero],
    arena := { buf := [97, 49, 49, 0], pos := 3, chunkSize := 0, curChunk := 0 },
    stopped := false }

/-- The store `store24a` after `Delete("a")`. -/
def store24del : Cache :=
  { size := 2, mask := 1, clock := 0,
    entries := [{ keyHash := 0, keyLen := 1, valLen := 2, keyOff := 0,
                  valOff := 1, expire := 0, used := 1 }, entry.zero],
    arena := { buf := [97, 49, 49, 0], pos := 3, chunkSize := 0, curChunk := 0 },
    stopped := false }

/-- A four-slot store with an eight-byte arena, as `New(4, 8)` builds it. -/
def store48 : Cache :=
  { size := 4, mask := 3, clock := 0, entries := List.replicate 4 entry.zero,
    arena := newArena 8, stopped := false }

/-- A configuration with two shards, eight entries and sixteen arena bytes in total. -/
def config2 : Config :=
  { Capacity := 8, ArenaSize := 16, Shards := 2, DefaultTTL := 0, EnableTTL := true,
    EnableEviction := true, ResetOnFull := false, PreallocArena := false, ReadOnly := false,
    EnableStats := false, Debug := false, NodeID := "", EnableSync := false,
    EnablePersistence := false, DataDir := "", SnapshotInterval := 30000000000 }

/-- The router `NewShardedFromConfig(config2)` builds: two shards like `store48`. -/
def router2 : ShardedCache := { shards := [store48, store48], mask := 1 }

/-- A buffer of `2 ^ 32` zero bytes. -/
@[irreducible] def zeros4G : Bytes := List.replicate (2 ^ 32) 0

/-- A one-slot store over an arena of `2 ^ 32` bytes, as `New(1, 4294967296)` builds it. -/
def store4G : Cache :=
  { size := 1, mask := 0, clock := 0, entries := [entry.zero],
    arena := { buf := zeros4G, pos := 0, chunkSize := 0, curChunk := 0 }, stopped := false }

/-- A byte string of `2 ^ 31` bytes. -/
def halfKey : Bytes := List.replicate (2 ^ 31) 0

/-- The shape `New` gives a store: a power-of-two number of slots (at most `2 ^ 31`, the
largest power of two a `uint32` holds), `size` slots in the table, `mask = size - 1`. -/
def Cache.WF (c : Cache) : Prop :=
  ∃ p, p ≤ 31 ∧ c.size = 2 ^ p ∧ c.mask = 2 ^ p - 1 ∧ c.entries.length = 2 ^ p

/-- The number of empty slots (digest 0). -/
def Cache.free (c : Cache) : Nat := c.entries.countP (fun e => e.keyHash = 0)

/-- The loop of `Cache.LoadBulk` read over the list of pairs `(keys[i], values[i])` that is
still to be inserted; `i` is the index of the first of them. -/
def loadPairs (fuel : Nat) (now : Nat → Int) (ttl : Int) :
    List (Bytes × Bytes) → Nat → Nat → Cache → Res (Nat × Cache)
  | [], _, n, c => Res.ok (n, c)
  | (k, v) :: ps, i, n, c =>
    match Cache.Set fuel (now i) c k v ttl with
    | Res.ok (true, c1) => loadPairs fuel now ttl ps (i + 1) (n + 1) c1
    | Res.ok (false, c1) => loadPairs fuel now ttl ps (i + 1) n c1
    | Res.panic => Res.panic
    | Res.hang => Res.hang

/-- Digest `h` is stored with value `v`, readable at time `t`: the probe for `h` stops at a
slot holding `h`, not expired at `t`, whose value range lies in the allocated prefix of the
arena and holds the bytes `v`. -/
def Stored (c : Cache) (fuel : Nat) (t : Int) (h : Nat) (v : Bytes) : Prop :=
  ∃ j e, Cache.find c h fuel (u32 h &&& c.mask) = Res.ok j ∧ c.entries[j]? = some e ∧
    e.keyHash = h ∧ ¬ (e.expire > 0 ∧ t > e.expire) ∧
    e.valOff + e.valLen ≤ c.arena.pos ∧
    slice c.arena.buf e.valOff (e.valOff + e.valLen) = v

/-- The store `store48` after `LoadBulk(["a", "a"], ["1", "2"], 0)`. -/
def store48aa : Cache :=
  { size := 4, mask := 3, clock := 0,
    entries := [entry.zero, entry.zero,
      { keyHash := 4953267810257967366, keyLen := 1, valLen := 1, keyOff := 2, valOff := 3,
        expire := 0, used := 1 }, entry.zero],
    arena := { buf := [97, 49, 97, 50, 0, 0, 0, 0], pos := 4, chunkSize := 0, curChunk := 0 },
    stopped := false }

/-- A one-slot store with an eight-byte arena, as `New(1, 8)` builds it. -/
def store18 : Cache :=
  { size := 1, mask := 0, clock := 0, entries := [entry.zero],
    arena := newArena 8, stopped := false }

/-- The store `store18` after `Set("a", "1", 0)`: its only slot is taken. -/
def store18a : Cache :=
  { size := 1, mask := 0, clock := 0,
    entries := [{ keyHash := 4953267810257967366, keyLen := 1, valLen := 1, keyOff := 0,
                  valOff := 1, expire := 0, used := 1 }],
    arena := { buf := [97, 49, 0, 0, 0, 0, 0, 0], pos := 2, chunkSize := 0, curChunk := 0 },
    stopped := false }

/-- The 64-bit FNV-1a digest as the specification words it: start from the offset basis
`14695981039346656037` (`0xcbf29ce484222325`), and for each byte xor it into the
accumulator, then multiply by the prime `1099511628211` modulo `2 ^ 64`. -/
def specFNV1a64 (b : Bytes) : Nat :=
  b.foldl (fun h x => ((h ^^^ x.toNat) * 1099511628211) % 2 ^ 64) 14695981039346656037

/-- A read-only configuration asking for two entries and four arena bytes; every other
field has its zero value. -/
def configRO : Config :=
  { Capacity := 2, ArenaSize := 4, Shards := 0, DefaultTTL := 0, EnableTTL := false,
    EnableEviction := false, ResetOnFull := false, PreallocArena := false, ReadOnly := true,
    EnableStats := false, Debug := false, NodeID := "", EnableSync := false,
    EnablePersistence := false, DataDir := "", SnapshotInterval := 0 }

/-- The store `store24a` after the failed `Set("b", "22", 0)`: the eviction scan has cleared
the used flag of slot 0 and stopped at slot 1, and the arena is rewound. -/
def store24fail : Cache :=
  { size := 2, mask := 1, clock := 1,
    entries := [{ keyHash := 4953267810257967366, keyLen := 1, valLen := 2, keyOff := 0,
                  valOff := 1, expire := 0, used := 0 }, entry.zero],
    arena := { buf := [97, 49, 49, 0], pos := 0, chunkSize := 0, curChunk := 0 },
    stopped := false }

/-- The store `store24a` after `Set("a", v, 0)` with a value `v` of `2 ^ 32` bytes: the key
is appended at offset 3 and the record has `valLen = 0`. -/
def store24abig : Cache :=
  { size := 2, mask := 1, clock := 0,
    entries := [{ keyHash := 4953267810257967366, keyLen := 1, valLen := 0, keyOff := 3,
                  valOff := 4, expire := 0, used := 1 }, entry.zero],
    arena := { buf := [97, 49, 49, 97], pos := 4, chunkSize := 0, curChunk := 0 },
    stopped := false }

/-- A key of 13 bytes, different from `"a"`, with the digest of `"a"`. -/
def collKey : Bytes := [249, 0, 13, 6, 8, 112, 6, 53, 120, 127, 20, 3, 10]

/-- A two-slot store with a 24-byte arena, as `New(2, 24)` builds it. -/
def store2x24 : Cache :=
  { size := 2, mask := 1, clock := 0, entries := [entry.zero, entry.zero],
    arena := newArena 24, stopped := false }

/-- The store `store2x24` after `Set("a", "11", 0)`. -/
def store2x24a : Cache :=
  { size := 2, mask := 1, clock := 0,
    entries := [{ keyHash := 4953267810257967366, keyLen := 1, valLen := 2, keyOff := 0,
                  valOff := 1, expire := 0, used := 1 }, entry.zero],
    arena := { buf := [97, 49, 49, 0, 0, 0, 0, 0, 0, 0, 0, 0, 0, 0, 0, 0, 0, 0, 0, 0, 0, 0, 0, 0],
               pos := 3, chunkSize := 0, curChunk := 0 },
    stopped := false }

/-- The store `store2x24a` after `Set(collKey, "2", 0)`: slot 0 is overwritten. -/
def store2x24c : Cache :=
  { size := 2, mask := 1, clock := 0,
    entries := [{ keyHash := 4953267810257967366, keyLen := 13, valLen := 1, keyOff := 3,
                  valOff := 16, expire := 0, used := 1 }, entry.zero],
    arena := { buf := [97, 49, 49, 249, 0, 13, 6, 8, 112, 6, 53, 120, 127, 20, 3, 10, 50, 0, 0,
                       0, 0, 0, 0, 0],
               pos := 17, chunkSize := 0, curChunk := 0 },
    stopped := false }

/-- A key of 14 bytes whose digest is 0. -/
def zeroKey : Bytes := [101, 115, 7, 18, 31, 10, 124, 0, 122, 1, 10, 28, 13, 15]

/-- The store `store2x24` after `Set(zeroKey, "1", 0)`: the record in slot 0 has digest 0. -/
def store2x24z : Cache :=
  { size := 2, mask := 1, clock := 0,
    entries := [{ keyHash := 0, keyLen := 14, valLen := 1, keyOff := 0, valOff := 14,
                  expire := 0, used := 1 }, entry.zero],
    arena := { buf := [101, 115, 7, 18, 31, 10, 124, 0, 122, 1, 10, 28, 13, 15, 49, 0, 0, 0, 0,
                       0, 0, 0, 0, 0],
               pos := 15, chunkSize := 0, curChunk := 0 },
    stopped := false }

/-- The probe for digest `h` stops, within `fuel` steps, at a record that carries `h`: a
`Set` of a key with this digest overwrites that record and needs no empty slot. -/
def Cache.holds (c : Cache) (fuel h : Nat) : Bool :=
  match Cache.find c h fuel (u32 h &&& c.mask) with
  | Res.ok j =>
    match c.entries[j]? with
    | some e => decide (e.keyHash = h)
    | none => false
  | _ => false

/-- The distinct digests among the keys of `ps` that the table does not hold yet: each of
them takes an empty slot when it is first set. -/
def newDigests (c : Cache) (fuel : Nat) (ps : List (Bytes × Bytes)) : List Nat :=
  ((ps.map (fun p => hash p.1)).filter (fun h => !c.holds fuel h)).dedup

/-- The store `New(2, 16)` builds, after `LoadBulk(["a", "b"], ["1", "2"], 0)`: both slots
are taken. -/
def store216ab : Cache :=
  { size := 2, mask := 1, clock := 0,
    entries := [{ keyHash := 4953267810257967366, keyLen := 1, valLen := 1, keyOff := 0,
                  valOff := 1, expire := 0, used := 1 },
                { keyHash := 4953266710746339155, keyLen := 1, valLen := 1, keyOff := 2,
                  valOff := 3, expire := 0, used := 1 }],
    arena := { buf := [97, 49, 98, 50, 0, 0, 0, 0, 0, 0, 0, 0, 0, 0, 0, 0], pos := 4,
               chunkSize := 0, curChunk := 0 },
    stopped := false }

/-- The shape every store in use has: the one `New` gives it, with the clock hand inside the
table. -/
def Cache.Shaped (c : Cache) : Prop := c.WF ∧ c.clock < c.size

/-! ## Arithmetic and slice lemmas, the probe loops -/

theorem u32_add_eq {lo n : Nat} (hn : n < 2 ^ 32) (h : lo ≤ u32 (lo + n)) :
    u32 (lo + n) = lo + n := by
  unfold u32 at *
  norm_num at *
  omega

theorem u32_of_lt {n : Nat} (hn : n < 2 ^ 32) : u32 n = n := by
  unfold u32; exact Nat.mod_eq_of_lt hn

theorem length_copyInto {buf src : Bytes} {lo hi : Nat} (h : sliceOk buf lo hi) :
    (copyInto buf lo hi src).length = buf.length := by
  obtain ⟨h1, h2⟩ := h
  simp only [copyInto, List.length_append, List.length_take, List.length_drop]
  omega

theorem slice_copyInto {buf src : Bytes} {lo hi : Nat} (h : sliceOk buf lo hi)
    (hlen : hi - lo = src.length) : slice (copyInto buf lo hi src) lo hi = src := by
  obtain ⟨h1, h2⟩ := h
  have hl : (buf.take lo).length = lo := by simp; omega
  simp only [slice, copyInto, List.append_assoc]
  rw [List.drop_append_of_le_length (by omega), List.drop_of_length_le (by omega)]
  simp [hlen]

theorem setLoop_eq_find (efuel : Nat) (c : Cache) (h : Nat) (key val : Bytes) (exp : Int)
    (fuel i : Nat) :
    Cache.setLoop efuel c h key val exp fuel i =
      match Cache.find c h fuel i with
      | Res.ok j => Cache.setAt efuel c j h key val exp
      | Res.panic => Res.panic
      | Res.hang => Res.hang := by
  induction fuel generalizing i with
  | zero => simp [Cache.setLoop, Cache.find]
  | succ n ih =>
    simp only [Cache.setLoop, Cache.find]
    cases hq : c.entries[i]? with
    | none => simp
    | some e =>
      by_cases hc : e.keyHash = 0 ∨ e.keyHash = h
      · simp [hc]
      · simp only [hc, if_false]; exact ih _

theorem getLoop_eq_find (now : Int) (c : Cache) (h : Nat) (fuel i : Nat) :
    Cache.getLoop now c h fuel i =
      match Cache.find c h fuel i with
      | Res.ok j => Cache.getLoop now c h 1 j
      | Res.panic => Res.panic
      | Res.hang => Res.hang := by
  induction fuel generalizing i with
  | zero => simp [Cache.getLoop, Cache.find]
  | succ n ih =>
    simp only [Cache.getLoop, Cache.find]
    cases hq : c.entries[i]? with
    | none => simp
    | some e =>
      by_cases h0 : e.keyHash = 0
      · simp [h0, hq]
      · by_cases hh : e.keyHash = h
        · simp [h0, hh, hq]
        · simp only [h0, hh, if_false, or_self]; exact ih _

theorem deleteLoop_eq_find (c : Cache) (h : Nat) (fuel i : Nat) :
    Cache.deleteLoop c h fuel i =
      match Cache.find c h fuel i with
      | Res.ok j => Cache.deleteLoop c h 1 j
      | Res.panic => Res.panic
      | Res.hang => Res.hang := by
  induction fuel generalizing i with
  | zero => simp [Cache.deleteLoop, Cache.find]
  | succ n ih =>
    simp only [Cache.deleteLoop, Cache.find]
    cases hq : c.entries[i]? with
    | none => simp
    | some e =>
      by_cases h0 : e.keyHash = 0
      · simp [h0, hq]
      · by_cases hh : e.keyHash = h
        · simp [h0, hh, hq]
        · simp only [h0, hh, if_false, or_self]; exact ih _

theorem find_ok_stop {c : Cache} {h fuel i j : Nat} (hf : Cache.find c h fuel i = Res.ok j) :
    ∃ e, c.entries[j]? = some e ∧ (e.keyHash = 0 ∨ e.keyHash = h) := by
  induction fuel generalizing i with
  | zero => simp [Cache.find] at hf
  | succ n ih =>
    simp only [Cache.find] at hf
    cases hq : c.entries[i]? with
    | none => simp [hq] at hf
    | some e =>
      simp only [hq] at hf
      by_cases hc : e.keyHash = 0 ∨ e.keyHash = h
      · simp only [hc, if_true, Res.ok.injEq] at hf
        subst hf
        exact ⟨e, hq, hc⟩
      · simp only [hc, if_false] at hf
        exact ih hf

/-- Rewriting a slot at which the probe for `h` stops by a record at which it still stops
does not change where the probe stops. -/
theorem find_set_stop {c c1 : Cache} {h j : Nat} {e e1 : entry}
    (hm : c1.mask = c.mask) (he : c1.entries = c.entries.set j e1)
    (hj : c.entries[j]? = some e) (hs : e.keyHash = 0 ∨ e.keyHash = h)
    (hs1 : e1.keyHash = 0 ∨ e1.keyHash = h) (fuel i : Nat) :
    Cache.find c1 h fuel i = Cache.find c h fuel i := by
  induction fuel generalizing i with
  | zero => simp [Cache.find]
  | succ n ih =>
    simp only [Cache.find, he, hm]
    by_cases hij : j = i
    · subst hij
      have hlt : j < c.entries.length := by
        rcases Nat.lt_or_ge j c.entries.length with h1 | h1
        · exact h1
        · rw [List.getElem?_eq_none h1] at hj; cases hj
      simp [List.getElem?_set_self, hlt, hj, hs, hs1]
    · rw [List.getElem?_set_ne hij]
      cases hq : c.entries[i]? with
      | none => rfl
      | some e2 =>
        by_cases hc : e2.keyHash = 0 ∨ e2.keyHash = h
        · simp [hc]
        · simp only [hc, if_false]; exact ih _

/-! ## The body of `Set` -/

theorem setFail_ne_true {fuel : Nat} {c c1 : Cache} :
    Cache.setFail fuel c ≠ Res.ok (true, c1) := by
  unfold Cache.setFail
  cases Cache.evict fuel c <;> simp

/-- What a successful `Set` body has done: both slice expressions were in bounds, no
`uint32` sum wrapped, and the state is the old one with the two copies and the new record. -/
theorem setAt_true {fuel : Nat} {c c1 : Cache} {j h : Nat} {key val : Bytes} {exp : Int}
    (hk : key.length < 2 ^ 32) (hv : val.length < 2 ^ 32)
    (hs : Cache.setAt fuel c j h key val exp = Res.ok (true, c1)) :
    c.arena.pos + key.length + val.length ≤ c.arena.buf.length ∧
    c.arena.pos + key.length + val.length < 2 ^ 32 ∧
    c1 = { c with
      arena := { c.arena with
        pos := c.arena.pos + key.length + val.length
        buf := copyInto (copyInto c.arena.buf c.arena.pos (c.arena.pos + key.length) key)
          (c.arena.pos + key.length) (c.arena.pos + key.length + val.length) val }
      entries := c.entries.set j
        { keyHash := h, keyLen := u16 key.length, valLen := val.length, keyOff := c.arena.pos,
          valOff := c.arena.pos + key.length, expire := exp, used := 1 } } := by
  unfold Cache.setAt arena.alloc at hs
  rw [u32_of_lt hk, u32_of_lt hv] at hs
  by_cases h1 : c.arena.buf.length < u32 (c.arena.pos + key.length)
  · simp only [h1, if_true] at hs
    exact absurd hs setFail_ne_true
  · simp only [h1, if_false] at hs
    by_cases h2 : c.arena.buf.length < u32 (u32 (c.arena.pos + key.length) + val.length)
    · simp only [h2, if_true] at hs
      exact absurd hs setFail_ne_true
    · simp only [h2, if_false] at hs
      by_cases h3 : sliceOk c.arena.buf c.arena.pos (u32 (c.arena.pos + key.length))
      · simp only [h3, if_true] at hs
        have e1 : u32 (c.arena.pos + key.length) = c.arena.pos + key.length :=
          u32_add_eq hk h3.1
        rw [e1] at hs h3
        by_cases h4 : sliceOk (copyInto c.arena.buf c.arena.pos (c.arena.pos + key.length) key)
            (c.arena.pos + key.length) (u32 (c.arena.pos + key.length + val.length))
        · simp only [h4, if_true] at hs
          have e2 : u32 (c.arena.pos + key.length + val.length)
              = c.arena.pos + key.length + val.length := u32_add_eq hv h4.1
          rw [e2] at hs h4
          have hl := h4.2
          rw [length_copyInto h3] at hl
          refine ⟨hl, ?_, ?_⟩
          · have := Nat.mod_lt (c.arena.pos + key.length + val.length)
              (show 0 < 2 ^ 32 by norm_num)
            unfold u32 at e2
            omega
          · simp only [Res.ok.injEq, Prod.mk.injEq, true_and] at hs
            exact hs.symm
        · simp [h4] at hs
      · simp [h3] at hs

/-! ## `Set` followed by `Get` -/

theorem Set_true_spec {fuel : Nat} {now : Int} {c c1 : Cache} {key val : Bytes} {ttl : Int}
    (hk : key.length < 2 ^ 32) (hv : val.length < 2 ^ 32)
    (hs : Cache.Set fuel now c key val ttl = Res.ok (true, c1)) :
    c.stopped = false ∧
    ∃ j e, Cache.find c (hash key) fuel (u32 (hash key) &&& c.mask) = Res.ok j ∧
      c.entries[j]? = some e ∧ (e.keyHash = 0 ∨ e.keyHash = hash key) ∧
      c.arena.pos + key.length + val.length ≤ c.arena.buf.length ∧
      c.arena.pos + key.length + val.length < 2 ^ 32 ∧
      c1 = setState c j (hash key) key val (expiry now ttl) := by
  unfold Cache.Set at hs
  cases hst : c.stopped with
  | true => simp [hst] at hs
  | false =>
    simp only [hst, Bool.false_eq_true, if_false] at hs
    rw [setLoop_eq_find] at hs
    refine ⟨rfl, ?_⟩
    cases hf : Cache.find c (hash key) fuel (u32 (hash key) &&& c.mask) with
    | panic => simp [hf] at hs
    | hang => simp [hf] at hs
    | ok j =>
      simp only [hf] at hs
      obtain ⟨e, he, hstop⟩ := find_ok_stop hf
      obtain ⟨h1, h2, h3⟩ := setAt_true hk hv hs
      exact ⟨j, e, rfl, he, hstop, h1, h2, h3⟩

theorem getElem?_lt {α : Type} {l : List α} {j : Nat} {e : α} (h : l[j]? = some e) :
    j < l.length := by
  rcases Nat.lt_or_ge j l.length with h1 | h1
  · exact h1
  · rw [List.getElem?_eq_none h1] at h; cases h

/-- `Get` right after a successful `Set` of the same key: the probe stops at the slot
just written, and the outcome depends only on the expiry test. -/
theorem Get_setState {fuel : Nat} {t1 : Int} {c : Cache} {key val : Bytes} {exp : Int}
    {j : Nat} {e : entry}
    (hst : c.stopped = false) (hh : hash key ≠ 0)
    (hf : Cache.find c (hash key) fuel (u32 (hash key) &&& c.mask) = Res.ok j)
    (he : c.entries[j]? = some e) (hstop : e.keyHash = 0 ∨ e.keyHash = hash key)
    (hfit : c.arena.pos + key.length + val.length ≤ c.arena.buf.length)
    (hlt : c.arena.pos + key.length + val.length < 2 ^ 32) :
    Cache.Get fuel t1 (setState c j (hash key) key val exp) key =
      if exp > 0 ∧ t1 > exp then
        Res.ok ((none, false),
          { setState c j (hash key) key val exp with
            entries := (setState c j (hash key) key val exp).entries.set j
              { setEntry c (hash key) key val exp with keyHash := 0 } })
      else Res.ok ((some val, true), setState c j (hash key) key val exp) := by
  have hj := getElem?_lt he
  unfold Cache.Get
  have hst1 : (setState c j (hash key) key val exp).stopped = false := hst
  simp only [hst1, Bool.false_eq_true, if_false]
  rw [getLoop_eq_find]
  have hm : (setState c j (hash key) key val exp).mask = c.mask := rfl
  rw [hm, find_set_stop hm rfl he hstop (Or.inr rfl), hf]
  simp only [Cache.getLoop]
  have hget : (setState c j (hash key) key val exp).entries[j]?
      = some (setEntry c (hash key) key val exp) := by
    simp [setState, List.getElem?_set_self, hj]
  rw [hget]
  have hkh : (setEntry c (hash key) key val exp).keyHash = hash key := rfl
  simp only [hkh, hh, if_false, if_true]
  by_cases hexp : exp > 0 ∧ t1 > exp
  · have : (setEntry c (hash key) key val exp).expire = exp := rfl
    simp only [this, hexp, and_self, if_true, hst1, hm]
  · have : (setEntry c (hash key) key val exp).expire = exp := rfl
    simp only [this, hexp, if_false]
    have e1 : u32 ((setEntry c (hash key) key val exp).valOff
        + (setEntry c (hash key) key val exp).valLen)
        = c.arena.pos + key.length + val.length := u32_of_lt hlt
    have e0 : (setEntry c (hash key) key val exp).valOff = c.arena.pos + key.length := rfl
    rw [e1, e0]
    have hb : (setState c j (hash key) key val exp).arena.buf = setBuf c key val := rfl
    rw [hb]
    have ok1 : sliceOk c.arena.buf c.arena.pos (c.arena.pos + key.length) :=
      ⟨by omega, by omega⟩
    have ok2 : sliceOk (copyInto c.arena.buf c.arena.pos (c.arena.pos + key.length) key)
        (c.arena.pos + key.length) (c.arena.pos + key.length + val.length) :=
      ⟨by omega, by rw [length_copyInto ok1]; omega⟩
    have ok3 : sliceOk (setBuf c key val) (c.arena.pos + key.length)
        (c.arena.pos + key.length + val.length) :=
      ⟨by omega, by unfold setBuf; rw [length_copyInto ok2, length_copyInto ok1]; omega⟩
    simp only [ok3, if_true]
    have hsl : slice (setBuf c key val) (c.arena.pos + key.length)
        (c.arena.pos + key.length + val.length) = val :=
      slice_copyInto ok2 (by omega)
    rw [hsl]
    simp [setState, setEntry, hst]

/-! ## `Delete` followed by `Get` -/

theorem i64_of_range {z : Int} (h1 : -(2 ^ 63) ≤ z) (h2 : z < 2 ^ 63) : i64 z = z := by
  unfold i64
  norm_num at *
  omega

/-- `Get` right after a `Delete` of the same key that returned. -/
theorem Get_after_Delete {fuel : Nat} {t : Int} {c c1 : Cache} {k : Bytes}
    (hd : Cache.Delete fuel c k = Res.ok c1) :
    Cache.Get fuel t c1 k = Res.ok ((none, false), c1) := by
  unfold Cache.Delete at hd
  rw [deleteLoop_eq_find] at hd
  unfold Cache.Get
  by_cases hst : c1.stopped = true
  · simp [hst]
  · rw [if_neg hst, getLoop_eq_find]
    cases hf : Cache.find c (hash k) fuel (u32 (hash k) &&& c.mask) with
    | panic => simp [hf] at hd
    | hang => simp [hf] at hd
    | ok j =>
      simp only [hf] at hd
      obtain ⟨e, he, hstop⟩ := find_ok_stop hf
      have hj := getElem?_lt he
      simp only [Cache.deleteLoop, he] at hd
      by_cases h0 : e.keyHash = 0
      · simp only [h0, if_true, Res.ok.injEq] at hd
        subst hd
        rw [hf]
        simp [Cache.getLoop, he, h0]
      · have hh : e.keyHash = hash k := by tauto
        rw [if_neg h0, if_pos hh, Res.ok.injEq] at hd
        subst hd
        have hfs := @find_set_stop c
          { c with entries := c.entries.set j { e with keyHash := 0 } }
          (hash k) j e { e with keyHash := 0 } rfl rfl he hstop (Or.inl rfl) fuel
          (u32 (hash k) &&& c.mask)
        rw [hf] at hfs
        simp [hfs, Cache.getLoop, List.getElem?_set_self, hj]

/-! ## Concrete stores and a value of `2 ^ 32` bytes -/

theorem length_bigValue : bigValue.length = 2 ^ 32 := by
  unfold bigValue
  exact List.length_replicate _ _

theorem hash_a : hash [97] = 4953267810257967366 := by decide

theorem Set_wrapped_value (v : Bytes) (hv : v.length = 2 ^ 32) (t0 ttl : Int) :
    Cache.Set 1 t0 store24 [97] v ttl = Res.ok (true, store24big (expiry t0 ttl)) := by
  have hi : u32 4953267810257967366 &&& store24.mask = 0 := by decide
  have hl : u32 v.length = 0 := by rw [hv]; decide
  have hst : store24.stopped = false := rfl
  have g : store24.entries[0]? = some entry.zero := rfl
  have a1 : store24.arena.alloc (u32 ([97] : Bytes).length)
      = ({ buf := [0, 0, 0, 0], pos := 1, chunkSize := 0, curChunk := 0 }, 0, true) := by decide
  have a2 : arena.alloc { buf := [0, 0, 0, 0], pos := 1, chunkSize := 0, curChunk := 0 } 0
      = ({ buf := [0, 0, 0, 0], pos := 1, chunkSize := 0, curChunk := 0 }, 1, true) := by decide
  have s1 : sliceOk ([0, 0, 0, 0] : Bytes) 0 (u32 (0 + u32 ([97] : Bytes).length)) := by decide
  have c1 : copyInto ([0, 0, 0, 0] : Bytes) 0 (u32 (0 + u32 ([97] : Bytes).length)) [97]
      = [97, 0, 0, 0] := by decide
  have e2 : u32 (1 + 0) = 1 := by decide
  have s2 : sliceOk ([97, 0, 0, 0] : Bytes) 1 1 := by decide
  have c2 : copyInto ([97, 0, 0, 0] : Bytes) 1 1 v = [97, 0, 0, 0] := by
    simp [copyInto]
  unfold Cache.Set
  rw [hst]
  simp only [Bool.false_eq_true, if_false]
  rw [hash_a, hi]
  simp only [Cache.setLoop]
  rw [g]
  simp only [entry.zero, true_or, if_true]
  unfold Cache.setAt
  rw [a1]
  simp only []
  rw [hl, a2]
  simp only []
  rw [if_pos s1, c1, e2, if_pos s2, c2]
  rfl

theorem Get_wrapped_value (exp : Int) (t1 : Int) (h : ¬ (exp > 0 ∧ t1 > exp)) :
    Cache.Get 1 t1 (store24big exp) [97] = Res.ok ((some [], true), store24big exp) := by
  have hi : u32 4953267810257967366 &&& 1 = 0 := by decide
  have hne : ¬ ((4953267810257967366 : Nat) = 0) := by decide
  have e1 : u32 (1 + 0) = 1 := by decide
  have s2 : sliceOk ([97, 0, 0, 0] : Bytes) 1 1 := by decide
  unfold Cache.Get
  simp only [store24big, Bool.false_eq_true, if_false]
  rw [hash_a, hi]
  simp only [Cache.getLoop]
  simp only [List.getElem?_cons_zero]
  rw [if_neg hne]
  simp only [if_true]
  rw [if_neg h, e1, if_pos s2]
  rfl

/-! ## A `Set` that returns true, for keys and values of any length -/

/-- What a successful `Set` body has done, for a key and a value of any length: the state
is the old one with a new arena and a new record in slot `j`; the record carries the digest
and the expiry stamp, and when the value is shorter than `2 ^ 32` bytes the value range of
the record is in bounds and holds exactly the value. -/
theorem setAt_true_any {fuel : Nat} {c c1 : Cache} {j h : Nat} {key val : Bytes} {exp : Int}
    (hs : Cache.setAt fuel c j h key val exp = Res.ok (true, c1)) :
    ∃ (a : arena) (e1 : entry), c1 = { c with arena := a, entries := c.entries.set j e1 } ∧
      e1.keyHash = h ∧ e1.expire = exp ∧ e1.used = 1 ∧
      (val.length < 2 ^ 32 → sliceOk a.buf e1.valOff (u32 (e1.valOff + e1.valLen)) ∧
        slice a.buf e1.valOff (u32 (e1.valOff + e1.valLen)) = val) := by
  unfold Cache.setAt arena.alloc at hs
  by_cases h1 : c.arena.buf.length < u32 (c.arena.pos + u32 key.length)
  · simp only [h1, if_true] at hs
    exact absurd hs setFail_ne_true
  · simp only [h1, if_false] at hs
    by_cases h2 : c.arena.buf.length <
        u32 (u32 (c.arena.pos + u32 key.length) + u32 val.length)
    · simp only [h2, if_true] at hs
      exact absurd hs setFail_ne_true
    · simp only [h2, if_false] at hs
      by_cases h3 : sliceOk c.arena.buf c.arena.pos (u32 (c.arena.pos + u32 key.length))
      · simp only [h3, if_true] at hs
        by_cases h4 : sliceOk
            (copyInto c.arena.buf c.arena.pos (u32 (c.arena.pos + u32 key.length)) key)
            (u32 (c.arena.pos + u32 key.length))
            (u32 (u32 (c.arena.pos + u32 key.length) + u32 val.length))
        · simp only [h4, if_true, Res.ok.injEq, Prod.mk.injEq, true_and] at hs
          refine ⟨_, _, hs.symm, rfl, rfl, rfl, ?_⟩
          intro hv
          simp only []
          rw [u32_of_lt hv] at h4 ⊢
          have e2 := u32_add_eq hv h4.1
          rw [e2] at h4 ⊢
          exact ⟨⟨h4.1, by rw [length_copyInto h4]; exact h4.2⟩,
            slice_copyInto h4 (by omega)⟩
        · simp [h4] at hs
      · simp [h3] at hs

/-- What a `Set` that returns true has done, for a key and a value of any length. -/
theorem Set_true_any {fuel : Nat} {now : Int} {c c1 : Cache} {key val : Bytes} {ttl : Int}
    (hs : Cache.Set fuel now c key val ttl = Res.ok (true, c1)) :
    c.stopped = false ∧
    ∃ (j : Nat) (e : entry) (a : arena) (e1 : entry),
      Cache.find c (hash key) fuel (u32 (hash key) &&& c.mask) = Res.ok j ∧
      c.entries[j]? = some e ∧ (e.keyHash = 0 ∨ e.keyHash = hash key) ∧
      c1 = { c with arena := a, entries := c.entries.set j e1 } ∧
      e1.keyHash = hash key ∧ e1.expire = expiry now ttl ∧ e1.used = 1 ∧
      (val.length < 2 ^ 32 → sliceOk a.buf e1.valOff (u32 (e1.valOff + e1.valLen)) ∧
        slice a.buf e1.valOff (u32 (e1.valOff + e1.valLen)) = val) := by
  unfold Cache.Set at hs
  have hst : c.stopped = false := by
    cases h : c.stopped with
    | false => rfl
    | true => simp [h] at hs
  rw [hst] at hs
  simp only [Bool.false_eq_true, if_false] at hs
  rw [setLoop_eq_find] at hs
  refine ⟨hst, ?_⟩
  cases hf : Cache.find c (hash key) fuel (u32 (hash key) &&& c.mask) with
  | panic => simp [hf] at hs
  | hang => simp [hf] at hs
  | ok j =>
    simp only [hf] at hs
    obtain ⟨e, he, hstop⟩ := find_ok_stop hf
    obtain ⟨a, e1, g1, g2, g3, g4, g5⟩ := setAt_true_any hs
    exact ⟨j, e, a, e1, rfl, he, hstop, g1, g2, g3, g4, g5⟩

theorem set_self {α : Type} {l : List α} {j : Nat} {e : α} (he : l[j]? = some e) :
    l.set j e = l := by
  apply List.ext_getElem?
  intro i
  by_cases h : j = i
  · subst h
    rw [List.getElem?_set_self (getElem?_lt he), he]
  · rw [List.getElem?_set_ne h]

/-- `Get` of a key whose probe stops at a live record with the key's digest returns the
bytes of the record's value range and leaves the store as it is when the record's used
flag is already set. -/
theorem Get_at_slot {fuel : Nat} {t : Int} {c : Cache} {k : Bytes} {j : Nat} {e : entry}
    (hst : c.stopped = false) (hne : hash k ≠ 0)
    (hf : Cache.find c (hash k) fuel (u32 (hash k) &&& c.mask) = Res.ok j)
    (he : c.entries[j]? = some e) (hk : e.keyHash = hash k)
    (hlive : ¬ (e.expire > 0 ∧ t > e.expire)) (hu : e.used = 1)
    (hok : sliceOk c.arena.buf e.valOff (u32 (e.valOff + e.valLen))) :
    Cache.Get fuel t c k =
      Res.ok ((some (slice c.arena.buf e.valOff (u32 (e.valOff + e.valLen))), true), c) := by
  unfold Cache.Get
  rw [hst]
  simp only [Bool.false_eq_true, if_false]
  rw [getLoop_eq_find, hf]
  simp only [Cache.getLoop, he]
  rw [if_neg (by rw [hk]; exact hne), if_pos hk, if_neg hlive, if_pos hok]
  have hself : c.entries.set j { e with used := 1 } = c.entries := by
    have : ({ e with used := 1 } : entry) = e := by
      cases e
      simp only [] at hu
      subst hu
      rfl
    rw [this]
    exact set_self he
  rw [hself]

/-- `Get` of a key whose probe stops at an expired record with the key's digest returns
`(nil, false)` and clears the digest of that record. -/
theorem Get_at_slot_expired {fuel : Nat} {t : Int} {c : Cache} {k : Bytes} {j : Nat}
    {e : entry} (hst : c.stopped = false) (hne : hash k ≠ 0)
    (hf : Cache.find c (hash k) fuel (u32 (hash k) &&& c.mask) = Res.ok j)
    (he : c.entries[j]? = some e) (hk : e.keyHash = hash k)
    (hdead : e.expire > 0 ∧ t > e.expire) :
    Cache.Get fuel t c k =
      Res.ok ((none, false), { c with entries := c.entries.set j { e with keyHash := 0 } }) := by
  have hns : ¬ (c.stopped = true) := by rw [hst]; decide
  unfold Cache.Get
  rw [if_neg hns, getLoop_eq_find, hf]
  simp only [Cache.getLoop, he]
  rw [if_neg (by rw [hk]; exact hne), if_pos hk, if_pos hdead]

/-! ## Claims C1, C3, C5 -/

/-- C1. Set/Get round trip on a single-shard store: in a store that is not stopped, for a
key with non-zero digest and key and value lengths below `2 ^ 32`, if `Set(k, v, 0)`
returns true then `Get(k)` issued right afterwards (at any clock reading, with the same
loop budget) returns `(v, true)`, whatever the store held before. -/
theorem C1_set_get_round_trip (fuel : Nat) (t0 t1 : Int) (c c1 : Cache) (k v : Bytes)
    (hst : c.stopped = false) (hh : hash k ≠ 0)
    (hk : k.length < 2 ^ 32) (hv : v.length < 2 ^ 32)
    (hs : Cache.Set fuel t0 c k v 0 = Res.ok (true, c1)) :
    Cache.Get fuel t1 c1 k = Res.ok ((some v, true), c1) := by
  obtain ⟨_, j, e, hf, he, hstop, hfit, hlt, rfl⟩ := Set_true_spec hk hv hs
  rw [Get_setState hst hh hf he hstop hfit hlt]
  simp [expiry]

theorem C1_set_get_round_trip_witness :
    Cache.Set 2 0 store24 [97] [49, 49] 0 = Res.ok (true, store24a) ∧
    Cache.Get 2 7 store24a [97] = Res.ok ((some [49, 49], true), store24a) :=
  ⟨by decide,
   C1_set_get_round_trip 2 0 7 store24 store24a [97] [49, 49] (by decide) (by decide)
    (by decide) (by decide) (by decide)⟩

/-- C3. Delete then Get: for every store state and every key (present or absent) for which
`Delete(k)` returns, `Get(k)` issued right afterwards returns `(nil, false)` and leaves
the store as `Delete` left it. -/
theorem C3_delete_then_get (fuel : Nat) (t : Int) (c c1 : Cache) (k : Bytes)
    (hd : Cache.Delete fuel c k = Res.ok c1) :
    Cache.Get fuel t c1 k = Res.ok ((none, false), c1) :=
  Get_after_Delete hd

theorem C3_delete_then_get_witness :
    Cache.Delete 2 store24a [97] = Res.ok store24del ∧
    Cache.Get 2 0 store24del [97] = Res.ok ((none, false), store24del) :=
  ⟨by decide, C3_delete_then_get 2 0 store24a store24del [97] (by decide)⟩

/-- C5 (as stated) fails in two corners.  First, at clock reading `-5` with `ttl = 5` the
expiry stamp is `0`, the "no expiry" value, so the entry is still returned at time `1`,
after `t0 + ttl = 0`.  Second, a value of `2 ^ 32` bytes is stored with `valLen = 0`, so
`Get` before the expiry returns the empty slice and not the value. -/
theorem C5_counterexample :
    (Cache.Set 2 (-5) store24 [97] [49, 49] 5 = Res.ok (true, store24a) ∧
      Cache.Get 2 1 store24a [97] = Res.ok ((some [49, 49], true), store24a)) ∧
    (Cache.Set 1 0 store24 [97] bigValue 5 = Res.ok (true, store24big 5) ∧
      Cache.Get 1 1 (store24big 5) [97] = Res.ok ((some [], true), store24big 5) ∧
      bigValue.length = 2 ^ 32) :=
  ⟨⟨by decide, by decide⟩,
   Set_wrapped_value bigValue length_bigValue 0 5,
   Get_wrapped_value 5 1 (by decide), length_bigValue⟩

/-- C5 (amended). Lazy TTL expiry with the clock as an explicit `int64` nanosecond stamp:
in a store that is not stopped, for a key (of any length) with non-zero digest, a value
shorter than `2 ^ 32` bytes, `ttl > 0` and `0 < t0 + ttl`, if `Set(k, v, ttl)` at time `t0`
returns true, then `Get(k)` at time `t1` returns `(v, true)` when `t1 <= t0 + ttl`, and when
`t1 > t0 + ttl` it returns `(nil, false)` and the slot that `Set` wrote has its digest
set to 0 (nothing else changes). -/
theorem C5_lazy_ttl_expiry (fuel : Nat) (t0 t1 ttl : Int) (c c1 : Cache) (k v : Bytes)
    (hst : c.stopped = false) (hh : hash k ≠ 0) (hv : v.length < 2 ^ 32)
    (httl : 0 < ttl) (hpos : 0 < t0 + ttl)
    (ht0 : t0 < 2 ^ 63) (hd : ttl < 2 ^ 63) (ht1 : t1 < 2 ^ 63)
    (hs : Cache.Set fuel t0 c k v ttl = Res.ok (true, c1)) :
    (t1 ≤ t0 + ttl → Cache.Get fuel t1 c1 k = Res.ok ((some v, true), c1)) ∧
    (t0 + ttl < t1 → ∃ j e, j < c.entries.length ∧ c1.entries = c.entries.set j e ∧
      e.keyHash = hash k ∧
      Cache.Get fuel t1 c1 k =
        Res.ok ((none, false),
          { c1 with entries := c1.entries.set j { e with keyHash := 0 } })) := by
  obtain ⟨_, j, e, a, e1, hf, he, hstop, hc1, hk1, hx1, hu1, hsl⟩ := Set_true_any hs
  have hj := getElem?_lt he
  have hm1 : c1.mask = c.mask := by rw [hc1]
  have hen1 : c1.entries = c.entries.set j e1 := by rw [hc1]
  have hst1 : c1.stopped = false := by rw [hc1]; exact hst
  have hb : c1.arena.buf = a.buf := by rw [hc1]
  have hf1 : Cache.find c1 (hash k) fuel (u32 (hash k) &&& c1.mask) = Res.ok j := by
    rw [hm1, find_set_stop hm1 hen1 he hstop (Or.inr hk1), hf]
  have he1 : c1.entries[j]? = some e1 := by
    rw [hen1]
    exact List.getElem?_set_self hj
  have hexp : e1.expire = i64 (t0 + ttl) := by
    rw [hx1]
    simp [expiry, httl]
  obtain ⟨hok, hval⟩ := hsl hv
  rw [← hb] at hok hval
  constructor
  · intro hle
    have hlive : ¬ (e1.expire > 0 ∧ t1 > e1.expire) := by
      rw [hexp]
      intro hcon
      unfold i64 at hcon
      norm_num at hcon ht0 hd ht1
      omega
    have hget := Get_at_slot hst1 hh hf1 he1 hk1 hlive hu1 hok
    rw [hval] at hget
    exact hget
  · intro hlt1
    refine ⟨j, e1, hj, hen1, hk1, ?_⟩
    apply Get_at_slot_expired hst1 hh hf1 he1 hk1
    rw [hexp, i64_of_range (by omega) (by omega)]
    exact ⟨hpos, hlt1⟩

theorem C5_lazy_ttl_expiry_witness :
    Cache.Set 2 10 store24 [97] [49, 49] 5 = Res.ok (true, store24ttl 15) ∧
    Cache.Get 2 12 (store24ttl 15) [97] = Res.ok ((some [49, 49], true), store24ttl 15) ∧
    ∃ j e, j < store24.entries.length ∧
      (store24ttl 15).entries = store24.entries.set j e ∧ e.keyHash = hash [97] ∧
      Cache.Get 2 20 (store24ttl 15) [97] =
        Res.ok ((none, false),
          { store24ttl 15 with
            entries := (store24ttl 15).entries.set j { e with keyHash := 0 } }) :=
  ⟨by decide,
   (C5_lazy_ttl_expiry 2 10 12 5 store24 (store24ttl 15) [97] [49, 49] (by decide) (by decide)
    (by decide) (by decide) (by decide) (by decide) (by decide) (by decide)
    (by decide)).1 (by decide),
   (C5_lazy_ttl_expiry 2 10 20 5 store24 (store24ttl 15) [97] [49, 49] (by decide) (by decide)
    (by decide) (by decide) (by decide) (by decide) (by decide) (by decide)
    (by decide)).2 (by decide)⟩

/-! ## The stopped flag; claims C7, C2, C4, C8, C10 -/

theorem Set_stopped {c : Cache} (hs : c.stopped = true) (fuel : Nat) (now : Int)
    (k v : Bytes) (ttl : Int) : Cache.Set fuel now c k v ttl = Res.ok (false, c) := by
  simp [Cache.Set, hs]

theorem Get_stopped {c : Cache} (hs : c.stopped = true) (fuel : Nat) (now : Int)
    (k : Bytes) : Cache.Get fuel now c k = Res.ok ((none, false), c) := by
  simp [Cache.Get, hs]

theorem Delete_stopped_eq {fuel : Nat} {c c1 : Cache} {k : Bytes}
    (hd : Cache.Delete fuel c k = Res.ok c1) : c1.stopped = c.stopped := by
  unfold Cache.Delete at hd
  rw [deleteLoop_eq_find] at hd
  cases hf : Cache.find c (hash k) fuel (u32 (hash k) &&& c.mask) with
  | panic => simp [hf] at hd
  | hang => simp [hf] at hd
  | ok j =>
    simp only [hf, Cache.deleteLoop] at hd
    cases he : c.entries[j]? with
    | none => simp [he] at hd
    | some e =>
      simp only [he] at hd
      by_cases h0 : e.keyHash = 0
      · rw [if_pos h0, Res.ok.injEq] at hd
        rw [← hd]
      · rw [if_neg h0] at hd
        by_cases hh : e.keyHash = hash k
        · rw [if_pos hh, Res.ok.injEq] at hd
          rw [← hd]
        · rw [if_neg hh] at hd
          cases hd

theorem apply_stopped {fuel : Nat} {now : Int} {c c1 : Cache} {op : Op} {r : Ret}
    (hs : c.stopped = true) (ha : Cache.apply fuel now c op = Res.ok (r, c1)) :
    c1.stopped = true := by
  cases op with
  | set k v ttl =>
    simp only [Cache.apply, Set_stopped hs, Res.map, Res.ok.injEq, Prod.mk.injEq] at ha
    rw [← ha.2]; exact hs
  | get k =>
    simp only [Cache.apply, Get_stopped hs, Res.map, Res.ok.injEq, Prod.mk.injEq] at ha
    rw [← ha.2]; exact hs
  | delete k =>
    simp only [Cache.apply] at ha
    cases hd : Cache.Delete fuel c k with
    | panic => simp [hd, Res.map] at ha
    | hang => simp [hd, Res.map] at ha
    | ok c2 =>
      simp only [hd, Res.map, Res.ok.injEq, Prod.mk.injEq] at ha
      rw [← ha.2, Delete_stopped_eq hd]; exact hs
  | reset =>
    simp only [Cache.apply, Res.ok.injEq, Prod.mk.injEq] at ha
    rw [← ha.2]; exact hs
  | stop =>
    simp only [Cache.apply, Res.ok.injEq, Prod.mk.injEq] at ha
    rw [← ha.2]; rfl

theorem run_stopped {fuel : Nat} {now : Nat → Int} {ops : List Op} {i : Nat} {c c1 : Cache}
    {rets : List Ret} (hs : c.stopped = true)
    (hr : Cache.run fuel now i ops c = Res.ok (rets, c1)) : c1.stopped = true := by
  induction ops generalizing i c rets with
  | nil =>
    simp only [Cache.run, Res.ok.injEq, Prod.mk.injEq] at hr
    rw [← hr.2]; exact hs
  | cons op ops ih =>
    simp only [Cache.run] at hr
    cases ha : Cache.apply fuel (now i) c op with
    | panic => simp [ha] at hr
    | hang => simp [ha] at hr
    | ok p =>
      obtain ⟨r, c2⟩ := p
      simp only [ha] at hr
      cases hr2 : Cache.run fuel now (i + 1) ops c2 with
      | panic => simp [hr2, Res.map] at hr
      | hang => simp [hr2, Res.map] at hr
      | ok q =>
        obtain ⟨rs, c3⟩ := q
        simp only [hr2, Res.map, Res.ok.injEq, Prod.mk.injEq] at hr
        rw [hr.2] at hr2
        exact ih (apply_stopped hs ha) hr2

/-- C7. Stop is permanent and disables Set and Get: after `Stop()` and any further finite
sequence of Set, Get, Delete, Reset and Stop calls (run to its end), the stopped flag is
still true, and every `Set` returns false and every `Get` returns `(nil, false)`, both
leaving the whole store (slot records, arena, clock hand) exactly as it was; neither
needs any loop budget to do so. -/
theorem C7_stop_is_permanent (c0 c1 : Cache) (fuel : Nat) (now : Nat → Int) (i : Nat)
    (ops : List Op) (rets : List Ret)
    (hr : Cache.run fuel now i ops c0.Stop = Res.ok (rets, c1)) :
    c1.stopped = true ∧
    (∀ (f : Nat) (t : Int) (k v : Bytes) (ttl : Int),
      Cache.Set f t c1 k v ttl = Res.ok (false, c1)) ∧
    (∀ (f : Nat) (t : Int) (k : Bytes), Cache.Get f t c1 k = Res.ok ((none, false), c1)) := by
  have hs : c1.stopped = true := run_stopped (c := c0.Stop) rfl hr
  exact ⟨hs, fun f t k v ttl => Set_stopped hs f t k v ttl, fun f t k => Get_stopped hs f t k⟩

theorem C7_stop_is_permanent_witness :
    Cache.run 2 (fun _ => 0) 0
        [Op.delete [97], Op.set [98] [50] 0, Op.reset, Op.get [97], Op.stop] store24a.Stop
      = Res.ok ([Ret.unit, Ret.set false, Ret.unit, Ret.get none false, Ret.unit],
          store24a.Reset.Stop) ∧
    (store24a.Reset.Stop.stopped = true ∧
    (∀ (f : Nat) (t : Int) (k v : Bytes) (ttl : Int),
      Cache.Set f t store24a.Reset.Stop k v ttl = Res.ok (false, store24a.Reset.Stop)) ∧
    (∀ (f : Nat) (t : Int) (k : Bytes),
      Cache.Get f t store24a.Reset.Stop k = Res.ok ((none, false), store24a.Reset.Stop))) :=
  ⟨by decide,
   C7_stop_is_permanent store24a store24a.Reset.Stop 2 (fun _ => 0) 0
    [Op.delete [97], Op.set [98] [50] 0, Op.reset, Op.get [97], Op.stop]
    [Ret.unit, Ret.set false, Ret.unit, Ret.get none false, Ret.unit] (by decide)⟩

/-- C2 (code at the failing input). From `New(2, 4)`: `Set("a", "11", 0)` succeeds; `Set("b",
"22", 0)` finds no room for the value, runs the eviction scan and rewinds the arena while
the record of `"a"` stays in its slot, so that an occupied slot now points at `[1, 3)`,
outside the allocated prefix `[0, 0)`; the retried `Set("b", "22", 0)` succeeds and writes
over those bytes; `Get("a")` then returns `("22", true)`, bytes that were never set for a
key with the digest of `"a"`. -/
theorem C2_get_returns_foreign_bytes :
    New 2 2 4 = Res.ok store24 ∧
    (Cache.run 3 (fun _ => 0) 0 [Op.set [97] [49, 49] 0, Op.set [98] [50, 50] 0] store24).map
        (fun p => (p.1, p.2.arena.pos,
          p.2.entries.map (fun e => (e.keyHash, e.valOff, e.valLen))))
      = Res.ok ([Ret.set true, Ret.set false], 0, [(hash [97], 1, 2), (0, 0, 0)]) ∧
    (Cache.run 3 (fun _ => 0) 0
        [Op.set [97] [49, 49] 0, Op.set [98] [50, 50] 0, Op.set [98] [50, 50] 0, Op.get [97]]
        store24).map Prod.fst
      = Res.ok [Ret.set true, Ret.set false, Ret.set true, Ret.get (some [50, 50]) true] ∧
    hash [97] ≠ hash [98] ∧ hash [97] ≠ 0 := by
  decide

/-- C4 (code at the failing input). From `New(4, 8)`: keys `"e"` and `"a"` start probing at
the same slot; after `Set("e", "5", 0)` and `Set("a", "1", 0)` the key `"a"` is readable;
`Delete("e")` empties the slot in front of it and `Get("a")` then returns `(nil, false)`. -/
theorem C4_delete_hides_other_key :
    New 3 4 8 = Res.ok store48 ∧
    (Cache.run 4 (fun _ => 0) 0
        [Op.set [101] [53] 0, Op.set [97] [49] 0, Op.get [97], Op.delete [101], Op.get [97]]
        store48).map Prod.fst
      = Res.ok [Ret.set true, Ret.set true, Ret.get (some [49]) true, Ret.unit,
          Ret.get none false] ∧
    hash [101] ≠ hash [97] ∧ hash [97] ≠ 0 := by
  decide

/-- C8 (code at the failing input). `Delete` has no stopped check: on the stopped store that
holds `"a"`, `Delete("a")` returns with the digest of the slot of `"a"` set to 0. -/
theorem C8_delete_after_stop_clears_slot :
    Cache.Set 2 0 store24 [97] [49, 49] 0 = Res.ok (true, store24a) ∧
    Cache.Delete 2 store24a.Stop [97] = Res.ok store24del.Stop ∧
    (store24a.Stop.entries.map entry.keyHash = [4953267810257967366, 0] ∧
     store24del.Stop.entries.map entry.keyHash = [0, 0]) := by
  decide

/-- C10 (code at the failing input). With one key and no value the router indexes
`values[0]` and panics, where the single-shard `LoadBulk` returns 0. -/
theorem C10_router_loadbulk_panics :
    NewShardedFromConfig 3 config2 = Res.ok router2 ∧
    ShardedCache.LoadBulk 3 (fun _ => 0) router2 [[97]] [] 0 = Res.panic ∧
    Cache.LoadBulk 3 (fun _ => 0) store48 [[97]] [] 0 = Res.ok (0, store48) := by
  decide

/-! ## The body of `Set`: success and wrapped offsets -/

/-- The converse of `setAt_true`: when key and value fit behind the offset and the sums
do not wrap, the body of `Set` succeeds. -/
theorem setAt_of_fits {c : Cache} {key val : Bytes}
    (hfit : c.arena.pos + key.length + val.length ≤ c.arena.buf.length)
    (hlt : c.arena.pos + key.length + val.length < 2 ^ 32)
    (fuel j h : Nat) (exp : Int) :
    Cache.setAt fuel c j h key val exp = Res.ok (true, setState c j h key val exp) := by
  have hk : key.length < 2 ^ 32 := by omega
  have hv : val.length < 2 ^ 32 := by omega
  have e1 : u32 (c.arena.pos + key.length) = c.arena.pos + key.length :=
    u32_of_lt (by omega)
  have e2 : u32 (c.arena.pos + key.length + val.length)
      = c.arena.pos + key.length + val.length := u32_of_lt hlt
  have ok1 : sliceOk c.arena.buf c.arena.pos (c.arena.pos + key.length) :=
    ⟨by omega, by omega⟩
  have ok2 : sliceOk (copyInto c.arena.buf c.arena.pos (c.arena.pos + key.length) key)
      (c.arena.pos + key.length) (c.arena.pos + key.length + val.length) :=
    ⟨by omega, by rw [length_copyInto ok1]; omega⟩
  unfold Cache.setAt arena.alloc
  rw [u32_of_lt hk, u32_of_lt hv, e1, if_neg (by omega)]
  simp only []
  rw [e2, if_neg (by omega)]
  simp only []
  rw [e1, if_pos ok1, e2, if_pos ok2]
  rfl

/-- When the key still fits but `pos + len(key) + len(val)` reaches `2 ^ 32`, the second
allocation test is made on the wrapped sum; if it passes, the slice expression for the
value has its upper bound below its lower bound and `Set` panics. -/
theorem setAt_wrap_panics {c : Cache} {key val : Bytes}
    (h1 : c.arena.pos + u32 key.length ≤ c.arena.buf.length)
    (h2 : c.arena.pos + u32 key.length < 2 ^ 32)
    (h3 : 2 ^ 32 ≤ c.arena.pos + u32 key.length + u32 val.length)
    (h4 : u32 (c.arena.pos + u32 key.length + u32 val.length) ≤ c.arena.buf.length)
    (fuel j h : Nat) (exp : Int) :
    Cache.setAt fuel c j h key val exp = Res.panic := by
  have hv : u32 val.length < 2 ^ 32 := Nat.mod_lt _ (by norm_num)
  have e1 : u32 (c.arena.pos + u32 key.length) = c.arena.pos + u32 key.length :=
    u32_of_lt h2
  have ok1 : sliceOk c.arena.buf c.arena.pos (c.arena.pos + u32 key.length) :=
    ⟨by omega, h1⟩
  have ok2 : ¬ sliceOk
      (copyInto c.arena.buf c.arena.pos (c.arena.pos + u32 key.length) key)
      (c.arena.pos + u32 key.length)
      (u32 (c.arena.pos + u32 key.length + u32 val.length)) := by
    intro hcon
    have := hcon.1
    generalize u32 val.length = b at *
    generalize c.arena.pos + u32 key.length = a at *
    unfold u32 at this
    norm_num at *
    omega
  unfold Cache.setAt arena.alloc
  rw [e1, if_neg (by omega)]
  simp only []
  rw [if_neg (by omega)]
  simp only []
  rw [e1, if_pos ok1, if_neg ok2]

/-! ## `Reset`; claim C6 -/

theorem length_halfKey : halfKey.length = 2 ^ 31 := by
  unfold halfKey
  exact List.length_replicate _ _

theorem length_zeros4G : zeros4G.length = 2 ^ 32 := by
  unfold zeros4G
  exact List.length_replicate _ _

theorem New_store4G : New 1 1 (2 ^ 32) = Res.ok store4G := by
  have h1 : newSize 1 1 1 = Res.ok 1 := by decide
  have h2 : u32 (1 + 2 ^ 32 - 1) = 0 := by decide
  have h3 : ((2 : Int) ^ 32 > 0) := by decide
  have h4 : ((2 : Int) ^ 32).toNat = 2 ^ 32 := by decide
  unfold New
  rw [h1]
  simp only []
  rw [h2, if_pos h3, h4]
  unfold store4G newArena zeros4G
  rfl

/-- When the first slot probed is empty or holds the digest of the key, `Set` on a store
that is not stopped is the body of `Set` at that slot. -/
theorem Set_eq_setAt {c : Cache} {k : Bytes} {e : entry} (hst : c.stopped = false)
    (he : c.entries[u32 (hash k) &&& c.mask]? = some e)
    (hstop : e.keyHash = 0 ∨ e.keyHash = hash k) (fuel : Nat) (now : Int) (v : Bytes)
    (ttl : Int) :
    Cache.Set (fuel + 1) now c k v ttl =
      Cache.setAt (fuel + 1) c (u32 (hash k) &&& c.mask) (hash k) k v (expiry now ttl) := by
  unfold Cache.Set
  rw [hst]
  simp only [Bool.false_eq_true, if_false, Cache.setLoop, he, hstop, if_true, expiry]

theorem getElem?_Reset (c : Cache) {i : Nat} (hi : i < c.entries.length) :
    c.Reset.entries[i]? = some entry.zero := by
  simp [Cache.Reset, List.getElem?_replicate, hi]

theorem Get_Reset (c : Cache) (hwf : c.mask < c.entries.length) (fuel : Nat) (t : Int)
    (k : Bytes) : Cache.Get (fuel + 1) t c.Reset k = Res.ok ((none, false), c.Reset) := by
  have hm : c.Reset.mask = c.mask := rfl
  have hi : u32 (hash k) &&& c.mask < c.entries.length :=
    Nat.lt_of_le_of_lt Nat.and_le_right hwf
  unfold Cache.Get
  by_cases hst : c.Reset.stopped = true
  · rw [if_pos hst]
  · rw [if_neg hst]
    simp only [Cache.getLoop, hm, getElem?_Reset c hi, entry.zero, if_true]

theorem Set_Reset (c : Cache) (hwf : c.mask < c.entries.length)
    (hcap : c.arena.buf.length < 2 ^ 32) (hst : c.stopped = false) (fuel : Nat) (t : Int)
    (k v : Bytes) (ttl : Int) (hfit : k.length + v.length ≤ c.arena.buf.length) :
    Cache.Set (fuel + 1) t c.Reset k v ttl =
      Res.ok (true,
        setState c.Reset (u32 (hash k) &&& c.mask) (hash k) k v (expiry t ttl)) := by
  have hi : u32 (hash k) &&& c.mask < c.entries.length :=
    Nat.lt_of_le_of_lt Nat.and_le_right hwf
  have hb : c.Reset.arena.buf = c.arena.buf := rfl
  have hp : c.Reset.arena.pos = 0 := rfl
  rw [Set_eq_setAt (c := c.Reset) hst (getElem?_Reset c hi) (Or.inl rfl)]
  exact setAt_of_fits (by rw [hb, hp]; omega) (by rw [hp]; omega) _ _ _ _

/-- C6 (as stated) fails for an arena of `2 ^ 32` bytes (`New(1, 4294967296)`): after
`Reset()`, a key and a value of `2 ^ 31` bytes each fit the arena capacity, yet `Set` does not
return true: the second allocation test is made on a `uint32` sum that wrapped to 0 and the
slice expression for the value panics. -/
theorem C6_counterexample :
    New 1 1 (2 ^ 32) = Res.ok store4G ∧ store4G.stopped = false ∧
    halfKey.length + halfKey.length ≤ store4G.arena.buf.length ∧
    ∀ fuel : Nat, Cache.Set (fuel + 1) 0 store4G.Reset halfKey halfKey 0 = Res.panic := by
  have hlen : store4G.Reset.arena.buf.length = 2 ^ 32 := length_zeros4G
  have hpos : store4G.Reset.arena.pos = 0 := rfl
  have hk : u32 halfKey.length = 2 ^ 31 := by rw [length_halfKey]; decide
  have hm : store4G.Reset.mask = 0 := rfl
  have he : store4G.Reset.entries[u32 (hash halfKey) &&& store4G.Reset.mask]?
      = some entry.zero := by
    rw [hm, Nat.and_zero]; rfl
  refine ⟨New_store4G, rfl, ?_, ?_⟩
  · rw [length_halfKey]
    exact le_of_eq_of_le (by norm_num) (le_of_eq length_zeros4G.symm)
  · intro fuel
    rw [Set_eq_setAt (c := store4G.Reset) rfl he (Or.inl rfl)]
    apply setAt_wrap_panics
    · rw [hpos, hk, hlen]; decide
    · rw [hpos, hk]; decide
    · rw [hpos, hk]; decide
    · rw [hpos, hk, hlen]; decide

/-- C6 (amended). Reset empties the store: for every store whose mask indexes its slot table
(`mask < len(entries)`, as `New` builds it) and whose arena capacity is below `2 ^ 32`,
after `Reset()` every slot record is the zero record, the arena offset is 0, the clock hand
is 0 and the stopped flag is unchanged; `Get(k)` returns `(nil, false)` for every key; and
if the store is not stopped, a following `Set(k, v, ttl)` with `len(k) + len(v)` at most
the arena capacity returns true (one probe step is enough for either call). -/
theorem C6_reset_empties_store (c : Cache) (hwf : c.mask < c.entries.length)
    (hcap : c.arena.buf.length < 2 ^ 32) :
    c.Reset.entries = List.replicate c.entries.length entry.zero ∧
    c.Reset.arena.pos = 0 ∧ c.Reset.clock = 0 ∧ c.Reset.stopped = c.stopped ∧
    (∀ (fuel : Nat) (t : Int) (k : Bytes),
      Cache.Get (fuel + 1) t c.Reset k = Res.ok ((none, false), c.Reset)) ∧
    (c.stopped = false → ∀ (fuel : Nat) (t : Int) (k v : Bytes) (ttl : Int),
      k.length + v.length ≤ c.arena.buf.length →
      ∃ c1, Cache.Set (fuel + 1) t c.Reset k v ttl = Res.ok (true, c1)) := by
  refine ⟨by simp [Cache.Reset], rfl, rfl, rfl, fun fuel t k => Get_Reset c hwf fuel t k, ?_⟩
  intro hst fuel t k v ttl hfit
  exact ⟨_, Set_Reset c hwf hcap hst fuel t k v ttl hfit⟩

theorem C6_reset_empties_store_witness :
    store24a.Reset.entries = List.replicate store24a.entries.length entry.zero ∧
    store24a.Reset.arena.pos = 0 ∧ store24a.Reset.clock = 0 ∧
    store24a.Reset.stopped = store24a.stopped ∧
    (∀ (fuel : Nat) (t : Int) (k : Bytes),
      Cache.Get (fuel + 1) t store24a.Reset k = Res.ok ((none, false), store24a.Reset)) ∧
    (store24a.stopped = false → ∀ (fuel : Nat) (t : Int) (k v : Bytes) (ttl : Int),
      k.length + v.length ≤ store24a.arena.buf.length →
      ∃ c1, Cache.Set (fuel + 1) t store24a.Reset k v ttl = Res.ok (true, c1)) :=
  C6_reset_empties_store store24a (by decide) (by decide)

/-! ## Termination of the probe in a well-formed store -/

theorem find_mono {c : Cache} {h f i j : Nat} (hf : Cache.find c h f i = Res.ok j)
    (k : Nat) : Cache.find c h (f + k) i = Res.ok j := by
  induction f generalizing i with
  | zero => simp [Cache.find] at hf
  | succ n ih =>
    rw [Nat.add_right_comm]
    simp only [Cache.find] at hf ⊢
    cases hq : c.entries[i]? with
    | none => simp [hq] at hf
    | some e =>
      simp only [hq] at hf ⊢
      by_cases hc : e.keyHash = 0 ∨ e.keyHash = h
      · rw [if_pos hc] at hf ⊢; exact hf
      · rw [if_neg hc] at hf ⊢; exact ih hf

/-- In a well-formed store the probe step is `i + 1` modulo the table size. -/
theorem WF_next {c : Cache} {p : Nat} (hp : p ≤ 31) (hm : c.mask = 2 ^ p - 1) (i : Nat) :
    u32 (i + 1) &&& c.mask = (i + 1) % 2 ^ p := by
  rw [hm, Nat.and_pow_two_sub_one_eq_mod]
  unfold u32
  exact Nat.mod_mod_of_dvd _ (pow_dvd_pow 2 (by omega))

/-- A probe started `d` steps before a slot at which it stops returns within `d + 1`
iterations. -/
theorem find_reaches {c : Cache} {p : Nat} (hp : p ≤ 31) (hm : c.mask = 2 ^ p - 1)
    (hl : c.entries.length = 2 ^ p) (h : Nat) (d : Nat) :
    ∀ i, i < 2 ^ p → (∃ e, c.entries[(i + d) % 2 ^ p]? = some e ∧
      (e.keyHash = 0 ∨ e.keyHash = h)) → ∃ j, Cache.find c h (d + 1) i = Res.ok j := by
  induction d with
  | zero =>
    intro i hi hex
    obtain ⟨e, he, hs⟩ := hex
    rw [Nat.add_zero, Nat.mod_eq_of_lt hi] at he
    exact ⟨i, by simp [Cache.find, he, hs]⟩
  | succ d ih =>
    intro i hi hex
    have hlt : i < c.entries.length := by rw [hl]; exact hi
    simp only [Cache.find, List.getElem?_eq_getElem hlt]
    by_cases hc : c.entries[i].keyHash = 0 ∨ c.entries[i].keyHash = h
    · exact ⟨i, by rw [if_pos hc]⟩
    · rw [if_neg hc, WF_next hp hm]
      apply ih _ (Nat.mod_lt _ (by positivity))
      obtain ⟨e, he, hs⟩ := hex
      refine ⟨e, ?_, hs⟩
      rw [← he]
      congr 1
      rw [Nat.mod_add_mod]
      congr 1
      omega

/-- Termination of the probe: in a well-formed store with an empty slot, the probe for any
digest from any slot returns within `size` iterations. -/
theorem find_total {c : Cache} (hwf : c.WF) (hfree : 0 < c.free) (h i : Nat)
    (hi : i < c.entries.length) : ∃ j, Cache.find c h c.entries.length i = Res.ok j := by
  obtain ⟨p, hp, _, hm, hl⟩ := hwf
  obtain ⟨e0, hmem, he0⟩ := List.countP_pos_iff.mp hfree
  obtain ⟨j0, hj0, rfl⟩ := List.getElem_of_mem hmem
  simp only [decide_eq_true_eq] at he0
  rw [hl] at hi hj0
  have hd : (i + (j0 + 2 ^ p - i) % 2 ^ p) % 2 ^ p = j0 := by
    rw [Nat.add_mod_mod]
    have : i + (j0 + 2 ^ p - i) = j0 + 2 ^ p := by omega
    rw [this, Nat.add_mod_right, Nat.mod_eq_of_lt hj0]
  have hdlt : (j0 + 2 ^ p - i) % 2 ^ p < 2 ^ p := Nat.mod_lt _ (by positivity)
  obtain ⟨j, hj⟩ := find_reaches hp hm hl h ((j0 + 2 ^ p - i) % 2 ^ p) i hi
    ⟨c.entries[j0], by rw [hd, List.getElem?_eq_getElem], Or.inl he0⟩
  refine ⟨j, ?_⟩
  have := find_mono hj (2 ^ p - ((j0 + 2 ^ p - i) % 2 ^ p + 1))
  rw [hl]
  rw [show (j0 + 2 ^ p - i) % 2 ^ p + 1 + (2 ^ p - ((j0 + 2 ^ p - i) % 2 ^ p + 1)) = 2 ^ p by
    omega] at this
  exact this

/-! ## Stored keys -/

theorem countP_set_ge {α : Type} (p : α → Bool) (l : List α) (j : Nat) (a : α) :
    l.countP p ≤ (l.set j a).countP p + 1 := by
  induction l generalizing j with
  | nil => simp
  | cons x xs ih =>
    cases j with
    | zero =>
      simp only [List.set_cons_zero, List.countP_cons]
      split <;> split <;> omega
    | succ j =>
      simp only [List.set_cons_succ, List.countP_cons]
      have := ih j
      omega

theorem slice_eq_drop_take (buf : Bytes) (a b : Nat) :
    slice buf a b = (buf.take b).drop a := by
  unfold slice
  rcases Nat.le_total a b with h | h
  · rw [List.take_drop]
    congr 2
    omega
  · rw [Nat.sub_eq_zero_of_le h, List.take_zero]
    symm
    apply List.drop_eq_nil_of_le
    rw [List.length_take]
    omega

/-- A copy into `buf[lo:hi]` leaves every slice that ends at or before `lo` as it was. -/
theorem slice_copyInto_below {buf src : Bytes} {lo hi a b : Nat} (h : sliceOk buf lo hi)
    (hb : b ≤ lo) : slice (copyInto buf lo hi src) a b = slice buf a b := by
  obtain ⟨h1, h2⟩ := h
  rw [slice_eq_drop_take, slice_eq_drop_take]
  congr 1
  unfold copyInto
  rw [List.append_assoc, List.take_append_of_le_length (by rw [List.length_take]; omega),
    List.take_take]
  congr 1
  omega

/-- In a well-formed store that is not stopped, has an empty slot and room in the arena,
`Set` succeeds within `size` probe steps. -/
theorem Set_ok {c : Cache} (hwf : c.WF) (hst : c.stopped = false) (hfree : 0 < c.free)
    {fuel : Nat} (hfuel : c.entries.length ≤ fuel) {k v : Bytes}
    (hfit : c.arena.pos + k.length + v.length ≤ c.arena.buf.length)
    (hlt : c.arena.pos + k.length + v.length < 2 ^ 32) (now ttl : Int) :
    ∃ j e, Cache.find c (hash k) fuel (u32 (hash k) &&& c.mask) = Res.ok j ∧
      c.entries[j]? = some e ∧ (e.keyHash = 0 ∨ e.keyHash = hash k) ∧
      Cache.Set fuel now c k v ttl =
        Res.ok (true, setState c j (hash k) k v (expiry now ttl)) := by
  have hi : u32 (hash k) &&& c.mask < c.entries.length := by
    obtain ⟨p, _, _, hm, hl⟩ := hwf
    have h1 : u32 (hash k) &&& c.mask ≤ c.mask := Nat.and_le_right
    have h2 : 0 < 2 ^ p := by positivity
    omega
  obtain ⟨j, hj⟩ := find_total hwf hfree (hash k) _ hi
  have hj2 := find_mono hj (fuel - c.entries.length)
  rw [Nat.add_sub_cancel' hfuel] at hj2
  obtain ⟨e, he, hs⟩ := find_ok_stop hj2
  refine ⟨j, e, hj2, he, hs, ?_⟩
  unfold Cache.Set
  rw [hst]
  simp only [Bool.false_eq_true, if_false]
  rw [setLoop_eq_find, hj2]
  exact setAt_of_fits hfit hlt _ _ _ _

/-! ## A successful `Set` and the keys stored before it -/

/-- Writing digest `h1` into a slot at which the probe for `h1` stops does not change where
the probe for another digest `h`, present in the table, stops. -/
theorem find_set_other {c c1 : Cache} {h h1 j j1 : Nat} {e e1 x : entry}
    (hm : c1.mask = c.mask) (hent : c1.entries = c.entries.set j1 x) (hx : x.keyHash = h1)
    (hne : h1 ≠ h) (hh : h ≠ 0)
    (he : c.entries[j]? = some e) (hk : e.keyHash = h)
    (he1 : c.entries[j1]? = some e1) (hs1 : e1.keyHash = 0 ∨ e1.keyHash = h1)
    (fuel : Nat) :
    ∀ i, Cache.find c h fuel i = Res.ok j → Cache.find c1 h fuel i = Res.ok j := by
  induction fuel with
  | zero => intro i hf; simp [Cache.find] at hf
  | succ n ih =>
    intro i hf
    simp only [Cache.find] at hf ⊢
    rw [hent, hm]
    cases hq : c.entries[i]? with
    | none => simp [hq] at hf
    | some y =>
      simp only [hq] at hf
      have hilt := getElem?_lt hq
      by_cases hc : y.keyHash = 0 ∨ y.keyHash = h
      · rw [if_pos hc, Res.ok.injEq] at hf
        subst hf
        rw [he] at hq
        cases hq
        have hij : j1 ≠ i := by
          intro hcon
          subst hcon
          rw [he] at he1
          cases he1
          rcases hs1 with h0 | h0
          · exact hh (hk ▸ h0)
          · exact hne (h0 ▸ hk)
        rw [List.getElem?_set_ne hij, he]
        simp only []
        rw [if_pos hc]
      · rw [if_neg hc] at hf
        by_cases hij : j1 = i
        · subst hij
          rw [List.getElem?_set_self hilt]
          simp only []
          have hy : y.keyHash = h1 := by
            rw [hq] at he1
            cases he1
            tauto
          have hc1 : ¬ (x.keyHash = 0 ∨ x.keyHash = h) := by
            rw [hx]
            intro hcon
            rcases hcon with h0 | h0
            · exact hc (Or.inl (hy ▸ h0))
            · exact hne h0
          rw [if_neg hc1]
          exact ih _ hf
        · rw [List.getElem?_set_ne hij, hq]
          simp only []
          rw [if_neg hc]
          exact ih _ hf

theorem WF_setState {c : Cache} (hwf : c.WF) (j h : Nat) (k v : Bytes) (exp : Int) :
    (setState c j h k v exp).WF := by
  obtain ⟨p, hp, hs, hm, hl⟩ := hwf
  exact ⟨p, hp, hs, hm, by simp [setState, hl]⟩

theorem length_setBuf {c : Cache} {k v : Bytes}
    (hfit : c.arena.pos + k.length + v.length ≤ c.arena.buf.length) :
    (setBuf c k v).length = c.arena.buf.length := by
  have ok1 : sliceOk c.arena.buf c.arena.pos (c.arena.pos + k.length) :=
    ⟨by omega, by omega⟩
  have ok2 : sliceOk (copyInto c.arena.buf c.arena.pos (c.arena.pos + k.length) k)
      (c.arena.pos + k.length) (c.arena.pos + k.length + v.length) :=
    ⟨by omega, by rw [length_copyInto ok1]; omega⟩
  unfold setBuf
  rw [length_copyInto ok2, length_copyInto ok1]

theorem free_setState (c : Cache) (j h : Nat) (k v : Bytes) (exp : Int) :
    c.free ≤ (setState c j h k v exp).free + 1 :=
  countP_set_ge _ _ _ _

/-- After a successful `Set` the key just written is stored with its value. -/
theorem Stored_set_same {c : Cache} {fuel : Nat} {t : Int} {k v : Bytes} {exp : Int}
    {j : Nat} {e : entry}
    (hf : Cache.find c (hash k) fuel (u32 (hash k) &&& c.mask) = Res.ok j)
    (he : c.entries[j]? = some e) (hstop : e.keyHash = 0 ∨ e.keyHash = hash k)
    (hfit : c.arena.pos + k.length + v.length ≤ c.arena.buf.length)
    (hlive : ¬ (exp > 0 ∧ t > exp)) :
    Stored (setState c j (hash k) k v exp) fuel t (hash k) v := by
  have hj := getElem?_lt he
  have hm : (setState c j (hash k) k v exp).mask = c.mask := rfl
  have ok1 : sliceOk c.arena.buf c.arena.pos (c.arena.pos + k.length) :=
    ⟨by omega, by omega⟩
  have ok2 : sliceOk (copyInto c.arena.buf c.arena.pos (c.arena.pos + k.length) k)
      (c.arena.pos + k.length) (c.arena.pos + k.length + v.length) :=
    ⟨by omega, by rw [length_copyInto ok1]; omega⟩
  refine ⟨j, setEntry c (hash k) k v exp, ?_, ?_, rfl, hlive, le_refl _, ?_⟩
  · rw [hm, find_set_stop hm rfl he hstop (Or.inr rfl), hf]
  · simp [setState, List.getElem?_set_self, hj]
  · exact slice_copyInto ok2 (by simp [setEntry])

/-- A successful `Set` of a key with another digest keeps a stored key stored. -/
theorem Stored_set_other {c : Cache} {fuel : Nat} {t : Int} {h : Nat} {w : Bytes}
    (hs : Stored c fuel t h w) (hh : h ≠ 0) {k v : Bytes} (hne : hash k ≠ h) {exp : Int}
    {j1 : Nat} {e1 : entry} (he1 : c.entries[j1]? = some e1)
    (hs1 : e1.keyHash = 0 ∨ e1.keyHash = hash k)
    (hfit : c.arena.pos + k.length + v.length ≤ c.arena.buf.length) :
    Stored (setState c j1 (hash k) k v exp) fuel t h w := by
  obtain ⟨j, e, hf, he, hk, hlive, hrange, hsl⟩ := hs
  have hm : (setState c j1 (hash k) k v exp).mask = c.mask := rfl
  have ok1 : sliceOk c.arena.buf c.arena.pos (c.arena.pos + k.length) :=
    ⟨by omega, by omega⟩
  have ok2 : sliceOk (copyInto c.arena.buf c.arena.pos (c.arena.pos + k.length) k)
      (c.arena.pos + k.length) (c.arena.pos + k.length + v.length) :=
    ⟨by omega, by rw [length_copyInto ok1]; omega⟩
  have hij : j1 ≠ j := by
    intro hcon
    subst hcon
    rw [he] at he1
    cases he1
    rcases hs1 with h0 | h0
    · exact hh (hk ▸ h0)
    · exact hne (h0 ▸ hk)
  refine ⟨j, e, ?_, ?_, hk, hlive, ?_, ?_⟩
  · rw [hm]
    exact find_set_other hm rfl rfl hne hh he hk he1 hs1 fuel _ hf
  · show (c.entries.set j1 _)[j]? = some e
    rw [List.getElem?_set_ne hij, he]
  · show e.valOff + e.valLen ≤ c.arena.pos + k.length + v.length
    omega
  · show slice (setBuf c k v) e.valOff (e.valOff + e.valLen) = w
    unfold setBuf
    rw [slice_copyInto_below ok2 (by omega), slice_copyInto_below ok1 hrange, hsl]

/-! ## The loop of `LoadBulk` -/

theorem loadBulkLoop_eq_loadPairs (fuel : Nat) (now : Nat → Int) (keys values : List Bytes)
    (ttl : Int) (rem : Nat) :
    ∀ (i n : Nat) (c : Cache), i + rem = (keys.zip values).length →
      Cache.loadBulkLoop fuel now keys values ttl rem i n c =
        loadPairs fuel now ttl ((keys.zip values).drop i) i n c := by
  induction rem with
  | zero =>
    intro i n c hi
    rw [List.drop_of_length_le (by omega)]
    simp [Cache.loadBulkLoop, loadPairs]
  | succ r ih =>
    intro i n c hi
    have hlt : i < (keys.zip values).length := by omega
    have hk : i < keys.length := by
      rw [List.length_zip] at hlt; omega
    have hv : i < values.length := by
      rw [List.length_zip] at hlt; omega
    rw [List.drop_eq_getElem_cons hlt, List.getElem_zip]
    simp only [Cache.loadBulkLoop, loadPairs, List.getElem?_eq_getElem hk,
      List.getElem?_eq_getElem hv]
    cases hS : Cache.Set fuel (now i) c keys[i] values[i] ttl with
    | panic => rfl
    | hang => rfl
    | ok r1 =>
      obtain ⟨b, c1⟩ := r1
      cases b with
      | true => exact ih (i + 1) (n + 1) c1 (by omega)
      | false => exact ih (i + 1) n c1 (by omega)

theorem LoadBulk_eq_loadPairs (fuel : Nat) (now : Nat → Int) (c : Cache)
    (keys values : List Bytes) (ttl : Int) :
    Cache.LoadBulk fuel now c keys values ttl =
      loadPairs fuel now ttl (keys.zip values) 0 0 c := by
  unfold Cache.LoadBulk
  have hlim : (if values.length < keys.length then values.length else keys.length)
      = (keys.zip values).length := by
    rw [List.length_zip]
    split <;> omega
  simp only []
  rw [hlim, loadBulkLoop_eq_loadPairs fuel now keys values ttl _ 0 0 c (by omega),
    List.drop_zero]

/-- An entry written at clock reading `now` is not expired at time `t` when no ttl was
given or `t` is not after `now + ttl` (all three `int64` values). -/
theorem not_expired {now ttl t : Int}
    (h : ttl ≤ 0 ∨ (-(2 ^ 63) ≤ now ∧ now < 2 ^ 63 ∧ ttl < 2 ^ 63 ∧ t ≤ now + ttl)) :
    ¬ (expiry now ttl > 0 ∧ t > expiry now ttl) := by
  unfold expiry
  rcases h with h | ⟨h1, h2, h3, h4⟩
  · rw [if_neg (by omega)]
    omega
  · by_cases hp : ttl > 0
    · rw [if_pos hp]
      unfold i64
      norm_num at *
      omega
    · rw [if_neg hp]
      omega

/-! ## A full table -/

/-- On the full one-slot table the probe for the digest of `"b"` never stops. -/
theorem find_store18a_hang (fuel : Nat) :
    Cache.find store18a (hash [98]) fuel 0 = Res.hang := by
  induction fuel with
  | zero => rfl
  | succ n ih =>
    have he : store18a.entries[0]? = some
        { keyHash := 4953267810257967366, keyLen := 1, valLen := 1, keyOff := 0,
          valOff := 1, expire := 0, used := 1 } := rfl
    have hns : ¬ ((4953267810257967366 : Nat) = 0 ∨ 4953267810257967366 = hash [98]) := by
      decide
    have hnext : u32 (0 + 1) &&& store18a.mask = 0 := by decide
    simp only [Cache.find]
    rw [he]
    simp only []
    rw [if_neg hns, hnext]
    exact ih

theorem LoadBulk_store18a_hang (fuel : Nat) :
    Cache.LoadBulk fuel (fun _ => 0) store18a [[98]] [[50]] 0 = Res.hang := by
  have hst : store18a.stopped = false := rfl
  have hi : u32 (hash [98]) &&& store18a.mask = 0 := by decide
  have hS : Cache.Set fuel 0 store18a [98] [50] 0 = Res.hang := by
    unfold Cache.Set
    rw [hst]
    simp only [Bool.false_eq_true, if_false]
    rw [setLoop_eq_find, hi, find_store18a_hang]
  rw [LoadBulk_eq_loadPairs]
  simp only [List.zip_cons_cons, List.zip_nil_right, loadPairs, hS]

/-! ## Claims C11, C12, C14, C16 -/

/-- C11 (code at the failing input). No function of the core reads `Config.ReadOnly`: the
read-only configuration passes `ApplyDefaults` and `Validate`, `NewFromConfig` builds the
same store as without the flag, and `Set("a", "11", 0)` returns true and writes the slot
and the arena; likewise on the two-shard router built from a read-only configuration. -/
theorem C11_read_only_set_succeeds :
    configRO.ApplyDefaults.ReadOnly = true ∧ configRO.ApplyDefaults.Validate = none ∧
    NewFromConfig 2 configRO.ApplyDefaults = Res.ok store24 ∧
    Cache.Set 2 0 store24 [97] [49, 49] 0 = Res.ok (true, store24a) ∧
    store24a.arena.pos = 3 ∧ store24.arena.pos = 0 ∧
    ({ config2 with ReadOnly := true } : Config).Validate = none ∧
    NewShardedFromConfig 3 { config2 with ReadOnly := true } = Res.ok router2 ∧
    (ShardedCache.Set 4 0 router2 [97] [49] 0).map Prod.fst = Res.ok true := by
  decide

/-- C12 (code at the failing input). From `New(1, 8)`, after `Set("a", "1", 0)` the only slot
is taken; the probe loops of `Get("b")`, `Delete("b")` and `Set("b", "2", 0)` then find neither
an empty slot nor the digest of `"b"` and do not return, whatever the loop budget. -/
theorem C12_probe_loops_hang_on_full_table :
    New 1 1 8 = Res.ok store18 ∧
    Cache.Set 1 0 store18 [97] [49] 0 = Res.ok (true, store18a) ∧
    ∀ fuel : Nat,
      Cache.Get fuel 0 store18a [98] = Res.hang ∧
      Cache.Delete fuel store18a [98] = Res.hang ∧
      Cache.Set fuel 0 store18a [98] [50] 0 = Res.hang := by
  have hst : store18a.stopped = false := rfl
  have hi : u32 (hash [98]) &&& store18a.mask = 0 := by decide
  refine ⟨by decide, by decide, fun fuel => ⟨?_, ?_, ?_⟩⟩
  · unfold Cache.Get
    rw [hst]
    simp only [Bool.false_eq_true, if_false]
    rw [getLoop_eq_find, hi, find_store18a_hang]
  · unfold Cache.Delete
    rw [deleteLoop_eq_find, hi, find_store18a_hang]
  · unfold Cache.Set
    rw [hst]
    simp only [Bool.false_eq_true, if_false]
    rw [setLoop_eq_find, hi, find_store18a_hang]

/-- C14 (code at the failing input). The loop of `hash` is the FNV-1a loop with the FNV
prime, but it starts from `1469598103934665603`, the FNV-1a offset basis
`14695981039346656037` without its last digit: the digest of the empty string is not
`0xcbf29ce484222325`, and the digest of `"a"` is not its FNV-1a digest either. -/
theorem C14_hash_is_not_fnv1a :
    hash [] = 1469598103934665603 ∧ specFNV1a64 [] = 0xcbf29ce484222325 ∧
    hash [] ≠ specFNV1a64 [] ∧
    hash [97] = 4953267810257967366 ∧ specFNV1a64 [97] = 12638187200555641996 := by
  decide

/-- C16 (code at the failing input). On an arena of one byte whose offset is 1,
`alloc(4294967295)` adds in `uint32`, the sum wraps to 0, the test `0 > 1` fails and the
call succeeds: it returns offset 1 and sets the offset to 0, although
`pos + n = 4294967296` exceeds the capacity 1. -/
theorem C16_alloc_passes_on_wrapped_sum :
    arena.alloc { buf := [0], pos := 1, chunkSize := 0, curChunk := 0 } 4294967295
      = ({ buf := [0], pos := 0, chunkSize := 0, curChunk := 0 }, 1, true) ∧
    (1 : Nat) ≤ ([0] : Bytes).length ∧ (4294967295 : Nat) < 2 ^ 32 ∧
    ([0] : Bytes).length < 1 + 4294967295 := by
  decide

/-! ## The size loop of `New` -/

theorem u32OfInt_of_range {z : Int} (h0 : 0 ≤ z) (h1 : z < 2 ^ 32) :
    u32OfInt z = z.toNat := by
  unfold u32OfInt
  rw [Int.emod_eq_of_lt h0 h1]

/-- Once the size has wrapped to 0 the loop of `New` never leaves. -/
theorem newSize_zero_hang {cap : Int} (h : 0 < u32OfInt cap) (fuel : Nat) :
    newSize cap fuel 0 = Res.hang := by
  induction fuel with
  | zero => rfl
  | succ n ih =>
    have e : u32 (0 * 2) = 0 := by decide
    simp only [newSize]
    rw [if_pos h, e]
    exact ih

/-- For a capacity whose `uint32` value exceeds `2 ^ 31` the loop of `New` never leaves. -/
theorem newSize_hang {cap : Int} (h : 2 ^ 31 < u32OfInt cap) (d : Nat) :
    ∀ k, k + d = 31 → ∀ fuel, newSize cap fuel (2 ^ k) = Res.hang := by
  induction d with
  | zero =>
    intro k hk fuel
    have hk31 : k = 31 := by omega
    subst hk31
    cases fuel with
    | zero => rfl
    | succ n =>
      have e : u32 (2 ^ 31 * 2) = 0 := by decide
      simp only [newSize]
      rw [if_pos h, e]
      exact newSize_zero_hang (by omega) n
  | succ d ih =>
    intro k hk fuel
    cases fuel with
    | zero => rfl
    | succ n =>
      have hle : 2 ^ k ≤ 2 ^ 31 := Nat.pow_le_pow_right (by norm_num) (by omega)
      have hlt : 2 ^ (k + 1) ≤ 2 ^ 31 := Nat.pow_le_pow_right (by norm_num) (by omega)
      have e : u32 (2 ^ k * 2) = 2 ^ (k + 1) := by
        rw [← pow_succ]
        exact u32_of_lt (by omega)
      simp only [newSize]
      rw [if_pos (by omega), e]
      exact ih (k + 1) (by omega) n

/-- The loop of `New` for a capacity of at most `2 ^ 31`: from size `2 ^ k`, with every
smaller size below the capacity, it returns the least power of two that is at least the
capacity, within `32 - k` iterations. -/
theorem newSize_spec {cap : Int} {n : Nat} (hn : u32OfInt cap = n) (hle : n ≤ 2 ^ 31)
    (d : Nat) : ∀ k fuel, k + d = 31 → d + 1 ≤ fuel → (k = 0 ∨ 2 ^ (k - 1) < n) →
      ∃ p, p ≤ 31 ∧ newSize cap fuel (2 ^ k) = Res.ok (2 ^ p) ∧ n ≤ 2 ^ p ∧
        (p = 0 ∨ 2 ^ (p - 1) < n) := by
  induction d with
  | zero =>
    intro k fuel hk hf hinv
    have hk31 : k = 31 := by omega
    subst hk31
    obtain ⟨f, rfl⟩ : ∃ f, fuel = f + 1 := ⟨fuel - 1, by omega⟩
    refine ⟨31, le_refl _, ?_, hle, hinv⟩
    simp only [newSize]
    rw [hn, if_neg (by omega)]
  | succ d ih =>
    intro k fuel hk hf hinv
    obtain ⟨f, rfl⟩ : ∃ f, fuel = f + 1 := ⟨fuel - 1, by omega⟩
    by_cases hlt : 2 ^ k < n
    · have hlt2 : 2 ^ (k + 1) ≤ 2 ^ 31 := Nat.pow_le_pow_right (by norm_num) (by omega)
      have e : u32 (2 ^ k * 2) = 2 ^ (k + 1) := by
        rw [← pow_succ]
        exact u32_of_lt (by omega)
      obtain ⟨p, hp, hrun, h1, h2⟩ := ih (k + 1) f (by omega) (by omega)
        (Or.inr (by simpa using hlt))
      refine ⟨p, hp, ?_, h1, h2⟩
      simp only [newSize]
      rw [hn, if_pos hlt, e]
      exact hrun
    · refine ⟨k, by omega, ?_, by omega, hinv⟩
      simp only [newSize]
      rw [hn, if_neg hlt]

/-! ## Claim C13 -/

theorem New_of_newSize {cap : Int} {fuel n : Nat} (h : newSize cap fuel 1 = Res.ok n)
    (arenaSize : Int) :
    New fuel cap arenaSize = Res.ok
      { size := n, mask := u32 (n + 2 ^ 32 - 1), clock := 0,
        entries := List.replicate n entry.zero,
        arena := if arenaSize > 0 then newArena arenaSize.toNat else newArenaLazy 0,
        stopped := false } := by
  unfold New
  rw [h]

/-- C13 (as stated) fails above `2 ^ 31`.  For the capacity `2 ^ 31 + 1` the size doubles up
to `2 ^ 31`, wraps to 0 and stays there, so `New` never returns; for the capacity `2 ^ 32`
the conversion `uint32(capacity)` is 0 and `New` returns a table of size 1. -/
theorem C13_counterexample :
    (∀ fuel : Nat, New fuel (2 ^ 31 + 1) 8 = Res.hang) ∧
    New 1 (2 ^ 32) 8 = Res.ok store18 ∧ store18.size = 1 := by
  refine ⟨fun fuel => ?_, by decide, rfl⟩
  have h : 2 ^ 31 < u32OfInt (2 ^ 31 + 1) := by decide
  have := newSize_hang h 31 0 (by omega) fuel
  rw [pow_zero] at this
  unfold New
  rw [this]

/-- C13 (amended). Capacity rounding: for every requested capacity `0 <= c <= 2 ^ 31`,
`New(c, arenaSize)` returns (within 32 iterations of its size loop) a store whose table
size is the least power of two that is at least `max(c, 1)`, whose mask is `size - 1` and
whose slot array has exactly `size` zero records; hence for every digest `h` the start
index `uint32(h) & mask` is below `size`. -/
theorem C13_capacity_rounding (cap arenaSize : Int) (fuel : Nat) (h0 : 0 ≤ cap)
    (h1 : cap ≤ 2 ^ 31) (hf : 32 ≤ fuel) :
    ∃ c p, New fuel cap arenaSize = Res.ok c ∧ c.size = 2 ^ p ∧ p ≤ 31 ∧
      max cap 1 ≤ (c.size : Int) ∧
      (∀ q : Nat, max cap 1 ≤ ((2 ^ q : Nat) : Int) → c.size ≤ 2 ^ q) ∧
      c.mask = c.size - 1 ∧ c.entries = List.replicate c.size entry.zero ∧
      ∀ h : Nat, u32 h &&& c.mask < c.size := by
  have hn : u32OfInt cap = cap.toNat := u32OfInt_of_range h0 (by omega)
  have hle : cap.toNat ≤ 2 ^ 31 := by omega
  obtain ⟨p, hp, hrun, hge, hmin⟩ := newSize_spec hn hle 31 0 fuel (by omega) (by omega)
    (Or.inl rfl)
  rw [pow_zero] at hrun
  have hpos : 0 < 2 ^ p := by positivity
  have hp31 : 2 ^ p ≤ 2 ^ 31 := Nat.pow_le_pow_right (by norm_num) hp
  have hmask : u32 (2 ^ p + 2 ^ 32 - 1) = 2 ^ p - 1 := by
    unfold u32
    have : 2 ^ p + 2 ^ 32 - 1 = (2 ^ p - 1) + 2 ^ 32 := by omega
    rw [this, Nat.add_mod_right]
    apply Nat.mod_eq_of_lt
    have h31 : (2 : Nat) ^ 31 < 2 ^ 32 := by norm_num
    omega
  refine ⟨_, p, New_of_newSize hrun arenaSize, rfl, hp, ?_, ?_, hmask, rfl, ?_⟩
  · show max cap 1 ≤ ((2 ^ p : Nat) : Int)
    have : (1 : Int) ≤ ((2 ^ p : Nat) : Int) := by exact_mod_cast hpos
    have : cap ≤ ((2 ^ p : Nat) : Int) := by
      have h2 : ((cap.toNat : Nat) : Int) ≤ ((2 ^ p : Nat) : Int) := by exact_mod_cast hge
      rw [Int.toNat_of_nonneg h0] at h2
      exact h2
    exact max_le this ‹_›
  · intro q hq
    show 2 ^ p ≤ 2 ^ q
    rcases hmin with rfl | hlt
    · rw [pow_zero]; exact Nat.one_le_two_pow
    · have hc : cap ≤ ((2 ^ q : Nat) : Int) := le_trans (le_max_left _ _) hq
      have hc2 : cap.toNat ≤ 2 ^ q := by
        have := Int.toNat_le_toNat hc
        simpa using this
      have : 2 ^ (p - 1) < 2 ^ q := lt_of_lt_of_le hlt hc2
      have hpq : p - 1 < q := (Nat.pow_lt_pow_iff_right (by norm_num)).mp this
      exact Nat.pow_le_pow_right (by norm_num) (by omega)
  · intro h
    show u32 h &&& u32 (2 ^ p + 2 ^ 32 - 1) < 2 ^ p
    rw [hmask]
    have : u32 h &&& (2 ^ p - 1) ≤ 2 ^ p - 1 := Nat.and_le_right
    omega

theorem C13_capacity_rounding_witness :
    ∃ c p, New 32 3 8 = Res.ok c ∧ c.size = 2 ^ p ∧ p ≤ 31 ∧
      max (3 : Int) 1 ≤ (c.size : Int) ∧
      (∀ q : Nat, max (3 : Int) 1 ≤ ((2 ^ q : Nat) : Int) → c.size ≤ 2 ^ q) ∧
      c.mask = c.size - 1 ∧ c.entries = List.replicate c.size entry.zero ∧
      ∀ h : Nat, u32 h &&& c.mask < c.size :=
  C13_capacity_rounding 3 8 32 (by decide) (by decide) (by decide)

/-! ## Shard routing -/

/-- A positive number with `n & (n - 1) = 0` is a power of two. -/
theorem pow2_of_and_pred : ∀ n : Nat, 0 < n → n &&& (n - 1) = 0 → ∃ p, n = 2 ^ p := by
  intro n
  induction n using Nat.strong_induction_on with
  | _ n ih =>
    intro hn h
    have hdiv : n / 2 &&& (n - 1) / 2 = 0 := by
      rw [← Nat.and_div_two, h]
    rcases Nat.mod_two_eq_zero_or_one n with h0 | h1
    · have hm : (n - 1) / 2 = n / 2 - 1 := by omega
      rw [hm] at hdiv
      obtain ⟨p, hp⟩ := ih (n / 2) (by omega) (by omega) hdiv
      exact ⟨p + 1, by rw [pow_succ]; omega⟩
    · have hm : (n - 1) / 2 = n / 2 := by omega
      rw [hm, Nat.and_self] at hdiv
      exact ⟨0, by rw [pow_zero]; omega⟩

theorem length_newShards {fuel : Nat} {a b : Int} (n : Nat) :
    ∀ l, newShards fuel a b n = Res.ok l → l.length = n := by
  induction n with
  | zero =>
    intro l h
    simp only [newShards, Res.ok.injEq] at h
    rw [← h]; rfl
  | succ n ih =>
    intro l h
    simp only [newShards] at h
    cases hN : New fuel a b with
    | panic => simp [hN] at h
    | hang => simp [hN] at h
    | ok c =>
      simp only [hN] at h
      cases hS : newShards fuel a b n with
      | panic => simp [hS] at h
      | hang => simp [hS] at h
      | ok cs =>
        simp only [hS, Res.ok.injEq] at h
        rw [← h, List.length_cons, ih cs hS]

/-- What `Validate` accepts for more than one shard is a power of two. -/
theorem Validate_shards_pow2 {cfg : Config} (hv : cfg.Validate = none) (hn : cfg.Shards > 1) :
    ∃ p, cfg.Shards.toNat = 2 ^ p := by
  unfold Config.Validate at hv
  split_ifs at hv with h1 h2 h3 h4
  have hz : cfg.Shards.toNat &&& (cfg.Shards - 1).toNat = 0 := by
    by_contra hcon
    exact h4 ⟨hn, hcon⟩
  have hs : (cfg.Shards - 1).toNat = cfg.Shards.toNat - 1 := by omega
  rw [hs] at hz
  exact pow2_of_and_pred _ (by omega) hz

theorem ShardedCache.Set_eq {s : ShardedCache} {key : Bytes} {c : Cache}
    (hc : s.shard key = Res.ok c) (fuel : Nat) (now : Int) (v : Bytes) (ttl : Int) :
    ShardedCache.Set fuel now s key v ttl =
      (Cache.Set fuel now c key v ttl).map
        (fun r => (r.1, { s with shards := s.shards.set (s.shardIndex key) r.2 })) := by
  unfold ShardedCache.Set
  rw [hc]
  simp only []
  cases hS : Cache.Set fuel now c key v ttl with
  | ok r => obtain ⟨b, c1⟩ := r; simp only [Res.map]
  | panic => simp only [Res.map]
  | hang => simp only [Res.map]

theorem ShardedCache.Get_eq {s : ShardedCache} {key : Bytes} {c : Cache}
    (hc : s.shard key = Res.ok c) (fuel : Nat) (now : Int) :
    ShardedCache.Get fuel now s key =
      (Cache.Get fuel now c key).map
        (fun r => (r.1, { s with shards := s.shards.set (s.shardIndex key) r.2 })) := by
  unfold ShardedCache.Get
  rw [hc]
  simp only []
  cases hS : Cache.Get fuel now c key with
  | ok r => obtain ⟨b, c1⟩ := r; simp only [Res.map]
  | panic => simp only [Res.map]
  | hang => simp only [Res.map]

theorem ShardedCache.Delete_eq {s : ShardedCache} {key : Bytes} {c : Cache}
    (hc : s.shard key = Res.ok c) (fuel : Nat) :
    ShardedCache.Delete fuel s key =
      (Cache.Delete fuel c key).map
        (fun c1 => { s with shards := s.shards.set (s.shardIndex key) c1 }) := by
  unfold ShardedCache.Delete
  rw [hc]
  simp only []
  cases hS : Cache.Delete fuel c key with
  | ok r => simp only [Res.map]
  | panic => simp only [Res.map]
  | hang => simp only [Res.map]

/-! ## Claim C15 -/

/-- C15. Shard routing is a total deterministic function: for a configuration that
`Validate` accepts with a shard count `n > 1` (an `int`), `n` is a power of two and the
router `NewShardedFromConfig` builds has exactly `n` shards and mask `n - 1`; for every key
the index it selects is `hash(key) & (n - 1)`, which is below `n` (indexing the shard array
does not fail), equals `hash(key) mod n` and is computed from the key bytes and `n` alone;
`Set`, `Get`, `Delete` and `Shard` all act on the shard at that index. -/
theorem C15_shard_routing (cfg : Config) (fuel : Nat) (s : ShardedCache)
    (hv : cfg.Validate = none) (hn : cfg.Shards > 1) (hint : cfg.Shards < 2 ^ 63)
    (hb : NewShardedFromConfig fuel cfg = Res.ok s) :
    (∃ p, cfg.Shards.toNat = 2 ^ p) ∧
    s.Shards = cfg.Shards.toNat ∧ s.mask = cfg.Shards.toNat - 1 ∧
    ∀ key : Bytes,
      s.shardIndex key = hash key &&& (cfg.Shards.toNat - 1) ∧
      s.shardIndex key < cfg.Shards.toNat ∧
      s.shardIndex key = hash key % cfg.Shards.toNat ∧
      ∃ c, s.shards[s.shardIndex key]? = some c ∧ s.shard key = Res.ok c ∧
        (∀ (f : Nat) (t : Int) (v : Bytes) (ttl : Int),
          ShardedCache.Set f t s key v ttl =
            (Cache.Set f t c key v ttl).map
              (fun r => (r.1, { s with shards := s.shards.set (s.shardIndex key) r.2 }))) ∧
        (∀ (f : Nat) (t : Int),
          ShardedCache.Get f t s key =
            (Cache.Get f t c key).map
              (fun r => (r.1, { s with shards := s.shards.set (s.shardIndex key) r.2 }))) ∧
        (∀ f : Nat,
          ShardedCache.Delete f s key =
            (Cache.Delete f c key).map
              (fun c1 => { s with shards := s.shards.set (s.shardIndex key) c1 })) := by
  obtain ⟨p, hp⟩ := Validate_shards_pow2 hv hn
  unfold NewShardedFromConfig at hb
  rw [if_neg (by omega)] at hb
  cases hS : newShards fuel (Int.tdiv cfg.Capacity cfg.Shards)
      (if cfg.ArenaSize > 0 then Int.tdiv cfg.ArenaSize cfg.Shards else 0) cfg.Shards.toNat with
  | panic => simp [hS] at hb
  | hang => simp [hS] at hb
  | ok l =>
    simp only [hS, Res.ok.injEq] at hb
    have hlen : l.length = cfg.Shards.toNat := length_newShards _ l hS
    have hmask : u64 (cfg.Shards - 1).toNat = cfg.Shards.toNat - 1 := by
      have h1 : (cfg.Shards - 1).toNat = cfg.Shards.toNat - 1 := by omega
      rw [h1]
      unfold u64
      apply Nat.mod_eq_of_lt
      have h2 : cfg.Shards.toNat < 2 ^ 63 := by
        have h3 := (Int.toNat_lt (by omega : (0 : Int) ≤ cfg.Shards)).mpr
          (show cfg.Shards < ((2 ^ 63 : Nat) : Int) by exact_mod_cast hint)
        exact h3
      have h4 : (2 : Nat) ^ 63 < 2 ^ 64 := by norm_num
      omega
    subst hb
    refine ⟨⟨p, hp⟩, hlen, hmask, fun key => ?_⟩
    have hidx : ShardedCache.shardIndex
        { shards := l, mask := u64 (cfg.Shards - 1).toNat } key
        = hash key &&& (cfg.Shards.toNat - 1) := by
      unfold ShardedCache.shardIndex
      rw [hmask]
    have hmod : hash key &&& (cfg.Shards.toNat - 1) = hash key % cfg.Shards.toNat := by
      rw [hp, Nat.and_pow_two_sub_one_eq_mod]
    have hlt : hash key &&& (cfg.Shards.toNat - 1) < cfg.Shards.toNat := by
      rw [hmod]
      exact Nat.mod_lt _ (by omega)
    have hget : l[hash key &&& (cfg.Shards.toNat - 1)]?
        = some (l.get ⟨hash key &&& (cfg.Shards.toNat - 1), by rw [hlen]; exact hlt⟩) :=
      List.getElem?_eq_getElem _
    have hsh : ShardedCache.shard { shards := l, mask := u64 (cfg.Shards - 1).toNat } key
        = Res.ok (l.get ⟨hash key &&& (cfg.Shards.toNat - 1), by rw [hlen]; exact hlt⟩) := by
      unfold ShardedCache.shard
      rw [hidx]
      simp only [hget]
    refine ⟨hidx, by rw [hidx]; exact hlt, by rw [hidx]; exact hmod, _, ?_, hsh, ?_, ?_, ?_⟩
    · rw [hidx]; exact hget
    · exact fun f t v ttl => ShardedCache.Set_eq hsh f t v ttl
    · exact fun f t => ShardedCache.Get_eq hsh f t
    · exact fun f => ShardedCache.Delete_eq hsh f

theorem C15_shard_routing_witness :
    (∃ p, config2.Shards.toNat = 2 ^ p) ∧
    router2.Shards = config2.Shards.toNat ∧ router2.mask = config2.Shards.toNat - 1 ∧
    ∀ key : Bytes,
      router2.shardIndex key = hash key &&& (config2.Shards.toNat - 1) ∧
      router2.shardIndex key < config2.Shards.toNat ∧
      router2.shardIndex key = hash key % config2.Shards.toNat ∧
      ∃ c, router2.shards[router2.shardIndex key]? = some c ∧ router2.shard key = Res.ok c ∧
        (∀ (f : Nat) (t : Int) (v : Bytes) (ttl : Int),
          ShardedCache.Set f t router2 key v ttl =
            (Cache.Set f t c key v ttl).map
              (fun r => (r.1,
                { router2 with shards := router2.shards.set (router2.shardIndex key) r.2 }))) ∧
        (∀ (f : Nat) (t : Int),
          ShardedCache.Get f t router2 key =
            (Cache.Get f t c key).map
              (fun r => (r.1,
                { router2 with shards := router2.shards.set (router2.shardIndex key) r.2 }))) ∧
        (∀ f : Nat,
          ShardedCache.Delete f router2 key =
            (Cache.Delete f c key).map
              (fun c1 =>
                { router2 with shards := router2.shards.set (router2.shardIndex key) c1 })) :=
  C15_shard_routing config2 3 router2 (by decide) (by decide) (by decide) (by decide)

/-! ## The eviction scan and a failed `Set` -/

/-- What the eviction scan does to the store: it touches only the slot table and the clock
hand; every record keeps its lengths, offsets and expiry; the digest of the slot under the
final clock hand is 0 and every other digest is as before. -/
theorem evict_spec (fuel : Nat) : ∀ c c1 : Cache, Cache.evict fuel c = Res.ok c1 →
    c1.mask = c.mask ∧ c1.size = c.size ∧ c1.arena = c.arena ∧ c1.stopped = c.stopped ∧
    c1.entries.length = c.entries.length ∧
    (∃ e1, c1.entries[c1.clock]? = some e1 ∧ e1.keyHash = 0) ∧
    ∀ i e, c.entries[i]? = some e → ∃ e1, c1.entries[i]? = some e1 ∧
      e1.keyLen = e.keyLen ∧ e1.valLen = e.valLen ∧ e1.keyOff = e.keyOff ∧
      e1.valOff = e.valOff ∧ e1.expire = e.expire ∧ (i ≠ c1.clock → e1.keyHash = e.keyHash) := by
  induction fuel with
  | zero => intro c c1 h; simp [Cache.evict] at h
  | succ n ih =>
    intro c c1 h
    simp only [Cache.evict] at h
    cases hq : c.entries[c.clock]? with
    | none => simp [hq] at h
    | some e0 =>
      simp only [hq] at h
      have hlt := getElem?_lt hq
      by_cases hu : e0.used = 0
      · rw [if_pos hu, Res.ok.injEq] at h
        subst h
        refine ⟨rfl, rfl, rfl, rfl, by simp,
          ⟨{ e0 with keyHash := 0 }, by simp [List.getElem?_set_self, hlt], rfl⟩, ?_⟩
        intro i e he
        by_cases hi : c.clock = i
        · subst hi
          rw [hq] at he
          cases he
          exact ⟨{ e0 with keyHash := 0 }, by simp [List.getElem?_set_self, hlt],
            rfl, rfl, rfl, rfl, rfl, fun hne => absurd rfl hne⟩
        · exact ⟨e, by simp [List.getElem?_set_ne hi, he], rfl, rfl, rfl, rfl, rfl,
            fun _ => rfl⟩
      · rw [if_neg hu] at h
        obtain ⟨h1, h2, h3, h4, h5, h6, h7⟩ := ih _ _ h
        refine ⟨h1, h2, h3, h4, by simpa using h5, h6, ?_⟩
        intro i e he
        by_cases hi : c.clock = i
        · subst hi
          rw [hq] at he
          cases he
          obtain ⟨e1, g1, g2, g3, g4, g5, g6, g7⟩ := h7 c.clock { e0 with used := 0 }
            (by simp [List.getElem?_set_self, hlt])
          exact ⟨e1, g1, g2, g3, g4, g5, g6, g7⟩
        · obtain ⟨e1, g1, g2, g3, g4, g5, g6, g7⟩ := h7 i e
            (by simp [List.getElem?_set_ne hi, he])
          exact ⟨e1, g1, g2, g3, g4, g5, g6, g7⟩

/-- Zeroing digests can only make a probe stop earlier: if the probe for `h` returns in
`c`, and `c1` has the same mask and at every slot the same digest or 0, then the probe
for `h` returns in `c1` within the same number of steps. -/
theorem find_after_zeroing {c c1 : Cache} {h : Nat} (hm : c1.mask = c.mask)
    (hrel : ∀ (i : Nat) (e : entry), c.entries[i]? = some e →
      ∃ e1 : entry, c1.entries[i]? = some e1 ∧ (e1.keyHash = e.keyHash ∨ e1.keyHash = 0))
    (fuel : Nat) :
    ∀ i j, Cache.find c h fuel i = Res.ok j → ∃ j1, Cache.find c1 h fuel i = Res.ok j1 := by
  induction fuel with
  | zero => intro i j hf; simp [Cache.find] at hf
  | succ n ih =>
    intro i j hf
    simp only [Cache.find] at hf ⊢
    cases hq : c.entries[i]? with
    | none => simp [hq] at hf
    | some e =>
      simp only [hq] at hf
      obtain ⟨e1, he1, hk⟩ := hrel i e hq
      rw [he1, hm]
      simp only []
      by_cases hc1 : e1.keyHash = 0 ∨ e1.keyHash = h
      · rw [if_pos hc1]; exact ⟨i, rfl⟩
      · rw [if_neg hc1]
        have hc : ¬ (e.keyHash = 0 ∨ e.keyHash = h) := by
          rcases hk with hk | hk
          · rw [← hk]; exact hc1
          · exact absurd (Or.inl hk) hc1
        rw [if_neg hc] at hf
        exact ih _ _ hf

/-! ## A failed `Set` and its retry; claim C17 -/

theorem u32_lt (n : Nat) : u32 n < 2 ^ 32 := Nat.mod_lt _ (by norm_num)

theorem setFail_false {fuel : Nat} {c0 c1 : Cache} {b : Bool}
    (h : Cache.setFail fuel c0 = Res.ok (b, c1)) :
    ∃ ce, Cache.evict fuel c0 = Res.ok ce ∧ c1 = { ce with arena := ce.arena.reset } := by
  unfold Cache.setFail at h
  cases he : Cache.evict fuel c0 with
  | panic => simp [he] at h
  | hang => simp [he] at h
  | ok ce =>
    simp only [he, Res.ok.injEq, Prod.mk.injEq] at h
    exact ⟨ce, rfl, h.2.symm⟩

/-- A `Set` body that reports failure has found an allocation that does not fit, which
needs a buffer shorter than `2 ^ 32`, and has then run the eviction scan and rewound the
arena; nothing was copied. -/
theorem setAt_false {fuel : Nat} {c c1 : Cache} {j h : Nat} {key val : Bytes} {exp : Int}
    (hs : Cache.setAt fuel c j h key val exp = Res.ok (false, c1)) :
    c.arena.buf.length < 2 ^ 32 ∧
    ∃ c0 ce, c0.entries = c.entries ∧ c0.mask = c.mask ∧ c0.stopped = c.stopped ∧
      c0.arena.buf = c.arena.buf ∧ Cache.evict fuel c0 = Res.ok ce ∧
      c1 = { ce with arena := ce.arena.reset } := by
  unfold Cache.setAt arena.alloc at hs
  by_cases h1 : c.arena.buf.length < u32 (c.arena.pos + u32 key.length)
  · rw [if_pos h1] at hs
    simp only [] at hs
    obtain ⟨ce, he, hc⟩ := setFail_false hs
    exact ⟨lt_trans h1 (u32_lt _), c, ce, rfl, rfl, rfl, rfl, he, hc⟩
  · rw [if_neg h1] at hs
    simp only [] at hs
    by_cases h2 : c.arena.buf.length
        < u32 (u32 (c.arena.pos + u32 key.length) + u32 val.length)
    · rw [if_pos h2] at hs
      simp only [] at hs
      obtain ⟨ce, he, hc⟩ := setFail_false hs
      exact ⟨lt_trans h2 (u32_lt _),
        { c with arena := { c.arena with pos := u32 (c.arena.pos + u32 key.length) } },
        ce, rfl, rfl, rfl, rfl, he, hc⟩
    · rw [if_neg h2] at hs
      simp only [] at hs
      split_ifs at hs
      simp at hs

/-- The probe reads only the mask and the slot table. -/
theorem find_congr {c c1 : Cache} (hm : c1.mask = c.mask) (he : c1.entries = c.entries)
    (h fuel : Nat) : ∀ i, Cache.find c1 h fuel i = Cache.find c h fuel i := by
  induction fuel with
  | zero => intro i; rfl
  | succ n ih =>
    intro i
    simp only [Cache.find]
    rw [he, hm]
    cases c.entries[i]? with
    | none => rfl
    | some e =>
      simp only []
      rw [ih]

/-- On a store that is not stopped, when the probe returns slot `j` and key and value fit
behind the offset, `Set` succeeds and writes slot `j`. -/
theorem Set_of_find_fits {c : Cache} {fuel j : Nat} {k v : Bytes} (hst : c.stopped = false)
    (hf : Cache.find c (hash k) fuel (u32 (hash k) &&& c.mask) = Res.ok j)
    (hfit : c.arena.pos + k.length + v.length ≤ c.arena.buf.length)
    (hlt : c.arena.pos + k.length + v.length < 2 ^ 32) (now ttl : Int) :
    Cache.Set fuel now c k v ttl =
      Res.ok (true, setState c j (hash k) k v (expiry now ttl)) := by
  unfold Cache.Set
  rw [hst]
  simp only [Bool.false_eq_true, if_false]
  rw [setLoop_eq_find, hf]
  exact setAt_of_fits hfit hlt _ _ _ _

/-- C17. Allocation failure in Set and retry: on a store that is not stopped, for a key and
a value with `len(k) + len(v)` at most the arena capacity, if `Set(k, v, ttl)` returns false
then afterwards the arena offset is 0 and the arena bytes are as before (nothing of `k` or
`v` was written), every slot record has its lengths, offsets and expiry as before and its
digest either as before or 0, all digests but at most one are as before, and an immediate
retry `Set(k, v, ttl)` (at any clock reading, with the same loop budget) returns true. -/
theorem C17_set_failure_and_retry (fuel : Nat) (t0 t1 : Int) (c c1 : Cache) (k v : Bytes)
    (ttl : Int) (hst : c.stopped = false)
    (hfit : k.length + v.length ≤ c.arena.buf.length)
    (hs : Cache.Set fuel t0 c k v ttl = Res.ok (false, c1)) :
    c1.arena.pos = 0 ∧ c1.arena.buf = c.arena.buf ∧
    c1.entries.length = c.entries.length ∧
    (∀ (i : Nat) (e : entry), c.entries[i]? = some e → ∃ e1 : entry,
      c1.entries[i]? = some e1 ∧ e1.keyLen = e.keyLen ∧ e1.valLen = e.valLen ∧
      e1.keyOff = e.keyOff ∧ e1.valOff = e.valOff ∧ e1.expire = e.expire ∧
      (e1.keyHash = e.keyHash ∨ e1.keyHash = 0)) ∧
    (∃ j : Nat, ∀ (i : Nat) (e : entry), i ≠ j → c.entries[i]? = some e →
      ∃ e1 : entry, c1.entries[i]? = some e1 ∧ e1.keyHash = e.keyHash) ∧
    ∃ c2, Cache.Set fuel t1 c1 k v ttl = Res.ok (true, c2) := by
  unfold Cache.Set at hs
  rw [hst] at hs
  simp only [Bool.false_eq_true, if_false] at hs
  rw [setLoop_eq_find] at hs
  cases hf : Cache.find c (hash k) fuel (u32 (hash k) &&& c.mask) with
  | panic => simp [hf] at hs
  | hang => simp [hf] at hs
  | ok j =>
    simp only [hf] at hs
    obtain ⟨hcap, c0, ce, he0, hm0, hst0, hb0, hev, rfl⟩ := setAt_false hs
    obtain ⟨g1, _, g3, g4, g5, ⟨ez, hez, hz0⟩, g7⟩ := evict_spec fuel c0 ce hev
    rw [he0] at g5 g7
    have hrel : ∀ (i : Nat) (e : entry), c.entries[i]? = some e → ∃ e1 : entry,
        ce.entries[i]? = some e1 ∧ e1.keyLen = e.keyLen ∧ e1.valLen = e.valLen ∧
        e1.keyOff = e.keyOff ∧ e1.valOff = e.valOff ∧ e1.expire = e.expire ∧
        (e1.keyHash = e.keyHash ∨ e1.keyHash = 0) := by
      intro i e he
      obtain ⟨e1, a1, a2, a3, a4, a5, a6, a7⟩ := g7 i e he
      refine ⟨e1, a1, a2, a3, a4, a5, a6, ?_⟩
      by_cases hi : i = ce.clock
      · subst hi
        rw [hez] at a1
        cases a1
        exact Or.inr hz0
      · exact Or.inl (a7 hi)
    have hbuf : ce.arena.buf = c.arena.buf := by rw [g3, hb0]
    refine ⟨rfl, hbuf, g5, hrel, ⟨ce.clock, ?_⟩, ?_⟩
    · intro i e hi he
      obtain ⟨e1, a1, _, _, _, _, _, a7⟩ := g7 i e he
      exact ⟨e1, a1, a7 hi⟩
    · have hm : ce.mask = c.mask := by rw [g1, hm0]
      obtain ⟨j1, hj1⟩ := find_after_zeroing hm
        (fun i e he => by
          obtain ⟨e1, a1, _, _, _, _, _, a7⟩ := hrel i e he
          exact ⟨e1, a1, a7⟩) fuel _ _ hf
      have hfind : Cache.find ({ ce with arena := ce.arena.reset } : Cache) (hash k) fuel
          (u32 (hash k) &&& ({ ce with arena := ce.arena.reset } : Cache).mask)
          = Res.ok j1 := by
        have hfc := @find_congr ce ({ ce with arena := ce.arena.reset } : Cache) rfl rfl
          (hash k) fuel (u32 (hash k) &&& c.mask)
        show Cache.find ({ ce with arena := ce.arena.reset } : Cache) (hash k) fuel
          (u32 (hash k) &&& ce.mask) = Res.ok j1
        have e : u32 (hash k) &&& ce.mask = u32 (hash k) &&& c.mask := by rw [hm]
        rw [e]
        exact hfc.trans hj1
      have hstop : ({ ce with arena := ce.arena.reset } : Cache).stopped = false := by
        show ce.stopped = false
        rw [g4, hst0, hst]
      exact ⟨_, Set_of_find_fits hstop hfind
        (by show 0 + k.length + v.length ≤ ce.arena.buf.length
            rw [hbuf]; omega)
        (by show 0 + k.length + v.length < 2 ^ 32
            omega) t1 ttl⟩

theorem C17_set_failure_and_retry_witness :
    Cache.Set 3 0 store24a [98] [50, 50] 0 = Res.ok (false, store24fail) ∧
    (store24fail.arena.pos = 0 ∧ store24fail.arena.buf = store24a.arena.buf ∧
    store24fail.entries.length = store24a.entries.length ∧
    (∀ (i : Nat) (e : entry), store24a.entries[i]? = some e → ∃ e1 : entry,
      store24fail.entries[i]? = some e1 ∧ e1.keyLen = e.keyLen ∧ e1.valLen = e.valLen ∧
      e1.keyOff = e.keyOff ∧ e1.valOff = e.valOff ∧ e1.expire = e.expire ∧
      (e1.keyHash = e.keyHash ∨ e1.keyHash = 0)) ∧
    (∃ j : Nat, ∀ (i : Nat) (e : entry), i ≠ j → store24a.entries[i]? = some e →
      ∃ e1 : entry, store24fail.entries[i]? = some e1 ∧ e1.keyHash = e.keyHash) ∧
    ∃ c2, Cache.Set 3 5 store24fail [98] [50, 50] 0 = Res.ok (true, c2)) :=
  ⟨by decide,
   C17_set_failure_and_retry 3 0 5 store24a store24fail [98] [50, 50] 0 (by decide)
    (by decide) (by decide)⟩

/-! ## The eviction scan in a well-formed store; claim C18 -/

theorem add_mod_ne {a m n : Nat} (ha : a < n) (h0 : 0 < m) (hm : m < n) : (a + m) % n ≠ a := by
  rcases Nat.lt_or_ge (a + m) n with h | h
  · rw [Nat.mod_eq_of_lt h]; omega
  · rw [Nat.mod_eq_sub_mod h, Nat.mod_eq_of_lt (by omega)]; omega

theorem evict_mono {c c1 : Cache} {f : Nat} (k : Nat) :
    Cache.evict f c = Res.ok c1 → Cache.evict (f + k) c = Res.ok c1 := by
  induction f generalizing c with
  | zero => intro h; simp [Cache.evict] at h
  | succ n ih =>
    intro h
    rw [Nat.add_right_comm]
    simp only [Cache.evict] at h ⊢
    cases hq : c.entries[c.clock]? with
    | none => simp [hq] at h
    | some e =>
      simp only [hq] at h ⊢
      by_cases hu : e.used = 0
      · rw [if_pos hu] at h ⊢; exact h
      · rw [if_neg hu] at h ⊢; exact ih h

/-- One iteration of the eviction scan over a slot whose used flag is set. -/
theorem evict_step {c : Cache} {x0 : entry} (hx0 : c.entries[c.clock]? = some x0)
    (hu : x0.used ≠ 0) (f : Nat) :
    Cache.evict (f + 1) c =
      Cache.evict f
        { c with
          entries := c.entries.set c.clock { x0 with used := 0 }
          clock := u32 (c.clock + 1) &&& c.mask } := by
  conv_lhs => unfold Cache.evict
  simp only [hx0]
  rw [if_neg hu]

/-- The eviction scan on a table of `2 ^ p` slots: when the `d` slots from the clock hand on
(in cyclic order) have their used flag set and the next one has not, or `d` is the table
size, the scan returns after `d + 1` inspections with the hand `d` steps further; the
record under the hand has digest 0, the records passed have used flag 0, and nothing else
has changed. -/
theorem evict_scan {p : Nat} (hp : p ≤ 31) (d : Nat) : ∀ c : Cache,
    c.mask = 2 ^ p - 1 → c.entries.length = 2 ^ p → c.clock < 2 ^ p → d ≤ 2 ^ p →
    (∀ e, e < d → ∃ x : entry, c.entries[(c.clock + e) % 2 ^ p]? = some x ∧ x.used ≠ 0) →
    (d < 2 ^ p → ∃ x : entry, c.entries[(c.clock + d) % 2 ^ p]? = some x ∧ x.used = 0) →
    ∃ c1, Cache.evict (d + 1) c = Res.ok c1 ∧ c1.clock = (c.clock + d) % 2 ^ p ∧
      c1.mask = c.mask ∧ c1.size = c.size ∧ c1.arena = c.arena ∧ c1.stopped = c.stopped ∧
      c1.entries.length = c.entries.length ∧
      ∀ (i : Nat) (x : entry), c.entries[i]? = some x → ∃ x1 : entry,
        c1.entries[i]? = some x1 ∧ x1.keyLen = x.keyLen ∧ x1.valLen = x.valLen ∧
        x1.keyOff = x.keyOff ∧ x1.valOff = x.valOff ∧ x1.expire = x.expire ∧
        (i = (c.clock + d) % 2 ^ p → x1.keyHash = 0) ∧
        (i ≠ (c.clock + d) % 2 ^ p → x1.keyHash = x.keyHash) ∧
        ((∃ e, e < d ∧ i = (c.clock + e) % 2 ^ p) → x1.used = 0) ∧
        ((¬ ∃ e, e < d ∧ i = (c.clock + e) % 2 ^ p) → x1.used = x.used) := by
  induction d with
  | zero =>
    intro c hm hl hc _ _ ht
    obtain ⟨x0, hx0, hu⟩ := ht (by positivity)
    rw [Nat.add_zero, Nat.mod_eq_of_lt hc] at hx0
    have hlt := getElem?_lt hx0
    refine ⟨{ c with entries := c.entries.set c.clock { x0 with keyHash := 0 } }, ?_, ?_,
      rfl, rfl, rfl, rfl, by simp, ?_⟩
    · simp only [Cache.evict, hx0]
      rw [if_pos hu]
    · show c.clock = (c.clock + 0) % 2 ^ p
      rw [Nat.add_zero, Nat.mod_eq_of_lt hc]
    · intro i x hx
      rw [Nat.add_zero, Nat.mod_eq_of_lt hc]
      by_cases hi : c.clock = i
      · subst hi
        rw [hx0] at hx
        cases hx
        exact ⟨{ x0 with keyHash := 0 }, by simp [List.getElem?_set_self, hlt], rfl, rfl, rfl,
          rfl, rfl, fun _ => rfl, fun hne => absurd rfl hne, fun ⟨e, he, _⟩ => by omega,
          fun _ => rfl⟩
      · exact ⟨x, by simp [List.getElem?_set_ne hi, hx], rfl, rfl, rfl, rfl, rfl,
          fun h => absurd h.symm hi, fun _ => rfl, fun ⟨e, he, _⟩ => by omega, fun _ => rfl⟩
  | succ d ih =>
    intro c hm hl hc hd hpass ht
    have hn : 0 < 2 ^ p := by positivity
    obtain ⟨x0, hx0, hu⟩ := hpass 0 (by omega)
    rw [Nat.add_zero, Nat.mod_eq_of_lt hc] at hx0
    have hlt := getElem?_lt hx0
    have hnext : u32 (c.clock + 1) &&& c.mask = (c.clock + 1) % 2 ^ p := WF_next hp hm _
    have hshift : ∀ e, ((c.clock + 1) % 2 ^ p + e) % 2 ^ p = (c.clock + (e + 1)) % 2 ^ p := by
      intro e
      rw [Nat.mod_add_mod]
      congr 1
      omega
    obtain ⟨c2, e2, k2, m2, s2, a2, t2, r2⟩ : ∃ c2 : Cache,
        c2.entries = c.entries.set c.clock { x0 with used := 0 } ∧
        c2.clock = (c.clock + 1) % 2 ^ p ∧ c2.mask = c.mask ∧ c2.size = c.size ∧
        c2.arena = c.arena ∧ c2.stopped = c.stopped ∧
        Cache.evict (d + 1 + 1) c = Cache.evict (d + 1) c2 :=
      ⟨{ c with entries := c.entries.set c.clock { x0 with used := 0 },
                clock := u32 (c.clock + 1) &&& c.mask },
        rfl, hnext, rfl, rfl, rfl, rfl, evict_step hx0 hu (d + 1)⟩
    have hshift2 : ∀ e, (c2.clock + e) % 2 ^ p = (c.clock + (e + 1)) % 2 ^ p := by
      intro e; rw [k2]; exact hshift e
    obtain ⟨c1, hrun, hclk, g1, g2, g3, g4, g5, g6⟩ :=
      ih c2 (by rw [m2]; exact hm) (by rw [e2, List.length_set]; exact hl)
        (by rw [k2]; exact Nat.mod_lt _ hn) (by omega)
        (by
          intro e he
          rw [hshift2, e2]
          have hne : c.clock ≠ (c.clock + (e + 1)) % 2 ^ p :=
            fun h => add_mod_ne hc (by omega) (by omega) h.symm
          rw [List.getElem?_set_ne hne]
          exact hpass (e + 1) (by omega))
        (by
          intro _
          rw [hshift2, e2]
          by_cases hT : c.clock = (c.clock + (d + 1)) % 2 ^ p
          · rw [← hT, List.getElem?_set_self hlt]
            exact ⟨_, rfl, rfl⟩
          · rw [List.getElem?_set_ne hT]
            apply ht
            rcases Nat.lt_or_ge (d + 1) (2 ^ p) with h | h
            · exact h
            · exfalso
              apply hT
              have hdn : d + 1 = 2 ^ p := by omega
              rw [hdn, Nat.add_mod_right, Nat.mod_eq_of_lt hc])
    rw [hshift2] at hclk
    refine ⟨c1, by rw [r2]; exact hrun, hclk, g1.trans m2, g2.trans s2, g3.trans a2,
      g4.trans t2, by rw [g5, e2, List.length_set], ?_⟩
    intro i x hx
    have hpassed : ∀ q : Nat, (∃ e, e < d ∧ q = (c2.clock + e) % 2 ^ p) ↔
        (∃ e, e < d ∧ q = (c.clock + (e + 1)) % 2 ^ p) := by
      intro q
      constructor
      · rintro ⟨e, he, hq⟩; exact ⟨e, he, by rw [hq, hshift2]⟩
      · rintro ⟨e, he, hq⟩; exact ⟨e, he, by rw [hq, hshift2]⟩
    by_cases hi : c.clock = i
    · subst hi
      rw [hx0] at hx
      cases hx
      obtain ⟨x1, a1, b2, b3, b4, b5, b6, b7, b8, b9, b10⟩ :=
        g6 c.clock { x0 with used := 0 } (by rw [e2, List.getElem?_set_self hlt])
      refine ⟨x1, a1, b2, b3, b4, b5, b6, ?_, ?_, ?_, ?_⟩
      · intro h; exact b7 (by rw [hshift2]; exact h)
      · intro h; exact b8 (by rw [hshift2]; exact h)
      · intro _
        by_cases hp2 : ∃ e, e < d ∧ c.clock = (c2.clock + e) % 2 ^ p
        · exact b9 hp2
        · exact b10 hp2
      · intro hnp
        exfalso
        exact hnp ⟨0, by omega, by rw [Nat.add_zero, Nat.mod_eq_of_lt hc]⟩
    · obtain ⟨x1, a1, b2, b3, b4, b5, b6, b7, b8, b9, b10⟩ :=
        g6 i x (by rw [e2, List.getElem?_set_ne hi]; exact hx)
      refine ⟨x1, a1, b2, b3, b4, b5, b6, ?_, ?_, ?_, ?_⟩
      · intro h; exact b7 (by rw [hshift2]; exact h)
      · intro h; exact b8 (by rw [hshift2]; exact h)
      · rintro ⟨e, he, hq⟩
        cases e with
        | zero =>
          exfalso
          rw [Nat.add_zero, Nat.mod_eq_of_lt hc] at hq
          exact hi hq.symm
        | succ e => exact b9 ((hpassed i).mpr ⟨e, by omega, hq⟩)
      · intro hnp
        apply b10
        intro hp2
        obtain ⟨e, he, hq⟩ := (hpassed i).mp hp2
        exact hnp ⟨e + 1, by omega, hq⟩

/-- Whenever the size loop of `New` returns, started from a power of two, it returns a power
of two that a `uint32` holds. -/
theorem newSize_pow2 {cap : Int} {n : Nat} (fuel : Nat) :
    ∀ k, k ≤ 31 → newSize cap fuel (2 ^ k) = Res.ok n → ∃ p, p ≤ 31 ∧ n = 2 ^ p := by
  induction fuel with
  | zero =>
    intro k _ h
    simp [newSize] at h
  | succ f ih =>
    intro k hk h
    simp only [newSize] at h
    by_cases hlt : 2 ^ k < u32OfInt cap
    · rw [if_pos hlt] at h
      by_cases hk31 : k = 31
      · subst hk31
        have e : u32 (2 ^ 31 * 2) = 0 := by decide
        rw [e, newSize_zero_hang (by omega) f] at h
        cases h
      · have hlt2 : 2 ^ (k + 1) ≤ 2 ^ 31 := Nat.pow_le_pow_right (by norm_num) (by omega)
        have h31 : (2 : Nat) ^ 31 < 2 ^ 32 := by norm_num
        have e : u32 (2 ^ k * 2) = 2 ^ (k + 1) := by
          rw [← pow_succ]
          exact u32_of_lt (by omega)
        rw [e] at h
        exact ih (k + 1) (by omega) h
    · rw [if_neg hlt, Res.ok.injEq] at h
      exact ⟨k, hk, h.symm⟩

/-- Every store that `New` returns has the shape `Cache.WF`, with the clock hand at 0. -/
theorem New_WF {fuel : Nat} {cap arenaSize : Int} {c : Cache}
    (h : New fuel cap arenaSize = Res.ok c) : c.WF ∧ c.clock < c.size := by
  cases hn : newSize cap fuel 1 with
  | panic => simp [New, hn] at h
  | hang => simp [New, hn] at h
  | ok n =>
    rw [New_of_newSize hn arenaSize, Res.ok.injEq] at h
    have hn1 : newSize cap fuel (2 ^ 0) = Res.ok n := by rw [pow_zero]; exact hn
    obtain ⟨p, hp, rfl⟩ := newSize_pow2 fuel 0 (by omega) hn1
    have hpos : 0 < 2 ^ p := by positivity
    have hp31 : 2 ^ p ≤ 2 ^ 31 := Nat.pow_le_pow_right (by norm_num) hp
    have hmask : u32 (2 ^ p + 2 ^ 32 - 1) = 2 ^ p - 1 := by
      unfold u32
      have : 2 ^ p + 2 ^ 32 - 1 = (2 ^ p - 1) + 2 ^ 32 := by omega
      rw [this, Nat.add_mod_right]
      apply Nat.mod_eq_of_lt
      have h31 : (2 : Nat) ^ 31 < 2 ^ 32 := by norm_num
      omega
    subst h
    exact ⟨⟨p, hp, rfl, hmask, List.length_replicate _ _⟩, hpos⟩

theorem WF_store24a : store24a.WF := ⟨1, by decide, rfl, rfl, rfl⟩

/-- C18. Clock eviction scan: on a store as `New` builds it (`size >= 1` a power of two,
`size` slots in the table, `mask = size - 1`: the shape of every store reached from `New`,
see `reachable_WF`) with the clock hand below `size`,
`evict()` returns after inspecting `d + 1` slots, where `d <= size` is the number of
consecutive slots from the clock hand on, in cyclic order, whose used flag is set (so at
most `size + 1` inspections, and `d = size` exactly when every slot had its used flag set).
The hand ends `d` steps further, below `size`, on the first slot whose used flag was 0 (or
on its original position when there was none); that slot has its digest set to 0, the `d`
slots passed have their used flag cleared, no other digest and no other used flag changes,
and lengths, offsets, expiry, arena, mask and stopped flag are untouched. -/
theorem C18_clock_eviction_scan (c : Cache) (hwf : c.WF) (hclock : c.clock < c.size) :
    ∃ d c1, d ≤ c.size ∧ (∀ fuel, d + 1 ≤ fuel → Cache.evict fuel c = Res.ok c1) ∧
      (∀ e, e < d → ∃ x : entry, c.entries[(c.clock + e) % c.size]? = some x ∧ x.used ≠ 0) ∧
      (d < c.size → ∃ x : entry, c.entries[(c.clock + d) % c.size]? = some x ∧ x.used = 0) ∧
      c1.clock = (c.clock + d) % c.size ∧ c1.clock < c.size ∧
      c1.mask = c.mask ∧ c1.size = c.size ∧ c1.arena = c.arena ∧ c1.stopped = c.stopped ∧
      c1.entries.length = c.entries.length ∧
      ∀ (i : Nat) (x : entry), c.entries[i]? = some x → ∃ x1 : entry,
        c1.entries[i]? = some x1 ∧ x1.keyLen = x.keyLen ∧ x1.valLen = x.valLen ∧
        x1.keyOff = x.keyOff ∧ x1.valOff = x.valOff ∧ x1.expire = x.expire ∧
        (i = c1.clock → x1.keyHash = 0) ∧
        (i ≠ c1.clock → x1.keyHash = x.keyHash) ∧
        ((∃ e, e < d ∧ i = (c.clock + e) % c.size) → x1.used = 0) ∧
        ((¬ ∃ e, e < d ∧ i = (c.clock + e) % c.size) → x1.used = x.used) := by
  obtain ⟨p, hp, hs, hm, hl⟩ := hwf
  rw [hs] at hclock ⊢
  have hn : 0 < 2 ^ p := by positivity
  have hslot : ∀ e, ∃ x : entry, c.entries[(c.clock + e) % 2 ^ p]? = some x := by
    intro e
    have hlt : (c.clock + e) % 2 ^ p < c.entries.length := by
      rw [hl]; exact Nat.mod_lt _ hn
    exact ⟨_, List.getElem?_eq_getElem hlt⟩
  have key : ∃ d, d ≤ 2 ^ p ∧
      (∀ e, e < d → ∃ x : entry, c.entries[(c.clock + e) % 2 ^ p]? = some x ∧ x.used ≠ 0) ∧
      (d < 2 ^ p → ∃ x : entry, c.entries[(c.clock + d) % 2 ^ p]? = some x ∧ x.used = 0) := by
    classical
    by_cases hex : ∃ e, e < 2 ^ p ∧
        ∃ x : entry, c.entries[(c.clock + e) % 2 ^ p]? = some x ∧ x.used = 0
    · refine ⟨Nat.find hex, le_of_lt (Nat.find_spec hex).1, ?_, fun _ => (Nat.find_spec hex).2⟩
      intro e he
      obtain ⟨x, hx⟩ := hslot e
      refine ⟨x, hx, fun hu => ?_⟩
      exact Nat.find_min hex he ⟨lt_trans he (Nat.find_spec hex).1, x, hx, hu⟩
    · refine ⟨2 ^ p, le_refl _, ?_, fun h => absurd h (lt_irrefl _)⟩
      intro e he
      obtain ⟨x, hx⟩ := hslot e
      exact ⟨x, hx, fun hu => hex ⟨e, he, x, hx, hu⟩⟩
  obtain ⟨d, hd, hpass, ht⟩ := key
  obtain ⟨c1, hrun, hclk, g1, g2, g3, g4, g5, g6⟩ :=
    evict_scan hp d c hm hl hclock hd hpass ht
  refine ⟨d, c1, hd, ?_, hpass, ht, hclk, by rw [hclk]; exact Nat.mod_lt _ hn, g1,
    g2.trans hs, g3, g4, g5, ?_⟩
  · intro fuel hf
    have := evict_mono (fuel - (d + 1)) hrun
    rw [Nat.add_sub_cancel' hf] at this
    exact this
  · intro i x hx
    obtain ⟨x1, a1, a2, a3, a4, a5, a6, a7, a8, a9, a10⟩ := g6 i x hx
    exact ⟨x1, a1, a2, a3, a4, a5, a6, by rw [hclk]; exact a7, by rw [hclk]; exact a8, a9, a10⟩

theorem C18_clock_eviction_scan_witness :
    ∃ d c1, d ≤ store24a.size ∧
      (∀ fuel, d + 1 ≤ fuel → Cache.evict fuel store24a = Res.ok c1) ∧
      (∀ e, e < d → ∃ x : entry,
        store24a.entries[(store24a.clock + e) % store24a.size]? = some x ∧ x.used ≠ 0) ∧
      (d < store24a.size → ∃ x : entry,
        store24a.entries[(store24a.clock + d) % store24a.size]? = some x ∧ x.used = 0) ∧
      c1.clock = (store24a.clock + d) % store24a.size ∧ c1.clock < store24a.size ∧
      c1.mask = store24a.mask ∧ c1.size = store24a.size ∧ c1.arena = store24a.arena ∧
      c1.stopped = store24a.stopped ∧ c1.entries.length = store24a.entries.length ∧
      ∀ (i : Nat) (x : entry), store24a.entries[i]? = some x → ∃ x1 : entry,
        c1.entries[i]? = some x1 ∧ x1.keyLen = x.keyLen ∧ x1.valLen = x.valLen ∧
        x1.keyOff = x.keyOff ∧ x1.valOff = x.valOff ∧ x1.expire = x.expire ∧
        (i = c1.clock → x1.keyHash = 0) ∧
        (i ≠ c1.clock → x1.keyHash = x.keyHash) ∧
        ((∃ e, e < d ∧ i = (store24a.clock + e) % store24a.size) → x1.used = 0) ∧
        ((¬ ∃ e, e < d ∧ i = (store24a.clock + e) % store24a.size) → x1.used = x.used) :=
  C18_clock_eviction_scan store24a WF_store24a (by decide)

/-! ## Two keys with one digest; claim C19 -/

theorem Set_wrapped_second (v : Bytes) (hv : v.length = 2 ^ 32) (t0 : Int) :
    Cache.Set 1 t0 store24a [97] v 0 = Res.ok (true, store24abig) := by
  have hi : u32 4953267810257967366 &&& store24a.mask = 0 := by decide
  have hl : u32 v.length = 0 := by rw [hv]; decide
  have hst : store24a.stopped = false := rfl
  have g : store24a.entries[0]? = some
      { keyHash := 4953267810257967366, keyLen := 1, valLen := 2, keyOff := 0, valOff := 1,
        expire := 0, used := 1 } := rfl
  have a1 : store24a.arena.alloc (u32 ([97] : Bytes).length)
      = ({ buf := [97, 49, 49, 0], pos := 4, chunkSize := 0, curChunk := 0 }, 3, true) := by
    decide
  have a2 : arena.alloc { buf := [97, 49, 49, 0], pos := 4, chunkSize := 0, curChunk := 0 } 0
      = ({ buf := [97, 49, 49, 0], pos := 4, chunkSize := 0, curChunk := 0 }, 4, true) := by
    decide
  have s1 : sliceOk ([97, 49, 49, 0] : Bytes) 3 (u32 (3 + u32 ([97] : Bytes).length)) := by
    decide
  have c1 : copyInto ([97, 49, 49, 0] : Bytes) 3 (u32 (3 + u32 ([97] : Bytes).length)) [97]
      = [97, 49, 49, 97] := by decide
  have e2 : u32 (4 + 0) = 4 := by decide
  have s2 : sliceOk ([97, 49, 49, 97] : Bytes) 4 4 := by decide
  have c2 : copyInto ([97, 49, 49, 97] : Bytes) 4 4 v = [97, 49, 49, 97] := by
    simp [copyInto]
  unfold Cache.Set
  rw [hst]
  simp only [Bool.false_eq_true, if_false]
  rw [hash_a, hi]
  simp only [Cache.setLoop]
  rw [g]
  simp only []
  rw [if_pos (Or.inr trivial)]
  unfold Cache.setAt
  rw [a1]
  simp only []
  rw [hl, a2]
  simp only []
  rw [if_pos s1, c1, e2, if_pos s2, c2]
  rfl

/-- C19 (as stated) fails when the second value has `2 ^ 32` bytes: on the store `New(2, 4)`
builds, `Set("a", "11", 0)` and then `Set("a", v2, 0)` with `v2` of `2 ^ 32` bytes both
return true (the second record has `valLen = uint32(len(v2)) = 0`), the second overwrites
slot 0, and `Get("a")` returns the empty slice and true, not `v2`. -/
theorem C19_counterexample :
    store24.stopped = false ∧ hash [97] ≠ 0 ∧ bigValue.length = 2 ^ 32 ∧
    Cache.Set 1 0 store24 [97] [49, 49] 0 = Res.ok (true, store24a) ∧
    Cache.Set 1 0 store24a [97] bigValue 0 = Res.ok (true, store24abig) ∧
    Cache.Get 1 0 store24abig [97] = Res.ok ((some [], true), store24abig) ∧
    Cache.Get 1 0 store24abig [97] ≠ Res.ok ((some bigValue, true), store24abig) := by
  have hg : Cache.Get 1 0 store24abig [97] = Res.ok ((some [], true), store24abig) := by
    decide
  refine ⟨rfl, by decide, length_bigValue, by decide,
    Set_wrapped_second bigValue length_bigValue 0, hg, ?_⟩
  rw [hg]
  intro h
  simp only [Res.ok.injEq, Prod.mk.injEq, Option.some.injEq, and_true] at h
  have hlen := congrArg List.length h
  rw [length_bigValue] at hlen
  simp at hlen

/-- C19 (amended). Hash-only key equality: for two keys `k1`, `k2` (equal or distinct as byte
strings) with `hash(k1) = hash(k2) != 0` and a second value shorter than `2 ^ 32` bytes, if
`Set(k1, v1, 0)` and then `Set(k2, v2, 0)` both return true (so the store is not stopped),
then both wrote the same slot `j` and the slot table after the second `Set` is the table
before the first with slot `j` alone replaced (no second slot is occupied), and `Get(k1)`
issued right afterwards returns `(v2, true)`. -/
theorem C19_hash_only_key_equality (fuel : Nat) (t0 t1 t2 : Int) (c c1 c2 : Cache)
    (k1 k2 v1 v2 : Bytes) (hh : hash k1 = hash k2) (hne : hash k1 ≠ 0)
    (hv2 : v2.length < 2 ^ 32)
    (hs1 : Cache.Set fuel t0 c k1 v1 0 = Res.ok (true, c1))
    (hs2 : Cache.Set fuel t1 c1 k2 v2 0 = Res.ok (true, c2)) :
    c.stopped = false ∧
    (∃ (j : Nat) (e1 e2 : entry), j < c.entries.length ∧
      c1.entries = c.entries.set j e1 ∧ e1.keyHash = hash k1 ∧
      c2.entries = c.entries.set j e2 ∧ e2.keyHash = hash k2) ∧
    Cache.Get fuel t2 c2 k1 = Res.ok ((some v2, true), c2) := by
  obtain ⟨hst, j, e, a1, e1, hf, he, hstop, hc1, hk1, -, -, -⟩ := Set_true_any hs1
  obtain ⟨hst1, j2, e3, a2, e2, hf2, he2, -, hc2, hk2, hx2, hu2, hsl⟩ := Set_true_any hs2
  have hj := getElem?_lt he
  have hm1 : c1.mask = c.mask := by rw [hc1]
  have hen1 : c1.entries = c.entries.set j e1 := by rw [hc1]
  have hfs1 := find_set_stop hm1 hen1 he hstop (Or.inr hk1) fuel
    (u32 (hash k1) &&& c.mask)
  rw [hf] at hfs1
  rw [← hh, hm1, hfs1] at hf2
  have hjj : j2 = j := (Res.ok.inj hf2).symm
  subst hjj
  have hm2 : c2.mask = c1.mask := by rw [hc2]
  have hen2 : c2.entries = c1.entries.set j2 e2 := by rw [hc2]
  have hk2a : e2.keyHash = hash k1 := hk2.trans hh.symm
  have he1 : c1.entries[j2]? = some e1 := by
    rw [hen1]
    exact List.getElem?_set_self hj
  have hfs2 := find_set_stop hm2 hen2 he1 (Or.inr hk1) (Or.inr hk2a) fuel
    (u32 (hash k1) &&& c1.mask)
  rw [hm1, hfs1] at hfs2
  have hen : c2.entries = c.entries.set j2 e2 := by
    rw [hen2, hen1, List.set_set]
  have he2a : c2.entries[j2]? = some e2 := by
    rw [hen]
    exact List.getElem?_set_self hj
  have hst2 : c2.stopped = false := by rw [hc2]; exact hst1
  have hb : c2.arena.buf = a2.buf := by rw [hc2]
  obtain ⟨hok, hval⟩ := hsl hv2
  rw [← hb] at hok hval
  have hlive : ¬ (e2.expire > 0 ∧ t2 > e2.expire) := by
    rw [hx2]
    simp [expiry]
  refine ⟨hst, ⟨j2, e1, e2, hj, hen1, hk1, hen, hk2⟩, ?_⟩
  have hget := @Get_at_slot fuel t2 c2 k1 j2 e2 hst2 hne (by rw [hm2, hm1]; exact hfs2) he2a
    hk2a hlive hu2 hok
  rw [hval] at hget
  exact hget

theorem C19_hash_only_key_equality_witness :
    collKey ≠ [97] ∧ hash [97] = hash collKey ∧ hash [97] ≠ 0 ∧
    Cache.Set 1 0 store2x24 [97] [49, 49] 0 = Res.ok (true, store2x24a) ∧
    Cache.Set 1 0 store2x24a collKey [50] 0 = Res.ok (true, store2x24c) ∧
    Cache.Get 1 0 store2x24c [97] = Res.ok ((some [50], true), store2x24c) :=
  ⟨by decide, by decide, by decide, by decide, by decide,
   (C19_hash_only_key_equality 1 0 0 0 store2x24 store2x24a store2x24c [97] collKey [49, 49]
     [50] (by decide) (by decide) (by decide) (by decide) (by decide)).2.2⟩

/-! ## A key with digest 0; claim C20 -/

theorem countP_set_same {α : Type} (p : α → Bool) (a : α) :
    ∀ (l : List α) (j : Nat) (e : α), l[j]? = some e → p e = p a →
      (l.set j a).countP p = l.countP p := by
  intro l
  induction l with
  | nil =>
    intro j e he
    simp at he
  | cons x xs ih =>
    intro j e he hp
    cases j with
    | zero =>
      simp only [List.getElem?_cons_zero, Option.some.injEq] at he
      subst he
      simp only [List.set_cons_zero, List.countP_cons, hp]
    | succ j =>
      simp only [List.getElem?_cons_succ] at he
      simp only [List.set_cons_succ, List.countP_cons, ih j e he hp]

theorem WF_store2x24 : store2x24.WF := ⟨1, by decide, rfl, rfl, rfl⟩

/-- C20. Digest 0 collides with the empty-slot sentinel: on a store that is not stopped, for a
key `k` with `hash(k) = 0`, (a) `Set(k, v, ttl)` does return true when the store has the
shape `New` builds, an empty slot, a loop budget of at least `size` probe steps and arena
room for `k` and `v`; and (b) whenever `Set(k, v, ttl)` returns true, it has written its
record, with digest 0 and used flag 1, over a slot whose digest was 0, the arena offset has
advanced by `len(k) + len(v)` (lengths below `2 ^ 32`), the number of empty slots is what it
was, every probe (for any digest, from any slot) stops where it stopped before, and a
`Get(k)` issued right afterwards returns `(nil, false)` and changes nothing. -/
theorem C20_zero_digest_is_lost (fuel : Nat) (t0 t1 : Int) (c : Cache) (k v : Bytes)
    (ttl : Int) (hst : c.stopped = false) (hk0 : hash k = 0) :
    (c.WF → 0 < c.free → c.entries.length ≤ fuel →
      c.arena.pos + k.length + v.length ≤ c.arena.buf.length →
      c.arena.pos + k.length + v.length < 2 ^ 32 →
      ∃ c1, Cache.Set fuel t0 c k v ttl = Res.ok (true, c1)) ∧
    ∀ c1, Cache.Set fuel t0 c k v ttl = Res.ok (true, c1) →
      (∃ (j : Nat) (e e1 : entry), c.entries[j]? = some e ∧ e.keyHash = 0 ∧
        c1.entries = c.entries.set j e1 ∧ e1.keyHash = 0 ∧ e1.used = 1) ∧
      (k.length < 2 ^ 32 → v.length < 2 ^ 32 →
        c1.arena.pos = c.arena.pos + k.length + v.length) ∧
      c1.free = c.free ∧
      (∀ h f i : Nat, Cache.find c1 h f i = Cache.find c h f i) ∧
      Cache.Get fuel t1 c1 k = Res.ok ((none, false), c1) := by
  constructor
  · intro hwf hfree hfuel hfit hlt
    obtain ⟨j, e, _, _, _, hs⟩ := @Set_ok c hwf hst hfree fuel hfuel k v hfit hlt t0 ttl
    exact ⟨_, hs⟩
  · intro c1 hs
    obtain ⟨_, j, e, a, e1, hf, he, hstop, hc1, hk1, -, hu1, -⟩ := Set_true_any hs
    rw [hk0] at hf hstop hk1
    have he0 : e.keyHash = 0 := by
      rcases hstop with h | h <;> exact h
    have hm1 : c1.mask = c.mask := by rw [hc1]
    have hen1 : c1.entries = c.entries.set j e1 := by rw [hc1]
    have hst1 : c1.stopped = false := by rw [hc1]; exact hst
    have hj := getElem?_lt he
    have hfind : ∀ h f i : Nat, Cache.find c1 h f i = Cache.find c h f i := fun h f i =>
      find_set_stop hm1 hen1 he (Or.inl he0) (Or.inl hk1) f i
    refine ⟨⟨j, e, e1, he, he0, hen1, hk1, hu1⟩, ?_, ?_, hfind, ?_⟩
    · intro hk hv
      obtain ⟨_, j2, e2, _, _, _, _, _, hc⟩ := Set_true_spec hk hv hs
      rw [hc]
      rfl
    · unfold Cache.free
      rw [hen1]
      exact countP_set_same _ e1 c.entries j e he (by simp [he0, hk1])
    · unfold Cache.Get
      rw [hst1]
      simp only [Bool.false_eq_true, if_false]
      rw [getLoop_eq_find, hk0, hfind, hm1, hf]
      have he1 : c1.entries[j]? = some e1 := by
        rw [hen1]
        exact List.getElem?_set_self hj
      simp only [Cache.getLoop, he1, hk1, if_true]

theorem C20_zero_digest_is_lost_witness :
    store2x24.stopped = false ∧ hash zeroKey = 0 ∧
    Cache.Set 2 0 store2x24 zeroKey [49] 0 = Res.ok (true, store2x24z) ∧
    (∃ c1, Cache.Set 2 0 store2x24 zeroKey [49] 0 = Res.ok (true, c1)) ∧
    store2x24z.free = store2x24.free ∧
    Cache.Get 2 0 store2x24z zeroKey = Res.ok ((none, false), store2x24z) :=
  ⟨rfl, by decide, by decide,
   (C20_zero_digest_is_lost 2 0 0 store2x24 zeroKey [49] 0 rfl (by decide)).1 WF_store2x24
     (by decide) (by decide) (by decide) (by decide),
   (((C20_zero_digest_is_lost 2 0 0 store2x24 zeroKey [49] 0 rfl (by decide)).2 store2x24z
     (by decide)).2.2.1),
   (((C20_zero_digest_is_lost 2 0 0 store2x24 zeroKey [49] 0 rfl (by decide)).2 store2x24z
     (by decide)).2.2.2.2)⟩

/-! ## Digests the table holds -/

theorem find_set_samehash {c c1 : Cache} {j : Nat} {e e1 : entry}
    (hm : c1.mask = c.mask) (he : c1.entries = c.entries.set j e1)
    (hj : c.entries[j]? = some e) (hk : e1.keyHash = e.keyHash) (h fuel : Nat) :
    ∀ i, Cache.find c1 h fuel i = Cache.find c h fuel i := by
  induction fuel with
  | zero => intro i; simp [Cache.find]
  | succ n ih =>
    intro i
    simp only [Cache.find, he, hm]
    by_cases hij : j = i
    · subst hij
      rw [List.getElem?_set_self (getElem?_lt hj), hj]
      simp only [hk]
      split
      · rfl
      · exact ih _
    · rw [List.getElem?_set_ne hij]
      cases hq : c.entries[i]? with
      | none => rfl
      | some e2 =>
        simp only []
        split
        · rfl
        · exact ih _

theorem holds_iff {c : Cache} {fuel h : Nat} :
    c.holds fuel h = true ↔
      ∃ j e, Cache.find c h fuel (u32 h &&& c.mask) = Res.ok j ∧ c.entries[j]? = some e ∧
        e.keyHash = h := by
  unfold Cache.holds
  constructor
  · intro hh
    cases hf : Cache.find c h fuel (u32 h &&& c.mask) with
    | panic => rw [hf] at hh; cases hh
    | hang => rw [hf] at hh; cases hh
    | ok j =>
      rw [hf] at hh
      simp only [] at hh
      cases hq : c.entries[j]? with
      | none => rw [hq] at hh; cases hh
      | some e =>
        rw [hq] at hh
        simp only [decide_eq_true_eq] at hh
        exact ⟨j, e, rfl, hq, hh⟩
  · rintro ⟨j, e, hf, hq, hk⟩
    rw [hf]
    simp only []
    rw [hq]
    simp only [decide_eq_true_eq]
    exact hk

/-- Overwriting a record by one with the same digest changes no probe. -/
theorem holds_set_samehash {c c1 : Cache} {j : Nat} {e e1 : entry}
    (hm : c1.mask = c.mask) (he : c1.entries = c.entries.set j e1)
    (hj : c.entries[j]? = some e) (hk : e1.keyHash = e.keyHash) (fuel h : Nat) :
    c1.holds fuel h = c.holds fuel h := by
  have hlt := getElem?_lt hj
  have key : ∀ i : Nat, (c1.entries[i]?.map fun (x : entry) => x.keyHash)
      = (c.entries[i]?.map fun (x : entry) => x.keyHash) := by
    intro i
    rw [he]
    by_cases hij : j = i
    · subst hij
      rw [List.getElem?_set_self hlt, hj]
      simp [hk]
    · rw [List.getElem?_set_ne hij]
  rw [Bool.eq_iff_iff, holds_iff, holds_iff]
  constructor
  · rintro ⟨i, x, hf, hq, hx⟩
    rw [hm, find_set_samehash hm he hj hk] at hf
    have := key i
    rw [hq] at this
    cases hq2 : c.entries[i]? with
    | none => rw [hq2] at this; cases this
    | some y =>
      rw [hq2] at this
      simp only [Option.map_some', Option.some.injEq] at this
      exact ⟨i, y, hf, hq2, by rw [← this]; exact hx⟩
  · rintro ⟨i, x, hf, hq, hx⟩
    have hf1 : Cache.find c1 h fuel (u32 h &&& c1.mask) = Res.ok i := by
      rw [hm, find_set_samehash hm he hj hk]; exact hf
    have := key i
    rw [hq] at this
    cases hq2 : c1.entries[i]? with
    | none => rw [hq2] at this; cases this
    | some y =>
      rw [hq2] at this
      simp only [Option.map_some', Option.some.injEq] at this
      exact ⟨i, y, hf1, hq2, by rw [this]; exact hx⟩

/-- After a successful `Set` the table holds the digest just written. -/
theorem holds_setState {c : Cache} {fuel j : Nat} {k v : Bytes} {exp : Int} {e : entry}
    (hf : Cache.find c (hash k) fuel (u32 (hash k) &&& c.mask) = Res.ok j)
    (he : c.entries[j]? = some e) (hstop : e.keyHash = 0 ∨ e.keyHash = hash k) :
    (setState c j (hash k) k v exp).holds fuel (hash k) = true := by
  rw [holds_iff]
  have hm : (setState c j (hash k) k v exp).mask = c.mask := rfl
  refine ⟨j, setEntry c (hash k) k v exp, ?_, ?_, rfl⟩
  · rw [hm, find_set_stop hm rfl he hstop (Or.inr rfl), hf]
  · simp [setState, List.getElem?_set_self, getElem?_lt he]

/-- A successful `Set` of another digest keeps every digest the table holds. -/
theorem holds_setState_other {c : Cache} {fuel j1 h : Nat} {k v : Bytes} {exp : Int}
    {e1 : entry} (he1 : c.entries[j1]? = some e1)
    (hs1 : e1.keyHash = 0 ∨ e1.keyHash = hash k) (hne : hash k ≠ h) (hh : h ≠ 0)
    (hold : c.holds fuel h = true) :
    (setState c j1 (hash k) k v exp).holds fuel h = true := by
  rw [holds_iff] at hold ⊢
  obtain ⟨j, e, hf, he, hk⟩ := hold
  have hm : (setState c j1 (hash k) k v exp).mask = c.mask := rfl
  have hij : j1 ≠ j := by
    intro hcon
    subst hcon
    rw [he] at he1
    cases he1
    rcases hs1 with h0 | h0
    · exact hh (hk ▸ h0)
    · exact hne (h0 ▸ hk)
  refine ⟨j, e, ?_, ?_, hk⟩
  · rw [hm]
    exact find_set_other hm rfl rfl hne hh he hk he1 hs1 fuel _ hf
  · show (c.entries.set j1 _)[j]? = some e
    rw [List.getElem?_set_ne hij, he]

theorem newDigests_length (c : Cache) (fuel : Nat) (ps : List (Bytes × Bytes)) :
    (newDigests c fuel ps).length =
      ((ps.map (fun p => hash p.1)).filter (fun h => !c.holds fuel h)).toFinset.card := by
  unfold newDigests
  rw [List.card_toFinset]

theorem newDigests_step_held {c c1 : Cache} {fuel : Nat} {k v : Bytes}
    {rest : List (Bytes × Bytes)} (hheld : c.holds fuel (hash k) = true)
    (hsame : ∀ h, c1.holds fuel h = c.holds fuel h) :
    newDigests c1 fuel rest = newDigests c fuel ((k, v) :: rest) := by
  have hp : (fun h => !c1.holds fuel h) = (fun h => !c.holds fuel h) := by
    funext h
    rw [hsame]
  unfold newDigests
  rw [hp, List.map_cons, List.filter_cons]
  simp only [hheld, Bool.not_true, Bool.false_eq_true, if_false]

theorem newDigests_step_new {c c1 : Cache} {fuel : Nat} {k v : Bytes}
    {rest : List (Bytes × Bytes)} (hnew : c.holds fuel (hash k) = false)
    (hnow : c1.holds fuel (hash k) = true)
    (hkeep : ∀ h, h ≠ 0 → hash k ≠ h → c.holds fuel h = true → c1.holds fuel h = true)
    (hnz : ∀ p ∈ rest, hash p.1 ≠ 0) :
    (newDigests c1 fuel rest).length + 1 ≤ (newDigests c fuel ((k, v) :: rest)).length := by
  rw [newDigests_length, newDigests_length]
  have hmem : hash k ∈
      (((((k, v) :: rest).map (fun p => hash p.1)).filter
        (fun h => !c.holds fuel h)).toFinset) := by
    rw [List.mem_toFinset, List.mem_filter]
    exact ⟨by simp, by simp [hnew]⟩
  have hsub : ((rest.map (fun p => hash p.1)).filter (fun h => !c1.holds fuel h)).toFinset ⊆
      (((((k, v) :: rest).map (fun p => hash p.1)).filter
        (fun h => !c.holds fuel h)).toFinset).erase (hash k) := by
    intro x hx
    rw [List.mem_toFinset, List.mem_filter] at hx
    obtain ⟨hx1, hx2⟩ := hx
    have hx3 : c1.holds fuel x = false := by simpa using hx2
    have hxk : hash k ≠ x := by
      intro hcon
      rw [← hcon, hnow] at hx3
      cases hx3
    have hx0 : x ≠ 0 := by
      rw [List.mem_map] at hx1
      obtain ⟨p, hp, rfl⟩ := hx1
      exact hnz p hp
    have hxc : c.holds fuel x = false := by
      cases hc : c.holds fuel x with
      | false => rfl
      | true =>
        rw [hkeep x hx0 hxk hc] at hx3
        cases hx3
    rw [Finset.mem_erase, List.mem_toFinset, List.mem_filter]
    refine ⟨fun h => hxk h.symm, ?_, by simp [hxc]⟩
    rw [List.map_cons]
    exact List.mem_cons_of_mem _ hx1
  have h1 := Finset.card_le_card hsub
  rw [Finset.card_erase_of_mem hmem] at h1
  have h2 := Finset.card_pos.mpr ⟨hash k, hmem⟩
  omega

/-! ## The loop of `LoadBulk`: when it returns and what it has stored -/

theorem Set_eq_find {c : Cache} (hst : c.stopped = false) (fuel : Nat) (now : Int)
    (k v : Bytes) (ttl : Int) :
    Cache.Set fuel now c k v ttl =
      match Cache.find c (hash k) fuel (u32 (hash k) &&& c.mask) with
      | Res.ok j => Cache.setAt fuel c j (hash k) k v (expiry now ttl)
      | Res.panic => Res.panic
      | Res.hang => Res.hang := by
  have hns : ¬ (c.stopped = true) := by rw [hst]; decide
  unfold Cache.Set
  rw [if_neg hns, setLoop_eq_find]
  rfl

/-- A `Set` that returns, on a store that is not stopped and has arena room for the key and
the value, returns true. -/
theorem Set_of_returns {c c1 : Cache} {fuel : Nat} {now ttl : Int} {k v : Bytes} {b : Bool}
    (hst : c.stopped = false)
    (hfit : c.arena.pos + k.length + v.length ≤ c.arena.buf.length)
    (hlt : c.arena.pos + k.length + v.length < 2 ^ 32)
    (hs : Cache.Set fuel now c k v ttl = Res.ok (b, c1)) :
    ∃ j e, Cache.find c (hash k) fuel (u32 (hash k) &&& c.mask) = Res.ok j ∧
      c.entries[j]? = some e ∧ (e.keyHash = 0 ∨ e.keyHash = hash k) ∧
      b = true ∧ c1 = setState c j (hash k) k v (expiry now ttl) := by
  cases hf : Cache.find c (hash k) fuel (u32 (hash k) &&& c.mask) with
  | panic =>
    rw [Set_eq_find hst, hf] at hs
    cases hs
  | hang =>
    rw [Set_eq_find hst, hf] at hs
    cases hs
  | ok j =>
    rw [Set_of_find_fits hst hf hfit hlt now ttl] at hs
    simp only [Res.ok.injEq, Prod.mk.injEq] at hs
    obtain ⟨e, he, hstop⟩ := find_ok_stop hf
    exact ⟨j, e, rfl, he, hstop, hs.1.symm, hs.2.symm⟩

/-- A key that is stored is returned by `Get`, when the arena offset is a `uint32`. -/
theorem Stored_Get_pos {c : Cache} {fuel : Nat} {t : Int} {k v : Bytes}
    (hs : Stored c fuel t (hash k) v) (hh : hash k ≠ 0) (hst : c.stopped = false)
    (hpos : c.arena.pos ≤ c.arena.buf.length) (hp32 : c.arena.pos < 2 ^ 32) :
    ∃ c1, Cache.Get fuel t c k = Res.ok ((some v, true), c1) := by
  obtain ⟨j, e, hf, he, hk, hlive, hrange, hsl⟩ := hs
  have e1 : u32 (e.valOff + e.valLen) = e.valOff + e.valLen := u32_of_lt (by omega)
  have ok1 : sliceOk c.arena.buf e.valOff (e.valOff + e.valLen) := ⟨by omega, by omega⟩
  have hns : ¬ (c.stopped = true) := by rw [hst]; decide
  unfold Cache.Get
  rw [if_neg hns, getLoop_eq_find, hf]
  simp only [Cache.getLoop, he]
  rw [if_neg (by rw [hk]; exact hh), if_pos hk, if_neg hlive, e1, if_pos ok1, hsl]
  exact ⟨_, rfl⟩

theorem free_setState_held {c : Cache} {j : Nat} {e : entry} (he : c.entries[j]? = some e)
    {h : Nat} (hk : e.keyHash = h) (hh : h ≠ 0) (k v : Bytes) (exp : Int) :
    (setState c j h k v exp).free = c.free := by
  unfold Cache.free
  show (c.entries.set j (setEntry c h k v exp)).countP _ = _
  apply countP_set_same _ _ _ _ e he
  have h1 : (setEntry c h k v exp).keyHash = h := rfl
  simp [hk, h1, hh]

/-- The loop of `LoadBulk` returns, with every `Set` successful, on a well-formed store with
arena room for all pairs and an empty slot for each distinct digest it does not hold yet. -/
theorem loadPairs_returns (fuel : Nat) (now : Nat → Int) (ttl : Int) :
    ∀ (ps : List (Bytes × Bytes)) (i n : Nat) (c : Cache),
      c.WF → c.stopped = false → c.entries.length ≤ fuel →
      c.arena.pos + (ps.map (fun p => p.1.length + p.2.length)).sum ≤ c.arena.buf.length →
      c.arena.pos + (ps.map (fun p => p.1.length + p.2.length)).sum < 2 ^ 32 →
      (∀ p ∈ ps, hash p.1 ≠ 0) →
      (newDigests c fuel ps).length ≤ c.free →
      ∃ c1, loadPairs fuel now ttl ps i n c = Res.ok (n + ps.length, c1) := by
  intro ps
  induction ps with
  | nil =>
    intro i n c _ _ _ _ _ _ _
    exact ⟨c, by simp [loadPairs]⟩
  | cons q rest ih =>
    intro i n c hwf hst hfuel hroom hlt hnz hnew
    obtain ⟨k, v⟩ := q
    simp only [List.map_cons, List.sum_cons] at hroom hlt
    have hfit : c.arena.pos + k.length + v.length ≤ c.arena.buf.length := by omega
    have hlt1 : c.arena.pos + k.length + v.length < 2 ^ 32 := by omega
    have hk0 : hash k ≠ 0 := hnz (k, v) (List.mem_cons_self _ _)
    have hnz1 : ∀ p ∈ rest, hash p.1 ≠ 0 := fun p hp => hnz p (List.mem_cons_of_mem _ hp)
    have hstep : ∃ j e, Cache.find c (hash k) fuel (u32 (hash k) &&& c.mask) = Res.ok j ∧
        c.entries[j]? = some e ∧ (e.keyHash = 0 ∨ e.keyHash = hash k) ∧
        (newDigests (setState c j (hash k) k v (expiry (now i) ttl)) fuel rest).length
          ≤ (setState c j (hash k) k v (expiry (now i) ttl)).free := by
      cases hh : c.holds fuel (hash k) with
      | true =>
        obtain ⟨j, e, hf, he, hk⟩ := holds_iff.mp hh
        refine ⟨j, e, hf, he, Or.inr hk, ?_⟩
        have hsame : ∀ h, (setState c j (hash k) k v (expiry (now i) ttl)).holds fuel h
            = c.holds fuel h := fun h =>
          @holds_set_samehash c (setState c j (hash k) k v (expiry (now i) ttl)) j e
            (setEntry c (hash k) k v (expiry (now i) ttl)) rfl rfl he hk.symm fuel h
        rw [newDigests_step_held hh hsame, free_setState_held he hk hk0]
        exact hnew
      | false =>
        have hpos : 0 < (newDigests c fuel ((k, v) :: rest)).length := by
          rw [newDigests_length]
          apply Finset.card_pos.mpr
          refine ⟨hash k, ?_⟩
          rw [List.mem_toFinset, List.mem_filter]
          exact ⟨by simp, by simp [hh]⟩
        obtain ⟨j, e, hf, he, hstop, _⟩ :=
          @Set_ok c hwf hst (by omega) fuel hfuel k v hfit hlt1 (now i) ttl
        refine ⟨j, e, hf, he, hstop, ?_⟩
        have h1 := @newDigests_step_new c (setState c j (hash k) k v (expiry (now i) ttl))
          fuel k v rest hh (holds_setState hf he hstop)
          (fun h h0 hne hold => holds_setState_other he hstop hne h0 hold) hnz1
        have h2 := free_setState c j (hash k) k v (expiry (now i) ttl)
        omega
    obtain ⟨j, e, hf, he, hstop, hnew1⟩ := hstep
    have hSet := Set_of_find_fits hst hf hfit hlt1 (now i) ttl
    have hlen : (setState c j (hash k) k v (expiry (now i) ttl)).arena.buf.length
        = c.arena.buf.length := length_setBuf hfit
    obtain ⟨c1, hrun⟩ :=
      ih (i + 1) (n + 1) (setState c j (hash k) k v (expiry (now i) ttl))
        (WF_setState hwf _ _ _ _ _) hst (by simpa [setState] using hfuel)
        (by
          rw [hlen]
          show c.arena.pos + k.length + v.length + _ ≤ _
          omega)
        (by
          show c.arena.pos + k.length + v.length + _ < _
          omega)
        hnz1 hnew1
    refine ⟨c1, ?_⟩
    simp only [loadPairs, hSet]
    rw [hrun]
    congr 2
    simp only [List.length_cons]
    omega

/-- Whenever the loop of `LoadBulk` returns, on a store that is not stopped with arena room
for all pairs, every `Set` was successful, keys stored before and not loaded stay stored,
and every loaded pair whose digest is not loaded again later is stored (if it has not
expired). -/
theorem loadPairs_sound (fuel : Nat) (now : Nat → Int) (t ttl : Int) :
    ∀ (ps : List (Bytes × Bytes)) (i n : Nat) (c : Cache) (n1 : Nat) (c1 : Cache),
      c.stopped = false →
      c.arena.pos + (ps.map (fun p => p.1.length + p.2.length)).sum ≤ c.arena.buf.length →
      c.arena.pos + (ps.map (fun p => p.1.length + p.2.length)).sum < 2 ^ 32 →
      loadPairs fuel now ttl ps i n c = Res.ok (n1, c1) →
      n1 = n + ps.length ∧
        c1.stopped = false ∧ c1.arena.pos ≤ c1.arena.buf.length ∧ c1.arena.pos < 2 ^ 32 ∧
        (∀ h w, h ≠ 0 → Stored c fuel t h w → (∀ p ∈ ps, hash p.1 ≠ h) →
          Stored c1 fuel t h w) ∧
        (∀ ps1 k v ps2, ps = ps1 ++ (k, v) :: ps2 → hash k ≠ 0 →
          (∀ p ∈ ps2, hash p.1 ≠ hash k) →
          ¬ (expiry (now (i + ps1.length)) ttl > 0 ∧ t > expiry (now (i + ps1.length)) ttl) →
          Stored c1 fuel t (hash k) v) := by
  intro ps
  induction ps with
  | nil =>
    intro i n c n1 c1 hst hroom hlt hrun
    simp only [loadPairs, Res.ok.injEq, Prod.mk.injEq] at hrun
    obtain ⟨rfl, rfl⟩ := hrun
    refine ⟨rfl, hst, ?_, ?_, fun h w _ hs _ => hs, ?_⟩
    · simpa using hroom
    · simpa using hlt
    · intro ps1 k v ps2 hps
      simp at hps
  | cons q rest ih =>
    intro i n c n1 c1 hst hroom hlt hrun
    obtain ⟨k, v⟩ := q
    simp only [List.map_cons, List.sum_cons] at hroom hlt
    have hfit : c.arena.pos + k.length + v.length ≤ c.arena.buf.length := by omega
    have hlt1 : c.arena.pos + k.length + v.length < 2 ^ 32 := by omega
    simp only [loadPairs] at hrun
    cases hS : Cache.Set fuel (now i) c k v ttl with
    | panic => rw [hS] at hrun; cases hrun
    | hang => rw [hS] at hrun; cases hrun
    | ok r =>
      obtain ⟨b, c2⟩ := r
      obtain ⟨j, e, hf, he, hstop, rfl, rfl⟩ := Set_of_returns hst hfit hlt1 hS
      rw [hS] at hrun
      simp only [] at hrun
      have hlen : (setState c j (hash k) k v (expiry (now i) ttl)).arena.buf.length
          = c.arena.buf.length := length_setBuf hfit
      obtain ⟨hn1, hst1, hpos1, hp32, hframe, hlast⟩ :=
        ih (i + 1) (n + 1) (setState c j (hash k) k v (expiry (now i) ttl)) n1 c1 hst
          (by
            rw [hlen]
            show c.arena.pos + k.length + v.length + _ ≤ _
            omega)
          (by
            show c.arena.pos + k.length + v.length + _ < _
            omega)
          hrun
      refine ⟨?_, hst1, hpos1, hp32, ?_, ?_⟩
      · simp only [List.length_cons]
        omega
      · intro h w hh hs hnot
        apply hframe h w hh
        · exact Stored_set_other hs hh (hnot (k, v) (List.mem_cons_self _ _)) he hstop hfit
        · intro p hp
          exact hnot p (List.mem_cons_of_mem _ hp)
      · intro ps1 k0 v0 ps2 hps hh hnot hlive
        cases ps1 with
        | nil =>
          simp only [List.nil_append, List.cons.injEq, Prod.mk.injEq] at hps
          obtain ⟨⟨rfl, rfl⟩, rfl⟩ := hps
          simp only [List.length_nil, Nat.add_zero] at hlive
          exact hframe (hash k) v hh (Stored_set_same hf he hstop hfit hlive) hnot
        | cons q1 ps1 =>
          simp only [List.cons_append, List.cons.injEq] at hps
          apply hlast ps1 k0 v0 ps2 hps.2 hh hnot
          simp only [List.length_cons] at hlive
          rw [show i + 1 + ps1.length = i + (ps1.length + 1) by omega]
          exact hlive

/-! ## Claim C9 -/

theorem WF_store216ab : store216ab.WF := ⟨1, by decide, rfl, rfl, rfl⟩

/-- A `LoadBulk` of one pair whose `Set` panics, panics. -/
theorem LoadBulk_single_panics {fuel : Nat} {c : Cache} {k v : Bytes} (now : Nat → Int)
    (ttl : Int) (hS : Cache.Set fuel (now 0) c k v ttl = Res.panic) :
    Cache.LoadBulk fuel now c [k] [v] ttl = Res.panic := by
  have hz : [k].zip [v] = [(k, v)] := rfl
  rw [LoadBulk_eq_loadPairs, hz, loadPairs, hS]

theorem LoadBulk_store4G_panics (fuel : Nat) :
    Cache.LoadBulk (fuel + 1) (fun _ => 0) store4G [halfKey] [halfKey] 0 = Res.panic := by
  have hlen : store4G.arena.buf.length = 2 ^ 32 := length_zeros4G
  have hpos : store4G.arena.pos = 0 := rfl
  have hk : u32 halfKey.length = 2 ^ 31 := by rw [length_halfKey]; decide
  have hm : store4G.mask = 0 := rfl
  have he : store4G.entries[u32 (hash halfKey) &&& store4G.mask]? = some entry.zero := by
    rw [hm, Nat.and_zero]; rfl
  apply LoadBulk_single_panics
  rw [Set_eq_setAt (c := store4G) rfl he (Or.inl rfl)]
  apply setAt_wrap_panics
  · rw [hpos, hk, hlen]; decide
  · rw [hpos, hk]; decide
  · rw [hpos, hk]; decide
  · rw [hpos, hk, hlen]; decide

/-- C9 (as stated) fails in five ways.  (1) A key that occurs twice: `LoadBulk(["a", "a"],
["1", "2"], 0)` on `New(4, 8)` has arena headroom (4 bytes of 8) and returns 2, but the
second pair overwrites the first, so `Get(keys[0])` returns `("2", true)` and not
`(values[0], true)`.  (2) A full table: on `New(1, 8)` after `Set("a", "1", 0)` there is
headroom for `LoadBulk(["b"], ["2"], 0)`, but the probe of its `Set` finds neither an empty
slot nor the digest of `"b"` and does not return, whatever the loop budget.  (3) A key with
digest 0: `LoadBulk([zeroKey], ["1"], 0)` on `New(2, 24)` returns 1, and `Get(zeroKey)`
returns `(nil, false)`.  (4) Offsets that do not fit a `uint32`: on `New(1, 4294967296)` a
key and a value of `2 ^ 31` bytes each have headroom, and `LoadBulk` panics.  (5) Expiry:
after `LoadBulk(["a"], ["11"], 5)` at clock reading 10, `Get("a")` at clock reading 20
returns `(nil, false)`. -/
theorem C9_counterexample :
    (((([[97], [97]] : List Bytes).zip [[49], [50]]).map
        (fun p => p.1.length + p.2.length)).sum
        ≤ store48.arena.buf.length - store48.arena.pos ∧
      Cache.LoadBulk 4 (fun _ => 0) store48 [[97], [97]] [[49], [50]] 0
        = Res.ok (2, store48aa) ∧
      Cache.Get 4 0 store48aa [97] = Res.ok ((some [50], true), store48aa)) ∧
    (New 1 1 8 = Res.ok store18 ∧
      Cache.Set 1 0 store18 [97] [49] 0 = Res.ok (true, store18a) ∧
      (((([[98]] : List Bytes).zip [[50]]).map (fun p => p.1.length + p.2.length)).sum
        ≤ store18a.arena.buf.length - store18a.arena.pos) ∧
      ∀ fuel : Nat, Cache.LoadBulk fuel (fun _ => 0) store18a [[98]] [[50]] 0 = Res.hang) ∧
    (New 2 2 24 = Res.ok store2x24 ∧ hash zeroKey = 0 ∧
      ((([zeroKey].zip [[49]]).map (fun p => p.1.length + p.2.length)).sum
        ≤ store2x24.arena.buf.length - store2x24.arena.pos) ∧
      Cache.LoadBulk 2 (fun _ => 0) store2x24 [zeroKey] [[49]] 0 = Res.ok (1, store2x24z) ∧
      Cache.Get 2 0 store2x24z zeroKey = Res.ok ((none, false), store2x24z)) ∧
    (New 1 1 (2 ^ 32) = Res.ok store4G ∧
      halfKey.length + halfKey.length ≤ store4G.arena.buf.length - store4G.arena.pos ∧
      ∀ fuel : Nat,
        Cache.LoadBulk (fuel + 1) (fun _ => 0) store4G [halfKey] [halfKey] 0 = Res.panic) ∧
    (((([[97]] : List Bytes).zip [[49, 49]]).map (fun p => p.1.length + p.2.length)).sum
        ≤ store24.arena.buf.length - store24.arena.pos ∧
      Cache.LoadBulk 2 (fun _ => 10) store24 [[97]] [[49, 49]] 5
        = Res.ok (1, store24ttl 15) ∧
      (Cache.Get 2 20 (store24ttl 15) [97]).map (fun r => r.1) = Res.ok (none, false)) := by
  refine ⟨⟨by decide, by decide, by decide⟩,
    ⟨by decide, by decide, by decide, LoadBulk_store18a_hang⟩,
    ⟨by decide, by decide, by decide, by decide, by decide⟩,
    ⟨New_store4G, ?_, LoadBulk_store4G_panics⟩,
    ⟨by decide, by decide, by decide⟩⟩
  have hlen : store4G.arena.buf.length = 2 ^ 32 := length_zeros4G
  have hpos : store4G.arena.pos = 0 := rfl
  rw [length_halfKey, hlen, hpos]
  norm_num

/-- C9 (amended). Single-shard LoadBulk count, with `m = min(len(keys), len(values))`: for a
store as `New` builds it (power-of-two table, offset at most the capacity) that is not
stopped, and sequences of any lengths whose first `m` keys have non-zero digests, if the
arena has headroom for all `m` pairs and the offset after them is below `2 ^ 32`, then
(a) `LoadBulk(keys, values, ttl)`, run with a loop budget of at least `size`, returns `m`
when the table has an empty slot for each distinct digest among the first `m` keys that it
does not hold yet (none is needed for keys it holds); and (b) whenever
`LoadBulk(keys, values, ttl)` returns, it returns `m`, and afterwards, for every `j < m`
whose digest does not occur again at a later index below `m`, `Get(k)` of every key `k`
with the digest of `keys[j]` (so `keys[j]` itself and every earlier occurrence of it)
returns `(values[j], true)`, at a time `t` at which pair `j` has not expired (`ttl <= 0` or
`t <= now_j + ttl`). -/
theorem C9_loadbulk_count (fuel : Nat) (now : Nat → Int) (t : Int) (c : Cache)
    (keys values : List Bytes) (ttl : Int)
    (hwf : c.WF) (hst : c.stopped = false)
    (hpos : c.arena.pos ≤ c.arena.buf.length)
    (hroom : ((keys.zip values).map (fun p => p.1.length + p.2.length)).sum
      ≤ c.arena.buf.length - c.arena.pos)
    (hlt : c.arena.pos + ((keys.zip values).map (fun p => p.1.length + p.2.length)).sum
      < 2 ^ 32)
    (hnz : ∀ i k, i < values.length → keys[i]? = some k → hash k ≠ 0) :
    (c.entries.length ≤ fuel → (newDigests c fuel (keys.zip values)).length ≤ c.free →
      ∃ c1, Cache.LoadBulk fuel now c keys values ttl
        = Res.ok (min keys.length values.length, c1)) ∧
    ∀ n c1, Cache.LoadBulk fuel now c keys values ttl = Res.ok (n, c1) →
      n = min keys.length values.length ∧
      ∀ j kj vj k, keys[j]? = some kj → values[j]? = some vj → hash k = hash kj →
        (∀ l kl, j < l → l < values.length → keys[l]? = some kl → hash kl ≠ hash kj) →
        (ttl ≤ 0 ∨ (-(2 ^ 63) ≤ now j ∧ now j < 2 ^ 63 ∧ ttl < 2 ^ 63 ∧ t ≤ now j + ttl)) →
        ∃ c2, Cache.Get fuel t c1 k = Res.ok ((some vj, true), c2) := by
  have hzl : (keys.zip values).length = min keys.length values.length :=
    List.length_zip _ _
  have hnzp : ∀ p ∈ keys.zip values, hash p.1 ≠ 0 := by
    intro p hp
    obtain ⟨idx, hidx, rfl⟩ := List.getElem_of_mem hp
    rw [hzl] at hidx
    rw [List.getElem_zip]
    exact hnz idx _ (by omega) (List.getElem?_eq_getElem (by omega))
  constructor
  · intro hfuel hnew
    obtain ⟨c1, hrun⟩ := loadPairs_returns fuel now ttl (keys.zip values) 0 0 c hwf hst hfuel
      (by omega) hlt hnzp hnew
    exact ⟨c1, by rw [LoadBulk_eq_loadPairs, hrun, Nat.zero_add, hzl]⟩
  · intro n c1 hrun
    rw [LoadBulk_eq_loadPairs] at hrun
    obtain ⟨hn, hst1, hpos1, hp32, _, hlast⟩ :=
      loadPairs_sound fuel now t ttl (keys.zip values) 0 0 c n c1 hst (by omega) hlt hrun
    refine ⟨by rw [hn, Nat.zero_add, hzl], ?_⟩
    intro j kj vj k hk hv hkk hnot hlive
    have hik := getElem?_lt hk
    have hiv := getElem?_lt hv
    have hiz : j < (keys.zip values).length := by rw [hzl]; omega
    have hki : keys[j] = kj := by
      rw [List.getElem?_eq_getElem hik] at hk; exact Option.some.inj hk
    have hvi : values[j] = vj := by
      rw [List.getElem?_eq_getElem hiv] at hv; exact Option.some.inj hv
    have hsplit : keys.zip values
        = (keys.zip values).take j ++ (kj, vj) :: (keys.zip values).drop (j + 1) := by
      conv_lhs => rw [← List.take_append_drop j (keys.zip values)]
      rw [List.drop_eq_getElem_cons hiz, List.getElem_zip, hki, hvi]
    have hh : hash kj ≠ 0 := hnz j kj hiv hk
    have hlen : ((keys.zip values).take j).length = j := by
      rw [List.length_take]
      omega
    have hSt := hlast _ kj vj _ hsplit hh (by
      intro p hp
      obtain ⟨idx, hidx, rfl⟩ := List.getElem_of_mem hp
      rw [List.length_drop] at hidx
      rw [List.getElem_drop, List.getElem_zip]
      have hjz : j + 1 + idx < (keys.zip values).length := by omega
      rw [hzl] at hjz
      exact hnot (j + 1 + idx) _ (by omega) (by omega)
        (List.getElem?_eq_getElem (by omega)))
      (by
        rw [hlen, Nat.zero_add]
        exact not_expired hlive)
    rw [← hkk] at hSt hh
    exact Stored_Get_pos hSt hh hst1 hpos1 hp32

theorem C9_loadbulk_count_witness :
    store216ab.free = 0 ∧
    (∃ c1, Cache.LoadBulk 2 (fun _ => 0) store216ab [[97], [98], [97]]
        [[120], [121], [122], [123]] 1000000000 = Res.ok (min 3 4, c1)) ∧
    ∀ n c1, Cache.LoadBulk 2 (fun _ => 0) store216ab [[97], [98], [97]]
        [[120], [121], [122], [123]] 1000000000 = Res.ok (n, c1) →
      n = min 3 4 ∧
      ∀ j kj vj k, ([[97], [98], [97]] : List Bytes)[j]? = some kj →
        ([[120], [121], [122], [123]] : List Bytes)[j]? = some vj → hash k = hash kj →
        (∀ l kl, j < l → l < 4 → ([[97], [98], [97]] : List Bytes)[l]? = some kl →
          hash kl ≠ hash kj) →
        ((1000000000 : Int) ≤ 0 ∨ (-(2 ^ 63) ≤ (0 : Int) ∧ (0 : Int) < 2 ^ 63 ∧
          (1000000000 : Int) < 2 ^ 63 ∧ (500 : Int) ≤ 0 + 1000000000)) →
        ∃ c2, Cache.Get 2 500 c1 k = Res.ok ((some vj, true), c2) :=
  ⟨by decide,
   (C9_loadbulk_count 2 (fun _ => 0) 500 store216ab [[97], [98], [97]]
      [[120], [121], [122], [123]] 1000000000 WF_store216ab (by decide) (by decide)
      (by decide) (by decide)
      (by
        intro i k hi hk
        have : i < 3 := getElem?_lt hk
        interval_cases i <;> simp at hk <;> subst hk <;> decide)).1 (by decide) (by decide),
   (C9_loadbulk_count 2 (fun _ => 0) 500 store216ab [[97], [98], [97]]
      [[120], [121], [122], [123]] 1000000000 WF_store216ab (by decide) (by decide)
      (by decide) (by decide)
      (by
        intro i k hi hk
        have : i < 3 := getElem?_lt hk
        interval_cases i <;> simp at hk <;> subst hk <;> decide)).2⟩

/-! ## The shape of every store in use -/

theorem Shaped_of_eq {c c1 : Cache} (h : c.Shaped) (hs : c1.size = c.size)
    (hm : c1.mask = c.mask) (hl : c1.entries.length = c.entries.length)
    (hc : c.clock < c.entries.length → c1.clock < c1.entries.length) : c1.Shaped := by
  obtain ⟨⟨p, hp, h1, h2, h3⟩, hck⟩ := h
  refine ⟨⟨p, hp, hs.trans h1, hm.trans h2, hl.trans h3⟩, ?_⟩
  have := hc (by rw [h3, ← h1]; exact hck)
  rw [hl, h3, ← h1, ← hs] at this
  exact this

theorem evict_shape {fuel : Nat} {c c1 : Cache} (h : Cache.evict fuel c = Res.ok c1) :
    c1.size = c.size ∧ c1.mask = c.mask ∧ c1.entries.length = c.entries.length ∧
      c1.clock < c1.entries.length := by
  obtain ⟨hm, hs, _, _, hl, ⟨e1, he1, _⟩, _⟩ := evict_spec fuel c c1 h
  exact ⟨hs, hm, hl, getElem?_lt he1⟩

theorem setFail_shape {fuel : Nat} {c c1 : Cache} {b : Bool}
    (h : Cache.setFail fuel c = Res.ok (b, c1)) :
    c1.size = c.size ∧ c1.mask = c.mask ∧ c1.entries.length = c.entries.length ∧
      c1.clock < c1.entries.length := by
  obtain ⟨ce, he, rfl⟩ := setFail_false h
  obtain ⟨a1, a2, a3, a4⟩ := evict_shape he
  exact ⟨a1, a2, a3, a4⟩

theorem setAt_shape {fuel : Nat} {c c1 : Cache} {j h : Nat} {key val : Bytes} {exp : Int}
    {b : Bool} (hs : Cache.setAt fuel c j h key val exp = Res.ok (b, c1)) :
    c1.size = c.size ∧ c1.mask = c.mask ∧ c1.entries.length = c.entries.length ∧
      (c.clock < c.entries.length → c1.clock < c1.entries.length) := by
  unfold Cache.setAt arena.alloc at hs
  by_cases h1 : c.arena.buf.length < u32 (c.arena.pos + u32 key.length)
  · rw [if_pos h1] at hs
    simp only [] at hs
    obtain ⟨a1, a2, a3, a4⟩ := setFail_shape hs
    exact ⟨a1, a2, a3, fun _ => a4⟩
  · rw [if_neg h1] at hs
    simp only [] at hs
    by_cases h2 : c.arena.buf.length
        < u32 (u32 (c.arena.pos + u32 key.length) + u32 val.length)
    · rw [if_pos h2] at hs
      simp only [] at hs
      obtain ⟨a1, a2, a3, a4⟩ := setFail_shape hs
      exact ⟨a1, a2, a3, fun _ => a4⟩
    · rw [if_neg h2] at hs
      simp only [] at hs
      split_ifs at hs
      simp only [Res.ok.injEq, Prod.mk.injEq] at hs
      obtain ⟨_, rfl⟩ := hs
      exact ⟨rfl, rfl, by simp, fun hc => by simpa using hc⟩

theorem Set_shape {fuel : Nat} {now ttl : Int} {c c1 : Cache} {k v : Bytes} {b : Bool}
    (hs : Cache.Set fuel now c k v ttl = Res.ok (b, c1)) :
    c1.size = c.size ∧ c1.mask = c.mask ∧ c1.entries.length = c.entries.length ∧
      (c.clock < c.entries.length → c1.clock < c1.entries.length) := by
  cases hst : c.stopped with
  | true =>
    rw [Set_stopped hst, Res.ok.injEq, Prod.mk.injEq] at hs
    obtain ⟨_, rfl⟩ := hs
    exact ⟨rfl, rfl, rfl, fun hc => hc⟩
  | false =>
    rw [Set_eq_find hst] at hs
    cases hf : Cache.find c (hash k) fuel (u32 (hash k) &&& c.mask) with
    | panic => rw [hf] at hs; cases hs
    | hang => rw [hf] at hs; cases hs
    | ok j =>
      rw [hf] at hs
      exact setAt_shape hs

theorem Get_shape {fuel : Nat} {now : Int} {c c1 : Cache} {k : Bytes}
    {r : Option Bytes × Bool} (hg : Cache.Get fuel now c k = Res.ok (r, c1)) :
    c1.size = c.size ∧ c1.mask = c.mask ∧ c1.entries.length = c.entries.length ∧
      c1.clock = c.clock := by
  unfold Cache.Get at hg
  split_ifs at hg
  · simp only [Res.ok.injEq, Prod.mk.injEq] at hg
    obtain ⟨_, rfl⟩ := hg
    exact ⟨rfl, rfl, rfl, rfl⟩
  · rw [getLoop_eq_find] at hg
    cases hf : Cache.find c (hash k) fuel (u32 (hash k) &&& c.mask) with
    | panic => rw [hf] at hg; cases hg
    | hang => rw [hf] at hg; cases hg
    | ok j =>
      rw [hf] at hg
      simp only [Cache.getLoop] at hg
      cases he : c.entries[j]? with
      | none => rw [he] at hg; cases hg
      | some e =>
        rw [he] at hg
        simp only [] at hg
        split_ifs at hg <;> simp only [Res.ok.injEq, Prod.mk.injEq] at hg <;>
          obtain ⟨_, rfl⟩ := hg <;> exact ⟨rfl, rfl, by simp, rfl⟩

theorem Delete_shape {fuel : Nat} {c c1 : Cache} {k : Bytes}
    (hd : Cache.Delete fuel c k = Res.ok c1) :
    c1.size = c.size ∧ c1.mask = c.mask ∧ c1.entries.length = c.entries.length ∧
      c1.clock = c.clock := by
  unfold Cache.Delete at hd
  rw [deleteLoop_eq_find] at hd
  cases hf : Cache.find c (hash k) fuel (u32 (hash k) &&& c.mask) with
  | panic => rw [hf] at hd; cases hd
  | hang => rw [hf] at hd; cases hd
  | ok j =>
    rw [hf] at hd
    simp only [Cache.deleteLoop] at hd
    cases he : c.entries[j]? with
    | none => rw [he] at hd; cases hd
    | some e =>
      rw [he] at hd
      simp only [] at hd
      split_ifs at hd <;> simp only [Res.ok.injEq] at hd <;> subst hd <;>
        exact ⟨rfl, rfl, by simp, rfl⟩

/-- No call changes the shape of the store. -/
theorem apply_Shaped {fuel : Nat} {now : Int} {c c1 : Cache} {op : Op} {r : Ret}
    (h : c.Shaped) (ha : Cache.apply fuel now c op = Res.ok (r, c1)) : c1.Shaped := by
  cases op with
  | set k v ttl =>
    simp only [Cache.apply] at ha
    cases hS : Cache.Set fuel now c k v ttl with
    | panic => rw [hS] at ha; cases ha
    | hang => rw [hS] at ha; cases ha
    | ok p =>
      obtain ⟨b, c2⟩ := p
      rw [hS] at ha
      simp only [Res.map, Res.ok.injEq, Prod.mk.injEq] at ha
      obtain ⟨_, rfl⟩ := ha
      obtain ⟨a1, a2, a3, a4⟩ := Set_shape hS
      exact Shaped_of_eq h a1 a2 a3 a4
  | get k =>
    simp only [Cache.apply] at ha
    cases hG : Cache.Get fuel now c k with
    | panic => rw [hG] at ha; cases ha
    | hang => rw [hG] at ha; cases ha
    | ok p =>
      obtain ⟨q, c2⟩ := p
      rw [hG] at ha
      simp only [Res.map, Res.ok.injEq, Prod.mk.injEq] at ha
      obtain ⟨_, rfl⟩ := ha
      obtain ⟨a1, a2, a3, a4⟩ := Get_shape hG
      exact Shaped_of_eq h a1 a2 a3 (fun hc => by rw [a3, a4]; exact hc)
  | delete k =>
    simp only [Cache.apply] at ha
    cases hD : Cache.Delete fuel c k with
    | panic => rw [hD] at ha; cases ha
    | hang => rw [hD] at ha; cases ha
    | ok c2 =>
      rw [hD] at ha
      simp only [Res.map, Res.ok.injEq, Prod.mk.injEq] at ha
      obtain ⟨_, rfl⟩ := ha
      obtain ⟨a1, a2, a3, a4⟩ := Delete_shape hD
      exact Shaped_of_eq h a1 a2 a3 (fun hc => by rw [a3, a4]; exact hc)
  | reset =>
    simp only [Cache.apply, Res.ok.injEq, Prod.mk.injEq] at ha
    obtain ⟨_, rfl⟩ := ha
    obtain ⟨⟨p, hp, h1, h2, h3⟩, hck⟩ := h
    refine ⟨⟨p, hp, h1, h2, by simp [Cache.Reset, h3]⟩, ?_⟩
    show 0 < c.size
    omega
  | stop =>
    simp only [Cache.apply, Res.ok.injEq, Prod.mk.injEq] at ha
    obtain ⟨_, rfl⟩ := ha
    exact h

theorem run_Shaped {fuel : Nat} {now : Nat → Int} {ops : List Op} :
    ∀ {i : Nat} {c c1 : Cache} {rets : List Ret}, c.Shaped →
      Cache.run fuel now i ops c = Res.ok (rets, c1) → c1.Shaped := by
  induction ops with
  | nil =>
    intro i c c1 rets h hr
    simp only [Cache.run, Res.ok.injEq, Prod.mk.injEq] at hr
    rw [← hr.2]
    exact h
  | cons op ops ih =>
    intro i c c1 rets h hr
    simp only [Cache.run] at hr
    cases ha : Cache.apply fuel (now i) c op with
    | panic => rw [ha] at hr; cases hr
    | hang => rw [ha] at hr; cases hr
    | ok p =>
      obtain ⟨r, c2⟩ := p
      rw [ha] at hr
      simp only [] at hr
      cases hrest : Cache.run fuel now (i + 1) ops c2 with
      | panic => rw [hrest] at hr; cases hr
      | hang => rw [hrest] at hr; cases hr
      | ok q =>
        obtain ⟨rs, c3⟩ := q
        rw [hrest] at hr
        simp only [Res.map, Res.ok.injEq, Prod.mk.injEq] at hr
        rw [← hr.2]
        exact ih (apply_Shaped h ha) hrest

/-- Every store reached from `New` by a sequence of calls has the shape `Cache.WF`, with the
clock hand below `size`. -/
theorem reachable_WF {fuel fuel1 : Nat} {cap arenaSize : Int} {now : Nat → Int}
    {ops : List Op} {c0 c : Cache} {rets : List Ret}
    (h0 : New fuel cap arenaSize = Res.ok c0)
    (hr : Cache.run fuel1 now 0 ops c0 = Res.ok (rets, c)) : c.WF ∧ c.clock < c.size :=
  run_Shaped (New_WF h0) hr

end Fastcache
